import Mathlib

/-!
Formal model of the utility core of the jira_dashboard repository
(helper_func.py): timestamp normalisation (format_timestamp,
is_timestamp_within_days), metric aggregation (calculate_item_metrics,
BugCalculator) and JSON extraction (extract_json_from_result).

Modelling conventions:
* Python floats are modelled as rationals (no claim depends on binary64
  rounding); `float(s)` is modelled for finite decimal literals
  (inf/nan/underscore forms are out of scope).
* `datetime` instants are modelled as rational epoch seconds with the
  local timezone fixed to UTC; `datetime.now()` is an explicit `now`
  parameter.  No claim depends on the timezone offset.
* Exceptions are modelled with `Except`/`Option`; a total Lean function
  into `String`/`Bool`/`Option` models a Python function that catches
  everything ("never raises").
-/

/-- Exact decimal numbers `num / 10^exp`: an executable model of the
finite decimal values (Python floats, JSON numbers, epoch instants)
flowing through the timestamp and JSON layers.  All operations are
plain integer arithmetic, so terms reduce inside the kernel. -/
structure Dec where
  num : Int
  exp : Nat
deriving DecidableEq, Repr

def pow10 : Nat → Int
  | 0 => 1
  | n + 1 => 10 * pow10 n

def Dec.ofInt (n : Int) : Dec := ⟨n, 0⟩

def Dec.neg (a : Dec) : Dec := ⟨-a.num, a.exp⟩

def Dec.add (a b : Dec) : Dec :=
  ⟨a.num * pow10 b.exp + b.num * pow10 a.exp, a.exp + b.exp⟩

def Dec.sub (a b : Dec) : Dec := a.add b.neg

/-- Multiply by `10^e` for an integer `e` (decimal exponents). -/
def Dec.mulPow10 (a : Dec) (e : Int) : Dec :=
  if 0 ≤ e then ⟨a.num * pow10 e.toNat, a.exp⟩ else ⟨a.num, a.exp + (-e).toNat⟩

/-- Boolean `a ≤ b` on decimals (cross-multiplied by the positive
denominators `10^exp`). -/
def Dec.ble (a b : Dec) : Bool :=
  decide (a.num * pow10 b.exp ≤ b.num * pow10 a.exp)

/-- Floor to an integer: `⌊num / 10^exp⌋`. -/
def Dec.floor (a : Dec) : Int := a.num.fdiv (pow10 a.exp)

/-- Python runtime values reaching the timestamp helpers: strings, ints,
floats (as exact decimals), `None`, and any other object represented by
its type name and truthiness. -/
inductive PyVal where
  | str (s : String)
  | int (n : Int)
  | float (q : Dec)
  | none
  | other (typeName : String) (truthy : Bool)
deriving DecidableEq, Repr

/-- Python truthiness (`bool(v)`). -/
def pyTruthy : PyVal → Bool
  | .str s => !(s == "")
  | .int n => !(n == 0)
  | .float q => !(q.num == 0)
  | .none => false
  | .other _ t => t

/-- Python `type(v).__name__` for the modelled values. -/
def pyTypeName : PyVal → String
  | .str _ => "str"
  | .int _ => "int"
  | .float _ => "float"
  | .none => "NoneType"
  | .other t _ => t

/-- The ASCII whitespace set recognised by Python's `str.strip()` /
`str.split()`. -/
def pyIsSpace (c : Char) : Bool :=
  c == ' ' || c == '\t' || c == '\n' || c == '\x0d' || c == '\x0b' || c == '\x0c'

/-- Python `s.strip()` on the character list. -/
def pyStripL (l : List Char) : List Char :=
  ((l.dropWhile pyIsSpace).reverse.dropWhile pyIsSpace).reverse

/-- Python `s.split()` (split on whitespace runs, discarding empty pieces). -/
def pySplitWsAux : List Char → List Char → List String
  | [], acc => if acc.isEmpty then [] else [⟨acc.reverse⟩]
  | c :: cs, acc =>
    if pyIsSpace c then
      if acc.isEmpty then pySplitWsAux cs [] else ⟨acc.reverse⟩ :: pySplitWsAux cs []
    else pySplitWsAux cs (c :: acc)

def pySplitWs (l : List Char) : List String := pySplitWsAux l []

/-- ASCII `str.lower()`. -/
def asciiLower (c : Char) : Char :=
  if 'A' ≤ c && c ≤ 'Z' then Char.ofNat (c.toNat + 32) else c

def pyLower (s : String) : String := ⟨s.data.map asciiLower⟩

/-! ### Decimal float literals (`float(s)`) -/

def digitsToNat (l : List Char) : Nat :=
  l.foldl (fun a c => a * 10 + (c.toNat - 48)) 0

/-- Unsigned decimal mantissa: `D+ [. D*] | . D+`, as the exact decimal
`intpart.fracpart`. -/
def parseUnsignedFloat (l : List Char) : Option (Dec × List Char) :=
  let ip := l.takeWhile Char.isDigit
  let r1 := l.dropWhile Char.isDigit
  match r1 with
  | '.' :: r2 =>
    let fp := r2.takeWhile Char.isDigit
    let r3 := r2.dropWhile Char.isDigit
    if ip.isEmpty && fp.isEmpty then Option.none
    else some (⟨(digitsToNat ip : Int) * pow10 fp.length + (digitsToNat fp : Int),
      fp.length⟩, r3)
  | _ => if ip.isEmpty then Option.none else some (⟨(digitsToNat ip : Int), 0⟩, r1)

/-- Model of Python `float(s)` on finite decimal literals:
optional surrounding whitespace, optional sign, mantissa, optional
`e`/`E` exponent.  `none` models `ValueError`. -/
def pyFloatParse (s : String) : Option Dec :=
  let l := pyStripL s.data
  let sgn : Int × List Char :=
    match l with
    | '+' :: r => (1, r)
    | '-' :: r => (-1, r)
    | _ => (1, l)
  match parseUnsignedFloat sgn.2 with
  | Option.none => Option.none
  | some (m, r) =>
    match r with
    | [] => some ⟨sgn.1 * m.num, m.exp⟩
    | c :: r' =>
      if c == 'e' || c == 'E' then
        let es : Int × List Char :=
          match r' with
          | '+' :: t => (1, t)
          | '-' :: t => (-1, t)
          | _ => (1, r')
        let ed := es.2.takeWhile Char.isDigit
        let r3 := es.2.dropWhile Char.isDigit
        if ed.isEmpty || !r3.isEmpty then Option.none
        else some (Dec.mulPow10 ⟨sgn.1 * m.num, m.exp⟩ (es.1 * (digitsToNat ed : Int)))
      else Option.none

/-! ### Calendar conversion (proleptic Gregorian, Hinnant's algorithms) -/

def isLeapYear (y : Int) : Bool :=
  (y % 4 == 0 && !(y % 100 == 0)) || (y % 400 == 0)

def daysInMonth (y : Int) (m : Nat) : Nat :=
  if m == 2 then (if isLeapYear y then 29 else 28)
  else if m == 4 || m == 6 || m == 9 || m == 11 then 30
  else 31

/-- Days since 1970-01-01 of a civil date. -/
def daysFromCivil (y : Int) (m d : Nat) : Int :=
  let y' : Int := if m ≤ 2 then y - 1 else y
  let era : Int := (if 0 ≤ y' then y' else y' - 399) / 400
  let yoe : Int := y' - era * 400
  let mp : Int := if m > 2 then (m : Int) - 3 else (m : Int) + 9
  let doy : Int := (153 * mp + 2) / 5 + (d : Int) - 1
  let doe : Int := yoe * 365 + yoe / 4 - yoe / 100 + doy
  era * 146097 + doe - 719468

/-- Civil date of a day count since 1970-01-01 (valid for the guarded
epoch range, where `z + 719468 ≥ 0`). -/
def civilFromDays (z : Int) : Int × Nat × Nat :=
  let n : Nat := (z + 719468).toNat
  let era := n / 146097
  let doe := n % 146097
  let yoe := (doe - doe / 1460 + doe / 36524 - doe / 146096) / 365
  let doy := doe - (365 * yoe + yoe / 4 - yoe / 100)
  let mp := (5 * doy + 2) / 153
  let d := doy - (153 * mp + 2) / 5 + 1
  let m := if mp < 10 then mp + 3 else mp - 9
  (if m ≤ 2 then (yoe : Int) + era * 400 + 1 else (yoe : Int) + era * 400, m, d)

inductive PyExc where
  | valueError
  | overflowError
deriving DecidableEq, Repr

/-- Model of `datetime.fromtimestamp` validation (local timezone fixed
to UTC): epochs out of the platform integer range raise
`OverflowError`; epochs whose calendar year falls outside 1..9999 raise
`ValueError`; otherwise the instant itself is returned. -/
def fromtimestampE (q : Dec) : Except PyExc Dec :=
  let z : Int := Dec.floor q
  if z > 9223372036854775807 || z < -9223372036854775808 then .error .overflowError
  else if z < -62135596800 || z > 253402300799 then .error .valueError
  else .ok q

/-- Left-pad with zeros to width `w` (`strftime` zero padding). -/
def zfill (w : Nat) (s : String) : String :=
  ⟨List.replicate (w - s.data.length) '0' ++ s.data⟩

/-- Model of `datetime.fromtimestamp(q).strftime("%Y-%m-%d %H:%M:%S")` for an
epoch already validated by `fromtimestampE`. -/
def dtFormatFromEpoch (q : Dec) : String :=
  let z : Int := Dec.floor q
  let days : Int := z / 86400 - (if z % 86400 < 0 then 1 else 0)
  let sod : Nat := (z - days * 86400).toNat
  let c := civilFromDays days
  zfill 4 (toString c.1.toNat) ++ "-" ++ zfill 2 (toString c.2.1) ++ "-" ++
    zfill 2 (toString c.2.2) ++ " " ++ zfill 2 (toString (sod / 3600)) ++ ":" ++
    zfill 2 (toString (sod % 3600 / 60)) ++ ":" ++ zfill 2 (toString (sod % 60))

/-! ### format_timestamp -/

/-- The `try:` block body of `format_timestamp` (helper_func.py lines
92-119), with the inner `except ValueError` handler already applied;
`Except.error` models an exception escaping to the outer handler. -/
def format_timestamp_body (v : PyVal) : Except PyExc String :=
  match v with
  | .str s =>
    if s.data.contains '-' && decide (s.length > 10) then .ok s
    else
      match pySplitWs (pyStripL s.data) with
      | [] => .ok "Unknown Format"
      | tok :: _ =>
        match pyFloatParse tok with
        | Option.none => .ok s
        | some q =>
          match fromtimestampE q with
          | .ok t => .ok (dtFormatFromEpoch t)
          | .error .valueError => .ok s
          | .error .overflowError => .error .overflowError
  | .int n =>
    match fromtimestampE (Dec.ofInt n) with
    | .ok t => .ok (dtFormatFromEpoch t)
    | .error e => .error e
  | .float q =>
    match fromtimestampE q with
    | .ok t => .ok (dtFormatFromEpoch t)
    | .error e => .error e
  | _ => .ok "Unknown Format"

/-- helper_func.py lines 87-123. -/
def format_timestamp (v : PyVal) : String :=
  if !pyTruthy v || v == .str "None" || v == .str "" then "Not Set"
  else
    match format_timestamp_body v with
    | .ok s => s
    | .error _ => "Invalid (" ++ pyTypeName v ++ ")"

/-! ### ISO-8601 parsing (`datetime.fromisoformat`) -/

def twoDigits : List Char → Option (Nat × List Char)
  | a :: b :: r =>
    if a.isDigit && b.isDigit then some ((a.toNat - 48) * 10 + (b.toNat - 48), r)
    else Option.none
  | _ => Option.none

def fourDigits : List Char → Option (Nat × List Char)
  | a :: b :: c :: d :: r =>
    if a.isDigit && b.isDigit && c.isDigit && d.isDigit then
      some (digitsToNat [a, b, c, d], r)
    else Option.none
  | _ => Option.none

/-- Time part `HH[:MM[:SS[.ffffff]]]`, returning seconds-of-day. -/
def parseIsoTime (l : List Char) : Option (Dec × List Char) :=
  match twoDigits l with
  | Option.none => Option.none
  | some (h, r1) =>
    if 24 ≤ h then Option.none
    else
      match r1 with
      | ':' :: r2 =>
        match twoDigits r2 with
        | Option.none => Option.none
        | some (mi, r3) =>
          if 60 ≤ mi then Option.none
          else
            match r3 with
            | ':' :: r4 =>
              match twoDigits r4 with
              | Option.none => Option.none
              | some (s, r5) =>
                if 60 ≤ s then Option.none
                else
                  match r5 with
                  | '.' :: r6 =>
                    let fd := r6.takeWhile Char.isDigit
                    let r7 := r6.dropWhile Char.isDigit
                    if fd.isEmpty || decide (6 < fd.length) then Option.none
                    else some (⟨((h * 3600 + mi * 60 + s : Nat) : Int) * pow10 fd.length +
                      (digitsToNat fd : Int), fd.length⟩, r7)
                  | _ => some (⟨((h * 3600 + mi * 60 + s : Nat) : Int), 0⟩, r5)
            | _ => some (⟨((h * 3600 + mi * 60 : Nat) : Int), 0⟩, r3)
      | _ => some (⟨((h * 3600 : Nat) : Int), 0⟩, r1)

/-- Trailing `±HH:MM[:SS]` UTC offset in seconds; `[]` means naive
(offset 0 in the UTC model). `none` models a parse error. -/
def parseIsoOffset (l : List Char) : Option Dec :=
  match l with
  | [] => some (Dec.ofInt 0)
  | c :: r =>
    if c == '+' || c == '-' then
      let sgn : Int := if c == '-' then -1 else 1
      match twoDigits r with
      | some (oh, ':' :: r2) =>
        if 24 ≤ oh then Option.none
        else
          match twoDigits r2 with
          | some (om, r3) =>
            if 60 ≤ om then Option.none
            else
              match r3 with
              | [] => some (Dec.ofInt (sgn * ((oh * 3600 + om * 60 : Nat) : Int)))
              | ':' :: r4 =>
                match twoDigits r4 with
                | some (os, []) =>
                  if 60 ≤ os then Option.none
                  else some (Dec.ofInt (sgn * ((oh * 3600 + om * 60 + os : Nat) : Int)))
                | _ => Option.none
              | _ => Option.none
          | Option.none => Option.none
      | _ => Option.none
    else Option.none

/-- Model of `datetime.fromisoformat` (normalised to a UTC epoch; an
aware result is converted to naive UTC, matching lines 139-145 of
helper_func.py): `YYYY-MM-DD[<sep>HH[:MM[:SS[.f{1-6}]]][±HH:MM[:SS]]]`. -/
def fromisoformatEpoch (l : List Char) : Option Dec :=
  match fourDigits l with
  | Option.none => Option.none
  | some (y, r1) =>
    match r1 with
    | '-' :: r2 =>
      match twoDigits r2 with
      | some (m, '-' :: r3) =>
        match twoDigits r3 with
        | Option.none => Option.none
        | some (d, r4) =>
          if 1 ≤ y && y ≤ 9999 && 1 ≤ m && m ≤ 12 && 1 ≤ d &&
              d ≤ daysInMonth (y : Int) m then
            match r4 with
            | [] => some (Dec.ofInt (daysFromCivil (y : Int) m d * 86400))
            | _ :: r5 =>
              match parseIsoTime r5 with
              | Option.none => Option.none
              | some (tod, r6) =>
                match parseIsoOffset r6 with
                | Option.none => Option.none
                | some off =>
                  some (Dec.sub (Dec.add (Dec.ofInt (daysFromCivil (y : Int) m d * 86400))
                    tod) off)
          else Option.none
      | _ => Option.none
    | _ => Option.none

/-- Python `ts.replace('Z', '+00:00')`. -/
def replaceZ : List Char → List Char
  | [] => []
  | c :: r =>
    if c == 'Z' then '+' :: '0' :: '0' :: ':' :: '0' :: '0' :: replaceZ r
    else c :: replaceZ r

/-! ### is_timestamp_within_days -/

/-- The instant (UTC epoch seconds) that `is_timestamp_within_days`
derives from its argument; `none` when every parse attempt fails. -/
def parseInstant (v : PyVal) : Option Dec :=
  match v with
  | .str s =>
    let ts := pyStripL s.data
    let iso : Option Dec :=
      if (ts.contains 'T' && ts.contains '-') || (ts.contains '-' && ts.contains ':') then
        fromisoformatEpoch (replaceZ ts)
      else Option.none
    match iso with
    | some t => some t
    | Option.none =>
      match pySplitWs ts with
      | [] => Option.none
      | tok :: _ =>
        match pyFloatParse tok with
        | Option.none => Option.none
        | some q => (fromtimestampE q).toOption
  | .int n => (fromtimestampE (Dec.ofInt n)).toOption
  | .float q => (fromtimestampE q).toOption
  | _ => Option.none

/-- The cutoff `datetime.now() - timedelta(days=days)` of
helper_func.py line 166.  `timedelta(days=days)` raises `OverflowError`
for `|days| > 999999999`, and the subtraction raises `OverflowError`
when the resulting datetime falls outside `datetime.min ..
datetime.max` (years 1..9999, epoch seconds -62135596800 ..
253402300799); both escape to the outer handler of line 169, modelled
as `none`. -/
def cutoffE (now : Dec) (days : Int) : Option Dec :=
  if days < -999999999 || 999999999 < days then Option.none
  else
    let cut := Dec.sub now (Dec.ofInt (days * 86400))
    let z := Dec.floor cut
    if z < -62135596800 || z > 253402300799 then Option.none
    else some cut

/-- helper_func.py lines 126-170; `now` models `datetime.now()` as a
UTC epoch; the cutoff computation may itself raise, in which case the
outer handler returns `False`. -/
def is_timestamp_within_days (now : Dec) (v : PyVal) (days : Int) : Bool :=
  if !pyTruthy v then false
  else
    match v with
    | .str s =>
      let ts := pyStripL s.data
      let iso : Option Dec :=
        if (ts.contains 'T' && ts.contains '-') || (ts.contains '-' && ts.contains ':') then
          fromisoformatEpoch (replaceZ ts)
        else Option.none
      match iso with
      | some dt =>
        match cutoffE now days with
        | some cut => Dec.ble cut dt
        | Option.none => false
      | Option.none =>
        match pySplitWs ts with
        | [] => false
        | tok :: _ =>
          match pyFloatParse tok with
          | Option.none => false
          | some q =>
            match fromtimestampE q with
            | .ok dt =>
              match cutoffE now days with
              | some cut => Dec.ble cut dt
              | Option.none => false
            | .error _ => false
    | .int n =>
      match fromtimestampE (Dec.ofInt n) with
      | .ok dt =>
        match cutoffE now days with
        | some cut => Dec.ble cut dt
        | Option.none => false
      | .error _ => false
    | .float q =>
      match fromtimestampE q with
      | .ok dt =>
        match cutoffE now days with
        | some cut => Dec.ble cut dt
        | Option.none => false
      | .error _ => false
    | _ => false

/-! ### BugCalculator -/

/-- helper_func.py lines 512-525. -/
structure BugCalculator where
  priority_ids : List String
  priority_name : String
  bug_type_ids : List String
deriving DecidableEq, Repr

/-- Method `is_within_last_month` of `BugCalculator` (helper_func.py lines 543-571):
the numeric-epoch path only, no ISO-8601 attempt. -/
def BugCalculator.is_within_last_month (_self : BugCalculator) (now : Dec) (v : PyVal) : Bool :=
  if !pyTruthy v then false
  else
    match v with
    | .str s =>
      match pySplitWs (pyStripL s.data) with
      | [] => false
      | tok :: _ =>
        match pyFloatParse tok with
        | Option.none => false
        | some q =>
          match fromtimestampE q with
          | .ok dt => Dec.ble (Dec.sub now (Dec.ofInt (30 * 86400))) dt
          | .error _ => false
    | .int n =>
      match fromtimestampE (Dec.ofInt n) with
      | .ok dt => Dec.ble (Dec.sub now (Dec.ofInt (30 * 86400))) dt
      | .error _ => false
    | .float q =>
      match fromtimestampE q with
      | .ok dt => Dec.ble (Dec.sub now (Dec.ofInt (30 * 86400))) dt
      | .error _ => false
    | _ => false

/-! ### calculate_item_metrics -/

/-- One JIRA record as consumed by `calculate_item_metrics`: a dict with
optional fields (`none` models a missing key, so that `item.get(k, d)`
defaulting is explicit). -/
structure Item where
  key : Option PyVal
  summary : Option PyVal
  priority : Option PyVal
  status : Option PyVal
  created : Option PyVal
  updated : Option PyVal
  resolution_date : Option PyVal
deriving DecidableEq, Repr

/-- helper_func.py lines 185-187 (`calculate_item_metrics.is_resolved`):
`resolution_date and resolution_date != 'Unknown' and resolution_date != 'Invalid'`,
evaluated on the raw field value. -/
def is_resolved (resolution_date : PyVal) : Bool :=
  pyTruthy resolution_date && !(resolution_date == .str "Unknown") &&
    !(resolution_date == .str "Invalid")

/-- The bug-specific metrics dict (helper_func.py lines 191-202). -/
structure BugMetrics where
  total_blocker_bugs : Nat
  total_critical_bugs : Nat
  total_blocker_bugs_resolved : Nat
  total_critical_bugs_resolved : Nat
  blocker_bugs_recent_activity : Nat
  critical_bugs_recent_activity : Nat
  blocker_bugs_created_recently : Nat
  critical_bugs_created_recently : Nat
  blocker_bugs_resolved_recently : Nat
  critical_bugs_resolved_recently : Nat
deriving DecidableEq, Repr

/-- The generic metrics dict (helper_func.py lines 204-211); the
priority histogram is an insertion-ordered association list, like a
Python dict. -/
structure GenericMetrics where
  total_items : Nat
  total_resolved_items : Nat
  items_recent_activity : Nat
  items_created_recently : Nat
  items_resolved_recently : Nat
  priority_breakdown : List (PyVal × Nat)
deriving DecidableEq, Repr

inductive Metrics where
  | bug : BugMetrics → Metrics
  | generic : GenericMetrics → Metrics
deriving DecidableEq, Repr

/-- Histogram update `breakdown[p] += 1` with insertion on first sight (lines 246-249). -/
def bumpKey : List (PyVal × Nat) → PyVal → List (PyVal × Nat)
  | [], p => [(p, 1)]
  | (k, n) :: rest, p =>
    if k == p then (k, n + 1) :: rest else (k, n) :: bumpKey rest p

/-- Entry of `recent_activity_items` (lines 252-260). -/
structure ActivityEntry where
  key : PyVal
  summary : PyVal
  priority : PyVal
  status : PyVal
  updated : String
  created : String
  resolution_date : String
deriving DecidableEq, Repr

/-- Entry of `recently_created_items` (lines 275-280). -/
structure CreatedEntry where
  key : PyVal
  summary : PyVal
  priority : PyVal
  created : String
deriving DecidableEq, Repr

/-- Entry of `recently_resolved_items` (lines 293-298). -/
structure ResolvedEntry where
  key : PyVal
  summary : PyVal
  priority : PyVal
  resolution_date : String
deriving DecidableEq, Repr

structure CIMResult where
  metrics : Metrics
  recent_activity_items : List ActivityEntry
  recently_created_items : List CreatedEntry
  recently_resolved_items : List ResolvedEntry
deriving DecidableEq, Repr

/-- Net effect of one loop iteration on the bug metrics dict, grouped
per counter (the Python loop updates the same counters in four
sequential `if` blocks; the flags are the loop-local booleans). -/
def bugStep (isB isC isr cR rR : Bool) (b : BugMetrics) : BugMetrics :=
  { b with
    total_blocker_bugs := b.total_blocker_bugs + (if isB then 1 else 0)
    total_critical_bugs :=
      b.total_critical_bugs + (if isB then 0 else if isC then 1 else 0)
    total_blocker_bugs_resolved :=
      b.total_blocker_bugs_resolved + (if isB && isr then 1 else 0)
    total_critical_bugs_resolved :=
      b.total_critical_bugs_resolved +
        (if isB then 0 else if isC && isr then 1 else 0)
    blocker_bugs_recent_activity :=
      b.blocker_bugs_recent_activity + (if isB then 1 else 0)
    critical_bugs_recent_activity :=
      b.critical_bugs_recent_activity + (if isB then 0 else if isC then 1 else 0)
    blocker_bugs_created_recently :=
      b.blocker_bugs_created_recently + (if cR && isB then 1 else 0)
    critical_bugs_created_recently :=
      b.critical_bugs_created_recently +
        (if cR && !isB && isC then 1 else 0)
    blocker_bugs_resolved_recently :=
      b.blocker_bugs_resolved_recently + (if rR && isB then 1 else 0)
    critical_bugs_resolved_recently :=
      b.critical_bugs_resolved_recently +
        (if rR && !isB && isC then 1 else 0) }

/-- Net effect of one loop iteration on the generic metrics dict. -/
def genStep (priority : PyVal) (isr cR rR : Bool) (g : GenericMetrics) : GenericMetrics :=
  { g with
    total_items := g.total_items + 1
    total_resolved_items := g.total_resolved_items + (if isr then 1 else 0)
    items_recent_activity := g.items_recent_activity + 1
    items_created_recently := g.items_created_recently + (if cR then 1 else 0)
    items_resolved_recently := g.items_resolved_recently + (if rR then 1 else 0)
    priority_breakdown := bumpKey g.priority_breakdown priority }

def bugUpd (f : BugMetrics → BugMetrics) : Metrics → Metrics
  | .bug b => .bug (f b)
  | m => m

def genUpd (f : GenericMetrics → GenericMetrics) : Metrics → Metrics
  | .generic g => .generic (f g)
  | m => m

/-- The body of the `for item in all_items:` loop (helper_func.py lines
217-307), regrouped per result field; the net effect on each field is
that of the Python statement sequence. -/
def processItem (now : Dec) (analysis_period_days : Int) (item_type : String)
    (st : CIMResult) (item : Item) : CIMResult :=
  let priority := item.priority.getD (.str "Unknown")
  let created := item.created.getD (.str "")
  let updated := item.updated.getD (.str "")
  let resolution_date := item.resolution_date.getD (.str "")
  let is_item_resolved := is_resolved resolution_date
  let isBug := pyLower item_type == "bug"
  let isB := priority == .str "1"
  let isC := priority == .str "2"
  let cR := is_timestamp_within_days now created analysis_period_days
  let rR := is_item_resolved &&
    is_timestamp_within_days now resolution_date analysis_period_days
  { metrics :=
      if isBug then bugUpd (bugStep isB isC is_item_resolved cR rR) st.metrics
      else genUpd (genStep priority is_item_resolved cR rR) st.metrics
    recent_activity_items := st.recent_activity_items ++
      [⟨item.key.getD (.str "Unknown"), item.summary.getD (.str "No summary"),
        priority, item.status.getD (.str "Unknown"), format_timestamp updated,
        format_timestamp created, format_timestamp resolution_date⟩]
    recently_created_items :=
      if cR then
        st.recently_created_items ++
          [⟨item.key.getD (.str "Unknown"), item.summary.getD (.str "No summary"),
            priority, format_timestamp created⟩]
      else st.recently_created_items
    recently_resolved_items :=
      if rR then
        st.recently_resolved_items ++
          [⟨item.key.getD (.str "Unknown"), item.summary.getD (.str "No summary"),
            priority, format_timestamp resolution_date⟩]
      else st.recently_resolved_items }

/-- Initial metrics dict (helper_func.py lines 190-211). -/
def initMetrics (item_type : String) : Metrics :=
  if pyLower item_type == "bug" then .bug ⟨0, 0, 0, 0, 0, 0, 0, 0, 0, 0⟩
  else .generic ⟨0, 0, 0, 0, 0, []⟩

/-- helper_func.py lines 173-314. -/
def calculate_item_metrics (now : Dec) (all_items : List Item)
    (analysis_period_days : Int) (item_type : String) : CIMResult :=
  all_items.foldl (processItem now analysis_period_days item_type)
    ⟨initMetrics item_type, [], [], []⟩

/-! ### JSON values and `json.loads` -/

/-- JSON whitespace as skipped by `json.loads`. -/
def jsonWs (c : Char) : Bool :=
  c == ' ' || c == '\t' || c == '\n' || c == '\x0d'

def skipWs (l : List Char) : List Char := l.dropWhile jsonWs

/-- Parsed JSON documents (numbers as rationals; objects as
insertion-ordered association lists). -/
inductive Json where
  | null
  | bool (b : Bool)
  | num (q : Dec)
  | str (s : String)
  | arr (elems : List Json)
  | obj (members : List (String × Json))
deriving Repr

/-- Single-character string escapes accepted by `json.loads`. -/
def escChar : Char → Option Char
  | '"' => some '"'
  | '\\' => some '\\'
  | '/' => some '/'
  | 'b' => some '\x08'
  | 'f' => some '\x0c'
  | 'n' => some '\n'
  | 'r' => some '\x0d'
  | 't' => some '\t'
  | _ => Option.none

def hexVal (c : Char) : Option Nat :=
  if '0' ≤ c && c ≤ '9' then some (c.toNat - 48)
  else if 'a' ≤ c && c ≤ 'f' then some (c.toNat - 87)
  else if 'A' ≤ c && c ≤ 'F' then some (c.toNat - 55)
  else Option.none

/-- Body of a JSON string literal, after the opening quote; consumes up
to and including the closing quote.  (`\u` escapes with fewer than four
following characters fall into the single-escape case with `e = 'u'`,
which `escChar` rejects — as in CPython.) -/
def parseStringBody : List Char → List Char → Option (String × List Char)
  | [], _ => Option.none
  | c :: r, acc =>
    if c == '"' then some (⟨acc.reverse⟩, r)
    else if c == '\\' then
      match r with
      | [] => Option.none
      | e :: r2 =>
        if e == 'u' then
          match r2 with
          | h1 :: h2 :: h3 :: h4 :: r3 =>
            match hexVal h1, hexVal h2, hexVal h3, hexVal h4 with
            | some a, some b, some cc, some d =>
              parseStringBody r3 (Char.ofNat (((a * 16 + b) * 16 + cc) * 16 + d) :: acc)
            | _, _, _, _ => Option.none
          | _ => Option.none
        else
          match escChar e with
          | some ec => parseStringBody r2 (ec :: acc)
          | Option.none => Option.none
    else if c.toNat < 32 then Option.none
    else parseStringBody r (c :: acc)

/-- Integer part of a JSON number: `0 | [1-9][0-9]*`. -/
def parseIntPart : List Char → Option (Nat × List Char)
  | [] => Option.none
  | c :: r =>
    if c == '0' then some (0, r)
    else if c.isDigit then
      some (digitsToNat ((c :: r).takeWhile Char.isDigit), (c :: r).dropWhile Char.isDigit)
    else Option.none

/-- Optional fraction `(\.[0-9]+)?`; like the CPython scanner regex, a
dot not followed by a digit is left unconsumed. -/
def parseFracPart (ip : Nat) (r : List Char) : Dec × List Char :=
  match r with
  | [] => (⟨(ip : Int), 0⟩, [])
  | c :: rf =>
    if c == '.' then
      let fd := rf.takeWhile Char.isDigit
      if fd.isEmpty then (⟨(ip : Int), 0⟩, c :: rf)
      else (⟨(ip : Int) * pow10 fd.length + (digitsToNat fd : Int), fd.length⟩,
        rf.dropWhile Char.isDigit)
    else (⟨(ip : Int), 0⟩, c :: rf)

/-- Optional exponent `([eE][-+]?[0-9]+)?`; an `e` not followed by a
(signed) digit is left unconsumed. -/
def parseExpPart (m : Dec) (r : List Char) : Dec × List Char :=
  match r with
  | [] => (m, [])
  | c :: rE =>
    if c == 'e' || c == 'E' then
      let es : Int × List Char :=
        match rE with
        | [] => (1, [])
        | c2 :: u =>
          if c2 == '+' then (1, u) else if c2 == '-' then (-1, u) else (1, c2 :: u)
      let ed := es.2.takeWhile Char.isDigit
      if ed.isEmpty then (m, c :: rE)
      else (Dec.mulPow10 m (es.1 * (digitsToNat ed : Int)), es.2.dropWhile Char.isDigit)
    else (m, c :: rE)

/-- JSON number: `-? (0|[1-9][0-9]*) (\.[0-9]+)? ([eE][-+]?[0-9]+)?`. -/
def parseNumber (l : List Char) : Option (Dec × List Char) :=
  let s : Int × List Char :=
    match l with
    | [] => (1, [])
    | c :: r => if c == '-' then (-1, r) else (1, c :: r)
  match parseIntPart s.2 with
  | Option.none => Option.none
  | some (ip, r1) =>
    let fr := parseFracPart ip r1
    let ex := parseExpPart fr.1 fr.2
    some (⟨s.1 * ex.1.num, ex.1.exp⟩, ex.2)

/-- Match a fixed literal tail character by character, returning the
remainder on success. -/
def dropLit : List Char → List Char → Option (List Char)
  | [], l => some l
  | p :: ps, c :: cs => if c == p then dropLit ps cs else Option.none
  | _ :: _, [] => Option.none

/-- Parser mode: a value, the member list of an object (after `{`,
first key expected), or the element list of an array. -/
inductive PMode where
  | val
  | members (acc : List (String × Json))
  | elems (acc : List Json)

/-- Fuel-indexed recursive-descent parser implementing the `json.loads`
grammar. -/
def parseF : Nat → PMode → List Char → Option (Json × List Char)
  | 0, _, _ => Option.none
  | f + 1, .val, cs =>
    match cs with
    | [] => Option.none
    | c :: rest =>
      if c == '{' then
        match skipWs rest with
        | [] => parseF f (.members []) []
        | d :: r2 =>
          if d == '}' then some (.obj [], r2) else parseF f (.members []) (d :: r2)
      else if c == '[' then
        match skipWs rest with
        | [] => parseF f (.elems []) []
        | d :: r2 =>
          if d == ']' then some (.arr [], r2) else parseF f (.elems []) (d :: r2)
      else if c == '"' then
        match parseStringBody rest [] with
        | some (s, r) => some (.str s, r)
        | Option.none => Option.none
      else if c == 't' then
        match dropLit ['r', 'u', 'e'] rest with
        | some r => some (.bool true, r)
        | Option.none => Option.none
      else if c == 'f' then
        match dropLit ['a', 'l', 's', 'e'] rest with
        | some r => some (.bool false, r)
        | Option.none => Option.none
      else if c == 'n' then
        match dropLit ['u', 'l', 'l'] rest with
        | some r => some (.null, r)
        | Option.none => Option.none
      else
        match parseNumber (c :: rest) with
        | some (q, r) => some (.num q, r)
        | Option.none => Option.none
  | f + 1, .members acc, cs =>
    match cs with
    | [] => Option.none
    | c :: rest =>
      if c == '"' then
        match parseStringBody rest [] with
        | Option.none => Option.none
        | some (k, r1) =>
          match skipWs r1 with
          | [] => Option.none
          | c2 :: r3 =>
            if c2 == ':' then
              match parseF f .val (skipWs r3) with
              | Option.none => Option.none
              | some (v, r4) =>
                match skipWs r4 with
                | [] => Option.none
                | c3 :: r6 =>
                  if c3 == ',' then parseF f (.members (acc ++ [(k, v)])) (skipWs r6)
                  else if c3 == '}' then some (.obj (acc ++ [(k, v)]), r6)
                  else Option.none
            else Option.none
      else Option.none
  | f + 1, .elems acc, cs =>
    match parseF f .val cs with
    | Option.none => Option.none
    | some (v, r1) =>
      match skipWs r1 with
      | [] => Option.none
      | c2 :: r3 =>
        if c2 == ',' then parseF f (.elems (acc ++ [v])) (skipWs r3)
        else if c2 == ']' then some (.arr (acc ++ [v]), r3)
        else Option.none

/-- Model of `json.loads`: skip leading whitespace, parse one value,
require only whitespace after it.  `none` models `JSONDecodeError`. -/
def jsonLoads (l : List Char) : Option Json :=
  let cs := skipWs l
  match parseF (2 * cs.length + 1) .val cs with
  | some (v, r) => if (skipWs r).isEmpty then some v else Option.none
  | Option.none => Option.none

/-! ### The brace-depth scanner of extract_json_from_result -/

/-- The character loop of helper_func.py lines 358-383: depth / in-string
/ escape-next state; returns the number of characters up to and
including the brace closing depth to zero (`end_idx`), or `none`. -/
def scanAux : Int → Bool → Bool → List Char → Option Nat
  | _, _, _, [] => Option.none
  | d, inS, esc, c :: cs =>
    if esc then (scanAux d inS false cs).map (· + 1)
    else if c == '\\' && inS then (scanAux d inS true cs).map (· + 1)
    else if c == '"' && !inS then (scanAux d true false cs).map (· + 1)
    else if c == '"' && inS then (scanAux d false false cs).map (· + 1)
    else if !inS && c == '{' then (scanAux (d + 1) inS false cs).map (· + 1)
    else if !inS && c == '}' then
      if d - 1 == 0 then some 1 else (scanAux (d - 1) inS false cs).map (· + 1)
    else (scanAux d inS esc cs).map (· + 1)

def scanFind (l : List Char) : Option Nat := scanAux 0 false false l

/-! ### extract_json_from_result -/

/-- Python `s.split('\n')`. -/
def splitNl : List Char → List (List Char)
  | [] => [[]]
  | c :: cs =>
    if c == '\n' then [] :: splitNl cs
    else
      match splitNl cs with
      | [] => [[c]]
      | l :: rest => (c :: l) :: rest

/-- Python `'\n'.join(lines)`. -/
def joinNl : List (List Char) → List Char
  | [] => []
  | [l] => l
  | l :: rest => l ++ '\n' :: joinNl rest

/-- The shared tail of `extract_json_from_result` (helper_func.py lines
353-392): full-string `json.loads`, then the brace-depth scan fallback
when the string starts with `{`. -/
def extractCore (rs : List Char) : Option Json :=
  match jsonLoads rs with
  | some v => some v
  | Option.none =>
    match rs with
    | '{' :: _ =>
      match scanFind rs with
      | some e => jsonLoads (rs.take e)
      | Option.none => Option.none
    | _ => Option.none

/-- String path of `extract_json_from_result` (helper_func.py lines
331-392): strip, unwrap a leading markdown code fence, full parse, then
brace-scan recovery.  The `dict` / `.raw` branches of lines 319-329 do
not apply to a string argument. -/
def extract_json_from_string (l : List Char) : Option Json :=
  let rs := pyStripL l
  match rs with
  | '`' :: '`' :: '`' :: _ =>
    let lines := splitNl rs
    let start_idx : Nat :=
      if pyStripL (lines.headD []) == "```json".data ||
          pyStripL (lines.headD []) == "```".data then 1
      else 0
    let body := (lines.drop start_idx).takeWhile (fun ln => !(pyStripL ln == "```".data))
    let jc := joinNl body
    match jsonLoads jc with
    | some v => some v
    | Option.none => extractCore (pyStripL jc)
  | _ => extractCore rs

def extract_json_from_result (s : String) : Option Json :=
  extract_json_from_string s.data

/-- Raw priority of a record (`item.get('priority', 'Unknown')`). -/
def prioOf (it : Item) : PyVal := it.priority.getD (.str "Unknown")

/-- Raw resolution date of a record (`item.get('resolution_date', '')`). -/
def rdOf (it : Item) : PyVal := it.resolution_date.getD (.str "")

/-- Raw creation date of a record (`item.get('created', '')`). -/
def createdOf (it : Item) : PyVal := it.created.getD (.str "")

/-- A boundary at which a JSON number literal cannot extend: end of
input, or a next character that is no digit, `.`, `e` or `E`. -/
def goodB : List Char → Bool
  | [] => true
  | c :: _ => !(c.isDigit || c == '.' || c == 'e' || c == 'E')

/-! ## Supporting lemmas -/

theorem string_mk_length (l : List Char) : (String.mk l).length = l.length := rfl

theorem zfill_length (w : Nat) (s : String) : w ≤ (zfill w s).length := by
  simp only [zfill, string_mk_length, List.length_append, List.length_replicate]
  omega

theorem dtFormatFromEpoch_length (q : Dec) : 10 < (dtFormatFromEpoch q).length := by
  unfold dtFormatFromEpoch
  simp only [String.length_append]
  have h1 := zfill_length 4 (toString (civilFromDays (Dec.floor q / 86400 -
    (if Dec.floor q % 86400 < 0 then 1 else 0))).1.toNat)
  have h2 := zfill_length 2 (toString (civilFromDays (Dec.floor q / 86400 -
    (if Dec.floor q % 86400 < 0 then 1 else 0))).2.1)
  have e1 : ("-" : String).length = 1 := rfl
  have e2 : (" " : String).length = 1 := rfl
  have e3 : (":" : String).length = 1 := rfl
  omega

theorem dtFormatFromEpoch_dash (q : Dec) : (dtFormatFromEpoch q).data.contains '-' = true := by
  unfold dtFormatFromEpoch
  have hd : ("-" : String).data = ['-'] := rfl
  simp [String.data_append, hd, List.contains_eq_any_beq, List.any_append]

theorem format_timestamp_preformatted (s : String)
    (hc : s.data.contains '-' = true) (hl : 10 < s.length) :
    format_timestamp (.str s) = s := by
  have hne : ¬(s = "") := by
    intro h; subst h; simp at hl
  have hnn : ¬(s = "None") := by
    intro h; subst h; simp [String.length] at hl
  unfold format_timestamp
  have hg : (!pyTruthy (PyVal.str s) || PyVal.str s == PyVal.str "None" ||
      PyVal.str s == PyVal.str "") = false := by
    simp [pyTruthy, hne, hnn]
  rw [hg]
  have hb : format_timestamp_body (.str s) = .ok s := by
    simp only [format_timestamp_body]
    rw [hc]
    simp [hl]
  simp [hb]

/-! ## C2: format_timestamp parse-failure sentinel -/

/-- C2 counterexample: `float("abc")` raises `ValueError` (a parse
failure), yet `format_timestamp("abc")` returns the original string
`"abc"`, not the sentinel `"Invalid (str)"`. -/
theorem format_timestamp_parse_failure_counterexample :
    pyFloatParse "abc" = Option.none ∧ format_timestamp (.str "abc") = "abc" ∧
      "abc" ≠ "Invalid (str)" :=
  ⟨by decide, by decide, by decide⟩

/-- C2 (amended): `format_timestamp` never raises (it is a total
function into `String`), and whenever a parse failure escapes the inner
string-branch `ValueError` handler — i.e. the `try:` body raises — the
result is the sentinel `"Invalid (<type>)"` naming the original value's
type.  A string whose first token fails `float()` parsing is instead
returned unchanged by the inner handler. -/
theorem format_timestamp_invalid_sentinel :
    ∀ (v : PyVal) (e : PyExc), format_timestamp_body v = .error e →
      format_timestamp v = "Invalid (" ++ pyTypeName v ++ ")" := by
  intro v e hb
  unfold format_timestamp
  have hg : (!pyTruthy v || v == PyVal.str "None" || v == PyVal.str "") = false := by
    cases v with
    | str s =>
      rcases eq_or_ne s "" with rfl | h1
      · rw [show format_timestamp_body (PyVal.str "") = Except.ok "Unknown Format"
          from rfl] at hb
        simp at hb
      · rcases eq_or_ne s "None" with rfl | h2
        · rw [show format_timestamp_body (PyVal.str "None") = Except.ok "None"
            from rfl] at hb
          simp at hb
        · simp [pyTruthy, h1, h2]
    | int n =>
      rcases eq_or_ne n 0 with rfl | h1
      · rw [show format_timestamp_body (PyVal.int 0) = Except.ok "1970-01-01 00:00:00"
          from rfl] at hb
        simp at hb
      · simp [pyTruthy, h1]
    | float q =>
      by_cases h1 : q.num = 0
      · have hfe : fromtimestampE q = .ok q := by
          unfold fromtimestampE Dec.floor
          rw [h1]
          simp [Int.zero_fdiv]
        rw [show format_timestamp_body (PyVal.float q) = .ok (dtFormatFromEpoch q)
          from by simp [format_timestamp_body, hfe]] at hb
        simp at hb
      · simp [pyTruthy, h1]
    | none =>
      rw [show format_timestamp_body PyVal.none = Except.ok "Unknown Format" from rfl] at hb
      simp at hb
    | other t b =>
      cases b
      · rw [show format_timestamp_body (PyVal.other t false) = Except.ok "Unknown Format"
          from rfl] at hb
        simp at hb
      · simp [pyTruthy]
  rw [hg]
  simp [hb]

theorem format_timestamp_invalid_sentinel_witness :
    format_timestamp (PyVal.int 999999999999) = "Invalid (int)" := by
  have h := format_timestamp_invalid_sentinel (PyVal.int 999999999999) PyExc.valueError rfl
  exact h.trans (by decide)

/-! ## C7: format_timestamp idempotence -/

theorem format_timestamp_echo (s : String)
    (hg : (!pyTruthy (PyVal.str s) || PyVal.str s == PyVal.str "None" ||
      PyVal.str s == PyVal.str "") = false)
    (hb : format_timestamp_body (.str s) = .ok s) :
    format_timestamp (.str s) = s := by
  unfold format_timestamp
  rw [hg]
  simp [hb]

theorem format_timestamp_idem_aux (v : PyVal) :
    format_timestamp (.str (format_timestamp v)) = format_timestamp v := by
  have hNS : format_timestamp (.str "Not Set") = "Not Set" := by decide
  have hUF : format_timestamp (.str "Unknown Format") = "Unknown Format" := by decide
  have hIS : format_timestamp (.str "Invalid (str)") = "Invalid (str)" := by decide
  have hII : format_timestamp (.str "Invalid (int)") = "Invalid (int)" := by decide
  have hIF : format_timestamp (.str "Invalid (float)") = "Invalid (float)" := by decide
  cases hg : (!pyTruthy v || v == PyVal.str "None" || v == PyVal.str "") with
  | true =>
    have hv : format_timestamp v = "Not Set" := by
      unfold format_timestamp; rw [hg]; simp
    rw [hv, hNS]
  | false =>
    have hv : format_timestamp v =
        match format_timestamp_body v with
        | .ok s => s
        | .error _ => "Invalid (" ++ pyTypeName v ++ ")" := by
      unfold format_timestamp; rw [hg]; simp
    cases v with
    | str s =>
      by_cases hpre : (s.data.contains '-' && decide (s.length > 10)) = true
      · have hb : format_timestamp_body (.str s) = .ok s := by
          simp only [format_timestamp_body]
          simp at hpre
          rw [if_pos (by simp [hpre.1, hpre.2])]
        have hres : format_timestamp (PyVal.str s) = s := by rw [hv, hb]
        rw [hres]
        exact format_timestamp_echo s hg hb
      · have hpreF : (s.data.contains '-' && decide (s.length > 10)) = false := by
          simp only [Bool.not_eq_true] at hpre; exact hpre
        cases hsp : pySplitWs (pyStripL s.data) with
        | nil =>
          have hb : format_timestamp_body (.str s) = .ok "Unknown Format" := by
            simp only [format_timestamp_body]
            rw [hpreF]
            simp [hsp]
          have hres : format_timestamp (PyVal.str s) = "Unknown Format" := by
            rw [hv, hb]
          rw [hres]; exact hUF
        | cons tok rest =>
          cases hpf : pyFloatParse tok with
          | none =>
            have hb : format_timestamp_body (.str s) = .ok s := by
              simp only [format_timestamp_body]
              rw [hpreF]
              simp [hsp, hpf]
            have hres : format_timestamp (PyVal.str s) = s := by rw [hv, hb]
            rw [hres]
            exact format_timestamp_echo s hg hb
          | some q =>
            cases hft : fromtimestampE q with
            | ok t =>
              have hb : format_timestamp_body (.str s) = .ok (dtFormatFromEpoch t) := by
                simp only [format_timestamp_body]
                rw [hpreF]
                simp [hsp, hpf, hft]
              have hres : format_timestamp (PyVal.str s) = dtFormatFromEpoch t := by
                rw [hv, hb]
              rw [hres]
              exact format_timestamp_preformatted _ (dtFormatFromEpoch_dash t)
                (dtFormatFromEpoch_length t)
            | error e =>
              cases e with
              | valueError =>
                have hb : format_timestamp_body (.str s) = .ok s := by
                  simp only [format_timestamp_body]
                  rw [hpreF]
                  simp [hsp, hpf, hft]
                have hres : format_timestamp (PyVal.str s) = s := by rw [hv, hb]
                rw [hres]
                exact format_timestamp_echo s hg hb
              | overflowError =>
                have hb : format_timestamp_body (.str s) = .error .overflowError := by
                  simp only [format_timestamp_body]
                  rw [hpreF]
                  simp [hsp, hpf, hft]
                have hres : format_timestamp (PyVal.str s) = "Invalid (str)" := by
                  rw [hv, hb]; rfl
                rw [hres]; exact hIS
    | int n =>
      cases hft : fromtimestampE (Dec.ofInt n) with
      | ok t =>
        have hb : format_timestamp_body (.int n) = .ok (dtFormatFromEpoch t) := by
          simp [format_timestamp_body, hft]
        have hres : format_timestamp (PyVal.int n) = dtFormatFromEpoch t := by
          rw [hv, hb]
        rw [hres]
        exact format_timestamp_preformatted _ (dtFormatFromEpoch_dash t)
          (dtFormatFromEpoch_length t)
      | error e =>
        have hb : format_timestamp_body (.int n) = .error e := by
          simp [format_timestamp_body, hft]
        have hres : format_timestamp (PyVal.int n) = "Invalid (int)" := by
          rw [hv, hb]; rfl
        rw [hres]; exact hII
    | float q =>
      cases hft : fromtimestampE q with
      | ok t =>
        have hb : format_timestamp_body (.float q) = .ok (dtFormatFromEpoch t) := by
          simp [format_timestamp_body, hft]
        have hres : format_timestamp (PyVal.float q) = dtFormatFromEpoch t := by
          rw [hv, hb]
        rw [hres]
        exact format_timestamp_preformatted _ (dtFormatFromEpoch_dash t)
          (dtFormatFromEpoch_length t)
      | error e =>
        have hb : format_timestamp_body (.float q) = .error e := by
          simp [format_timestamp_body, hft]
        have hres : format_timestamp (PyVal.float q) = "Invalid (float)" := by
          rw [hv, hb]; rfl
        rw [hres]; exact hIF
    | none => simp [pyTruthy] at hg
    | other t b =>
      cases b with
      | false => simp [pyTruthy] at hg
      | true =>
        have hb : format_timestamp_body (.other t true) = .ok "Unknown Format" := rfl
        have hres : format_timestamp (PyVal.other t true) = "Unknown Format" := by
          rw [hv, hb]
        rw [hres]; exact hUF

/-- C7: `format_timestamp` is idempotent — feeding any result of
`format_timestamp` back in returns it unchanged (proved for every
input, which subsumes "for any x that initially formats successfully");
in particular any string containing a `-` and longer than 10 characters
is returned unchanged. -/
theorem format_timestamp_idempotent :
    (∀ v : PyVal, format_timestamp (.str (format_timestamp v)) = format_timestamp v)
    ∧ (∀ s : String, s.data.contains '-' = true → 10 < s.length →
        format_timestamp (.str s) = s) :=
  ⟨format_timestamp_idem_aux, format_timestamp_preformatted⟩

theorem format_timestamp_idempotent_witness :
    format_timestamp (.str "2025-01-01 00:00:00") = "2025-01-01 00:00:00" :=
  format_timestamp_idempotent.2 "2025-01-01 00:00:00" (by decide) (by decide)

/-! ## C5: is_timestamp_within_days -/

theorem within_days_eq_parseInstant (now : Dec) (d : Int) (v : PyVal) :
    is_timestamp_within_days now v d =
      (pyTruthy v &&
        match parseInstant v, cutoffE now d with
        | some t, some cut => Dec.ble cut t
        | _, _ => false) := by
  cases v with
  | str s =>
    by_cases hs : s = ""
    · subst hs; simp [is_timestamp_within_days, parseInstant, pyTruthy]
    · have ht : pyTruthy (PyVal.str s) = true := by simp [pyTruthy, hs]
      simp only [is_timestamp_within_days, parseInstant, ht, Bool.not_true,
        Bool.false_eq_true, if_false, Bool.true_and]
      by_cases hC : ((pyStripL s.data).contains 'T' && (pyStripL s.data).contains '-' ||
          (pyStripL s.data).contains '-' && (pyStripL s.data).contains ':') = true
      · rw [if_pos hC]
        cases hF : fromisoformatEpoch (replaceZ (pyStripL s.data)) with
        | some t => cases cutoffE now d <;> rfl
        | none =>
          cases hsp : pySplitWs (pyStripL s.data) with
          | nil => rfl
          | cons tok rest =>
            dsimp only
            cases hpf : pyFloatParse tok with
            | none => rfl
            | some q =>
              dsimp only
              cases hft : fromtimestampE q with
              | ok t => cases cutoffE now d <;> rfl
              | error e => rfl
      · rw [if_neg hC]
        cases hsp : pySplitWs (pyStripL s.data) with
        | nil => rfl
        | cons tok rest =>
          dsimp only
          cases hpf : pyFloatParse tok with
          | none => rfl
          | some q =>
            dsimp only
            cases hft : fromtimestampE q with
            | ok t => cases cutoffE now d <;> rfl
            | error e => rfl
  | int n =>
    by_cases hn : n = 0
    · subst hn; simp [is_timestamp_within_days, parseInstant, pyTruthy]
    · have ht : pyTruthy (PyVal.int n) = true := by simp [pyTruthy, hn]
      simp only [is_timestamp_within_days, parseInstant, ht, Bool.not_true,
        Bool.false_eq_true, if_false, Bool.true_and]
      cases hft : fromtimestampE (Dec.ofInt n) with
      | ok t => cases cutoffE now d <;> rfl
      | error e => rfl
  | float q =>
    by_cases hq : q.num = 0
    · simp [is_timestamp_within_days, parseInstant, pyTruthy, hq]
    · have ht : pyTruthy (PyVal.float q) = true := by simp [pyTruthy, hq]
      simp only [is_timestamp_within_days, parseInstant, ht, Bool.not_true,
        Bool.false_eq_true, if_false, Bool.true_and]
      cases hft : fromtimestampE q with
      | ok t => cases cutoffE now d <;> rfl
      | error e => rfl
  | none => simp [is_timestamp_within_days, parseInstant, pyTruthy]
  | other t b =>
    cases b <;> simp [is_timestamp_within_days, parseInstant, pyTruthy]

/-- C5 counterexample: at `days = 10^6` the cutoff computation
`datetime.now() - timedelta(days=days)` of helper_func.py line 166
raises `OverflowError` (the result lies before year 1), the outer
handler at line 169 returns `False` for every timestamp — here the
parsed instant 100 lies on or after the claimed cutoff
`now - days·86400`, yet the function returns `False`. -/
theorem within_days_cutoff_overflow_counterexample :
    parseInstant (PyVal.str "100") = some ⟨100, 0⟩ ∧
    Dec.ble (Dec.sub (Dec.ofInt 0) (Dec.ofInt (1000000 * 86400))) ⟨100, 0⟩ = true ∧
    cutoffE (Dec.ofInt 0) 1000000 = Option.none ∧
    is_timestamp_within_days (Dec.ofInt 0) (PyVal.str "100") 1000000 = false := by
  refine ⟨by decide, by decide, by decide, ?_⟩
  decide

/-- C5 (corrected): every falsy input yields `False`; any parse failure
(`parseInstant = none`, covering `float()` and `fromtimestamp`
exceptions) yields `False`; when the cutoff computation
`datetime.now() - timedelta(days=days)` itself raises (`cutoffE =
none`, `OverflowError` caught by the outer handler) the result is
`False` for every timestamp; and whenever both the instant and the
cutoff are obtained, the result is `True` exactly when the parsed
instant is on or after the cutoff.  The function never propagates an
exception — it is total. -/
theorem is_timestamp_within_days_spec :
    ∀ (now : Dec) (d : Int) (v : PyVal),
      (pyTruthy v = false → is_timestamp_within_days now v d = false)
      ∧ (parseInstant v = Option.none → is_timestamp_within_days now v d = false)
      ∧ (cutoffE now d = Option.none → is_timestamp_within_days now v d = false)
      ∧ (∀ (t cut : Dec), parseInstant v = some t → cutoffE now d = some cut →
          pyTruthy v = true →
          (is_timestamp_within_days now v d = true ↔ Dec.ble cut t = true)) := by
  intro now d v
  refine ⟨?_, ?_, ?_, ?_⟩
  · intro h; rw [within_days_eq_parseInstant, h]; rfl
  · intro h; rw [within_days_eq_parseInstant, h]; simp
  · intro h
    rw [within_days_eq_parseInstant, h]
    cases parseInstant v <;> simp
  · intro t cut hp hcut ht
    rw [within_days_eq_parseInstant, hp, hcut, ht]
    simp

theorem is_timestamp_within_days_spec_witness :
    pyTruthy (PyVal.str "100") = true ∧ parseInstant (PyVal.str "100") = some ⟨100, 0⟩ ∧
      cutoffE (Dec.ofInt 0) 14 = some (Dec.sub (Dec.ofInt 0) (Dec.ofInt (14 * 86400))) ∧
      is_timestamp_within_days (Dec.ofInt 0) (PyVal.str "100") 14 = true :=
  ⟨by decide, by decide, by decide,
    ((is_timestamp_within_days_spec (Dec.ofInt 0) 14 (PyVal.str "100")).2.2.2 ⟨100, 0⟩
      (Dec.sub (Dec.ofInt 0) (Dec.ofInt (14 * 86400)))
      (by decide) (by decide) (by decide)).mpr (by decide)⟩

/-! ## C4: the two window predicates are not equivalent -/

/-- C4: there is an ISO-8601 timestamp string whose instant lies inside
the last-month window (and the 14-day window) for which
`is_timestamp_within_days` returns `True` (ISO fallback) while
`BugCalculator.is_within_last_month` returns `False` (numeric-epoch
parsing only): the two window predicates are not equivalent. -/
theorem window_predicates_inequivalent :
    ∃ (now : Dec) (s : String) (t : Dec),
      parseInstant (.str s) = some t ∧
      Dec.ble (Dec.sub now (Dec.ofInt (30 * 86400))) t = true ∧
      Dec.ble t now = true ∧
      is_timestamp_within_days now (.str s) 14 = true ∧
      BugCalculator.is_within_last_month ⟨["1"], "Blocker", ["1"]⟩ now (.str s) = false := by
  refine ⟨Dec.ofInt 1754618400, "2025-08-07T14:16:52+00:00", ⟨1754576212, 0⟩,
    ?_, ?_, ?_, ?_, ?_⟩ <;> decide

/-! ## C3: what "resolved" means -/

/-- C3 counterexample: the record-level resolved check is applied to the
RAW `resolution_date` value, not to its formatted form.  For the record
`{"resolution_date": ""}` the formatted value `format_timestamp("")` is
`"Not Set"` — non-empty and neither `"Unknown"` nor `"Invalid"` — so
the claim as stated would count the record as resolved, but
`calculate_item_metrics` reports zero resolved items for it. -/
theorem resolved_after_formatting_counterexample :
    format_timestamp (.str "") = "Not Set" ∧
    ("Not Set" ≠ "" ∧ "Not Set" ≠ "Unknown" ∧ "Not Set" ≠ "Invalid") ∧
    (calculate_item_metrics (Dec.ofInt 0)
      [⟨Option.none, Option.none, Option.none, Option.none, Option.none, Option.none,
        some (.str "")⟩] 14 "item").metrics =
      .generic ⟨1, 0, 1, 0, 0, [(.str "Unknown", 1)]⟩ :=
  ⟨by decide, ⟨by decide, by decide, by decide⟩, by decide⟩

theorem processItem_metrics_congr (now : Dec) (days : Int) (ty : String)
    (f : Item → Item) (hp : ∀ it, (f it).priority = it.priority)
    (hc : ∀ it, (f it).created = it.created)
    (hr : ∀ it, (f it).resolution_date = it.resolution_date)
    (st st' : CIMResult) (hm : st.metrics = st'.metrics) (it : Item) :
    (processItem now days ty st (f it)).metrics = (processItem now days ty st' it).metrics := by
  simp only [processItem, hp, hc, hr, hm]

theorem foldl_metrics_congr (now : Dec) (days : Int) (ty : String)
    (f : Item → Item) (hp : ∀ it, (f it).priority = it.priority)
    (hc : ∀ it, (f it).created = it.created)
    (hr : ∀ it, (f it).resolution_date = it.resolution_date) :
    ∀ (items : List Item) (st st' : CIMResult), st.metrics = st'.metrics →
      ((items.map f).foldl (processItem now days ty) st).metrics =
        (items.foldl (processItem now days ty) st').metrics := by
  intro items
  induction items with
  | nil => intro st st' h; simpa using h
  | cons it rest ih =>
    intro st st' h
    simp only [List.map_cons, List.foldl_cons]
    exact ih _ _ (processItem_metrics_congr now days ty f hp hc hr st st' h it)

/-- C3 (amended): a record counts as resolved exactly when its raw
`resolution_date` field value is truthy and is neither `"Unknown"` nor
`"Invalid"` (`format_timestamp` is not applied before the check), and
the metrics never depend on the record's `status` code: they are
invariant under any rewriting of items that preserves `priority`,
`created` and `resolution_date`. -/
theorem resolved_from_raw_resolution_date :
    (∀ rd : PyVal, is_resolved rd = true ↔
      (pyTruthy rd = true ∧ rd ≠ .str "Unknown" ∧ rd ≠ .str "Invalid"))
    ∧ (∀ (now : Dec) (days : Int) (ty : String) (items : List Item) (f : Item → Item),
        (∀ it, (f it).priority = it.priority) →
        (∀ it, (f it).created = it.created) →
        (∀ it, (f it).resolution_date = it.resolution_date) →
        (calculate_item_metrics now (items.map f) days ty).metrics =
          (calculate_item_metrics now items days ty).metrics) := by
  constructor
  · intro rd
    simp [is_resolved, and_assoc]
  · intro now days ty items f hp hc hr
    unfold calculate_item_metrics
    exact foldl_metrics_congr now days ty f hp hc hr items _ _ rfl

theorem resolved_from_raw_resolution_date_witness :
    (is_resolved (.str "abc") = true ∧ pyTruthy (.str "abc") = true) ∧
    (calculate_item_metrics (Dec.ofInt 0)
        (([⟨Option.none, Option.none, some (.str "1"), some (.str "10"), Option.none,
          Option.none, some (.str "abc")⟩] : List Item).map
          (fun it : Item => (⟨it.key, it.summary, it.priority, some (.str "6"), it.created,
            it.updated, it.resolution_date⟩ : Item))) 14 "bug").metrics =
      (calculate_item_metrics (Dec.ofInt 0)
        [⟨Option.none, Option.none, some (.str "1"), some (.str "10"), Option.none,
          Option.none, some (.str "abc")⟩] 14 "bug").metrics :=
  ⟨⟨(resolved_from_raw_resolution_date.1 (.str "abc")).mpr
      ⟨by decide, by decide, by decide⟩, by decide⟩,
    resolved_from_raw_resolution_date.2 (Dec.ofInt 0) 14 "bug" _ _
      (fun _ => rfl) (fun _ => rfl) (fun _ => rfl)⟩

/-! ## C8: bug-priority bucketing -/

theorem not_both_prio (p : PyVal) (h : (p == PyVal.str "1") = true) :
    (p == PyVal.str "2") = false := by
  rw [beq_iff_eq] at h
  subst h
  decide

theorem processItem_bug_metrics (now : Dec) (days : Int) (st : CIMResult)
    (b : BugMetrics) (it : Item) (h : st.metrics = .bug b) :
    (processItem now days "bug" st it).metrics =
      .bug (bugStep (prioOf it == PyVal.str "1") (prioOf it == PyVal.str "2")
        (is_resolved (rdOf it)) (is_timestamp_within_days now (createdOf it) days)
        (is_resolved (rdOf it) && is_timestamp_within_days now (rdOf it) days) b) := by
  simp only [processItem, prioOf, rdOf, createdOf]
  rw [h]
  rfl

theorem foldl_bug_metrics (now : Dec) (days : Int) :
    ∀ (items : List Item) (st : CIMResult) (b : BugMetrics), st.metrics = .bug b →
    (items.foldl (processItem now days "bug") st).metrics = .bug ⟨
      b.total_blocker_bugs + items.countP (fun it => prioOf it == PyVal.str "1"),
      b.total_critical_bugs + items.countP (fun it => prioOf it == PyVal.str "2"),
      b.total_blocker_bugs_resolved +
        items.countP (fun it => prioOf it == PyVal.str "1" && is_resolved (rdOf it)),
      b.total_critical_bugs_resolved +
        items.countP (fun it => prioOf it == PyVal.str "2" && is_resolved (rdOf it)),
      b.blocker_bugs_recent_activity + items.countP (fun it => prioOf it == PyVal.str "1"),
      b.critical_bugs_recent_activity + items.countP (fun it => prioOf it == PyVal.str "2"),
      b.blocker_bugs_created_recently + items.countP (fun it =>
        prioOf it == PyVal.str "1" && is_timestamp_within_days now (createdOf it) days),
      b.critical_bugs_created_recently + items.countP (fun it =>
        prioOf it == PyVal.str "2" && is_timestamp_within_days now (createdOf it) days),
      b.blocker_bugs_resolved_recently + items.countP (fun it =>
        prioOf it == PyVal.str "1" &&
          (is_resolved (rdOf it) && is_timestamp_within_days now (rdOf it) days)),
      b.critical_bugs_resolved_recently + items.countP (fun it =>
        prioOf it == PyVal.str "2" &&
          (is_resolved (rdOf it) && is_timestamp_within_days now (rdOf it) days))⟩ := by
  intro items
  induction items with
  | nil =>
    intro st b h
    simp only [List.foldl_nil, List.countP_nil, Nat.add_zero, h]
  | cons it rest ih =>
    intro st b h
    rw [List.foldl_cons,
      ih (processItem now days "bug" st it) _ (processItem_bug_metrics now days st b it h)]
    simp only [Metrics.bug.injEq, BugMetrics.mk.injEq, bugStep, List.countP_cons]
    by_cases hB : (prioOf it == PyVal.str "1") = true
    · have hC := not_both_prio _ hB
      simp only [hB, hC, Bool.and_true, Bool.true_and, Bool.and_false, Bool.false_and,
        if_true, Bool.false_eq_true, if_false]
      refine ⟨by omega, by omega, by omega, by omega, by omega, by omega, ?_, ?_, ?_, ?_⟩
        <;> cases hcr : is_timestamp_within_days now (createdOf it) days
        <;> cases hr : is_resolved (rdOf it)
        <;> cases hrr : is_timestamp_within_days now (rdOf it) days
        <;> simp <;> omega
    · have hBf : (prioOf it == PyVal.str "1") = false := by
        simpa using hB
      by_cases hC : (prioOf it == PyVal.str "2") = true
      · simp only [hBf, hC, Bool.and_true, Bool.true_and, Bool.and_false, Bool.false_and,
          Bool.not_false, if_true, Bool.false_eq_true, if_false]
        refine ⟨by omega, by omega, by omega, by omega, by omega, by omega, ?_, ?_, ?_, ?_⟩
          <;> cases hcr : is_timestamp_within_days now (createdOf it) days
          <;> cases hr : is_resolved (rdOf it)
          <;> cases hrr : is_timestamp_within_days now (rdOf it) days
          <;> simp <;> omega
      · have hCf : (prioOf it == PyVal.str "2") = false := by
          simpa using hC
        simp only [hBf, hCf, Bool.and_true, Bool.true_and, Bool.and_false, Bool.false_and,
          Bool.false_eq_true, if_false]
        refine ⟨by omega, by omega, by omega, by omega, by omega, by omega, ?_, ?_, ?_, ?_⟩
          <;> cases hcr : is_timestamp_within_days now (createdOf it) days
          <;> cases hr : is_resolved (rdOf it)
          <;> cases hrr : is_timestamp_within_days now (rdOf it) days
          <;> simp <;> omega

/-- C8: for `item_type = "bug"` the metrics partition the records by raw
priority into the blocker (`"1"`) and critical (`"2"`) buckets, counting
per bucket the total, resolved-ever, created-within-window and
resolved-within-window records; records of any other priority are
excluded from every bucketed count.  Includes the spec scenario. -/
theorem calc_item_metrics_bug_partition :
    (∀ (now : Dec) (days : Int) (items : List Item),
      (calculate_item_metrics now items days "bug").metrics = .bug ⟨
        items.countP (fun it => prioOf it == PyVal.str "1"),
        items.countP (fun it => prioOf it == PyVal.str "2"),
        items.countP (fun it => prioOf it == PyVal.str "1" && is_resolved (rdOf it)),
        items.countP (fun it => prioOf it == PyVal.str "2" && is_resolved (rdOf it)),
        items.countP (fun it => prioOf it == PyVal.str "1"),
        items.countP (fun it => prioOf it == PyVal.str "2"),
        items.countP (fun it =>
          prioOf it == PyVal.str "1" && is_timestamp_within_days now (createdOf it) days),
        items.countP (fun it =>
          prioOf it == PyVal.str "2" && is_timestamp_within_days now (createdOf it) days),
        items.countP (fun it => prioOf it == PyVal.str "1" &&
          (is_resolved (rdOf it) && is_timestamp_within_days now (rdOf it) days)),
        items.countP (fun it => prioOf it == PyVal.str "2" &&
          (is_resolved (rdOf it) && is_timestamp_within_days now (rdOf it) days))⟩)
    ∧ (calculate_item_metrics (Dec.ofInt 0)
        [⟨Option.none, Option.none, some (.str "1"), Option.none, Option.none,
          Option.none, some (.str "1700000000")⟩,
         ⟨Option.none, Option.none, some (.str "2"), Option.none, Option.none,
          Option.none, some (.str "")⟩] 14 "bug").metrics =
        .bug ⟨1, 1, 1, 0, 1, 1, 0, 0, 1, 0⟩ := by
  constructor
  · intro now days items
    unfold calculate_item_metrics
    rw [foldl_bug_metrics now days items _ ⟨0, 0, 0, 0, 0, 0, 0, 0, 0, 0⟩ rfl]
    simp
  · decide

/-! ## C9: one activity entry per record -/

theorem recent_activity_foldl (now : Dec) (days : Int) (ty : String) :
    ∀ (items : List Item) (st : CIMResult),
      (items.foldl (processItem now days ty) st).recent_activity_items.length =
        st.recent_activity_items.length + items.length := by
  intro items
  induction items with
  | nil => intro st; simp
  | cons it rest ih =>
    intro st
    rw [List.foldl_cons, ih]
    have hstep : (processItem now days ty st it).recent_activity_items.length =
        st.recent_activity_items.length + 1 := by
      simp [processItem]
    rw [hstep]
    simp only [List.length_cons]
    omega

/-- C9: every input record contributes exactly one entry to
`recent_activity_items` — its length equals the number of input
records, for every item type (so also for records whose priority is
outside the blocker/critical buckets). -/
theorem recent_activity_one_entry_per_record :
    ∀ (now : Dec) (days : Int) (ty : String) (items : List Item),
      (calculate_item_metrics now items days ty).recent_activity_items.length =
        items.length := by
  intro now days ty items
  unfold calculate_item_metrics
  rw [recent_activity_foldl]
  simp

/-! ## C10: item_type is compared case-insensitively -/

/-- C10: `calculate_item_metrics` compares `item_type` through
`.lower()`, so any capitalization of "bug" produces exactly the result
of the lowercase call — the bug-specific key set and bucketing. -/
theorem item_type_case_insensitive :
    ∀ (now : Dec) (days : Int) (items : List Item) (ty : String),
      pyLower ty = "bug" →
      calculate_item_metrics now items days ty =
        calculate_item_metrics now items days "bug" := by
  intro now days items ty h
  have hb : pyLower "bug" = "bug" := by decide
  unfold calculate_item_metrics
  have hp : processItem now days ty = processItem now days "bug" := by
    funext st it
    simp only [processItem, h, hb]
  have hi : initMetrics ty = initMetrics "bug" := by
    simp only [initMetrics, h, hb]
  rw [hp, hi]

theorem item_type_case_insensitive_witness :
    calculate_item_metrics (Dec.ofInt 0)
        [⟨Option.none, Option.none, some (.str "1"), Option.none, Option.none,
          Option.none, some (.str "1700000000")⟩] 14 "BUG" =
      calculate_item_metrics (Dec.ofInt 0)
        [⟨Option.none, Option.none, some (.str "1"), Option.none, Option.none,
          Option.none, some (.str "1700000000")⟩] 14 "bug" :=
  item_type_case_insensitive (Dec.ofInt 0) 14 _ "BUG" (by decide)

/-! ## List and whitespace helper lemmas for the JSON development -/

theorem dropWhile_length_le (p : Char → Bool) (l : List Char) :
    (l.dropWhile p).length ≤ l.length := by
  have h := congrArg List.length (List.takeWhile_append_dropWhile p l)
  rw [List.length_append] at h
  omega

theorem skipWs_length_le (l : List Char) : (skipWs l).length ≤ l.length :=
  dropWhile_length_le jsonWs l

theorem skipWs_append_of_ne (a b : List Char) (c : Char) (r : List Char)
    (h : skipWs a = c :: r) : skipWs (a ++ b) = c :: (r ++ b) := by
  unfold skipWs at *
  rw [List.dropWhile_append, h]
  rfl

theorem skipWs_append_of_empty (a b : List Char) (h : skipWs a = []) :
    skipWs (a ++ b) = skipWs b := by
  unfold skipWs at *
  rw [List.dropWhile_append, h]
  rfl

theorem skipWs_cons_of_not_ws (c : Char) (l : List Char) (h : jsonWs c = false) :
    skipWs (c :: l) = c :: l := by
  unfold skipWs
  rw [List.dropWhile_cons]
  simp [h]

/-- Splitting a `takeWhile`/`dropWhile` run over an all-satisfying
prefix followed by a non-satisfying (or empty) boundary. -/
theorem takeWhile_all_append (p : Char → Bool) (u t : List Char)
    (hu : ∀ c ∈ u, p c = true) (ht : ∀ c r, t = c :: r → p c = false) :
    (u ++ t).takeWhile p = u ∧ (u ++ t).dropWhile p = t := by
  induction u with
  | nil =>
    simp only [List.nil_append]
    cases t with
    | nil => simp
    | cons c r =>
      have := ht c r rfl
      simp [List.takeWhile_cons, List.dropWhile_cons, this]
  | cons c u' ih =>
    have hc : p c = true := hu c (by simp)
    have ih' := ih (fun x hx => hu x (by simp [hx]))
    simp only [List.cons_append, List.takeWhile_cons, List.dropWhile_cons, hc]
    simp [ih'.1, ih'.2]

theorem goodB_head_false (c : Char) (r : List Char) (h : goodB (c :: r) = true) :
    c.isDigit = false ∧ (c == '.') = false ∧ (c == 'e') = false ∧ (c == 'E') = false := by
  simp only [goodB, Bool.not_eq_true', Bool.or_eq_false_iff] at h
  exact ⟨h.1.1.1, h.1.1.2, h.1.2, h.2⟩


/-! ## dropLit and parseStringBody: consumption and extension -/

theorem dropLit_eq_some : ∀ (ps l r : List Char), dropLit ps l = some r → l = ps ++ r := by
  intro ps
  induction ps with
  | nil => intro l r h; simpa [dropLit] using h
  | cons p ps' ih =>
    intro l r h
    cases l with
    | nil => simp [dropLit] at h
    | cons c cs =>
      simp only [dropLit] at h
      by_cases hc : (c == p) = true
      · rw [if_pos hc] at h
        rw [beq_iff_eq] at hc
        subst hc
        rw [ih cs r h]
        rfl
      · rw [if_neg hc] at h
        simp at h

theorem dropLit_append : ∀ (ps t : List Char), dropLit ps (ps ++ t) = some t := by
  intro ps
  induction ps with
  | nil => intro t; rfl
  | cons p ps' ih => intro t; simp [dropLit, ih]

theorem parseStringBody_consumed_aux :
    ∀ (n : Nat) (l acc : List Char) (s : String) (r : List Char), l.length ≤ n →
      parseStringBody l acc = some (s, r) → ∃ u, l = u ++ r ∧ u ≠ [] := by
  intro n
  induction n with
  | zero =>
    intro l acc s r hn h
    have : l = [] := List.eq_nil_of_length_eq_zero (by omega)
    subst this
    rw [parseStringBody.eq_def] at h
    simp at h
  | succ n ih =>
    intro l acc s r hn h
    cases l with
    | nil => rw [parseStringBody.eq_def] at h; simp at h
    | cons c l' =>
      rw [parseStringBody.eq_def] at h
      dsimp only at h
      by_cases hq : (c == '"') = true
      · rw [if_pos hq] at h
        rw [Option.some.injEq, Prod.mk.injEq] at h
        exact ⟨[c], by simp [h.2], by simp⟩
      · rw [if_neg hq] at h
        by_cases hb : (c == '\\') = true
        · rw [if_pos hb] at h
          cases l' with
          | nil => simp at h
          | cons e r2 =>
            dsimp only at h
            by_cases he : (e == 'u') = true
            · rw [if_pos he] at h
              match r2, h with
              | h1 :: h2 :: h3 :: h4 :: r3, h =>
                dsimp only at h
                rcases hx1 : hexVal h1 with _ | a
                · rw [hx1] at h; simp at h
                · rw [hx1] at h
                  rcases hx2 : hexVal h2 with _ | b
                  · rw [hx2] at h; simp at h
                  · rw [hx2] at h
                    rcases hx3 : hexVal h3 with _ | cc
                    · rw [hx3] at h; simp at h
                    · rw [hx3] at h
                      rcases hx4 : hexVal h4 with _ | d
                      · rw [hx4] at h; simp at h
                      · rw [hx4] at h
                        obtain ⟨u, hu, hne⟩ := ih r3 _ s r (by simp at hn ⊢; omega) h
                        exact ⟨c :: e :: h1 :: h2 :: h3 :: h4 :: u, by simp [hu], by simp⟩
            · rw [if_neg he] at h
              rcases hesc : escChar e with _ | ec <;> rw [hesc] at h
              · simp at h
              · obtain ⟨u, hu, hne⟩ := ih r2 _ s r (by simp at hn ⊢; omega) h
                exact ⟨c :: e :: u, by simp [hu], by simp⟩
        · rw [if_neg hb] at h
          by_cases hctl : c.toNat < 32
          · rw [if_pos hctl] at h; simp at h
          · rw [if_neg hctl] at h
            obtain ⟨u, hu, hne⟩ := ih l' _ s r (by simp at hn ⊢; omega) h
            exact ⟨c :: u, by simp [hu], by simp⟩

theorem parseStringBody_consumed (l acc : List Char) (s : String) (r : List Char)
    (h : parseStringBody l acc = some (s, r)) : ∃ u, l = u ++ r ∧ u ≠ [] :=
  parseStringBody_consumed_aux l.length l acc s r (le_refl _) h

theorem parseStringBody_remainder_lt (l acc : List Char) (s : String) (r : List Char)
    (h : parseStringBody l acc = some (s, r)) : r.length < l.length := by
  obtain ⟨u, hu, hne⟩ := parseStringBody_consumed l acc s r h
  subst hu
  cases u with
  | nil => exact absurd rfl hne
  | cons a b => simp [List.length_append]; omega

theorem psb_no_echo (X acc : List Char) (s : String) (r : List Char)
    (h : parseStringBody X acc = some (s, r)) (hlen : X.length ≤ r.length) : False := by
  have := parseStringBody_remainder_lt X acc s r h
  omega

theorem parseStringBody_ext_aux :
    ∀ (n : Nat) (u acc : List Char) (s : String) (r t : List Char), u.length ≤ n →
      parseStringBody (u ++ r) acc = some (s, r) → parseStringBody (u ++ t) acc = some (s, t) := by
  intro n
  induction n with
  | zero =>
    intro u acc s r t hn h
    have hu : u = [] := List.eq_nil_of_length_eq_zero (by omega)
    subst hu
    exact absurd (parseStringBody_remainder_lt r acc s r (by simpa using h)) (by omega)
  | succ n ih =>
    intro u acc s r t hn h
    cases u with
    | nil =>
      exact absurd (parseStringBody_remainder_lt r acc s r (by simpa using h)) (by omega)
    | cons c u' =>
      rw [List.cons_append] at h ⊢
      rw [parseStringBody.eq_def] at h ⊢
      dsimp only at h ⊢
      by_cases hq : (c == '"') = true
      · rw [if_pos hq] at h ⊢
        rw [Option.some.injEq, Prod.mk.injEq] at h
        obtain ⟨hs, hr⟩ := h
        have hu' : u' = [] := by simpa using congrArg List.length hr
        subst hu'
        simp [hs]
      · rw [if_neg hq] at h ⊢
        by_cases hb : (c == '\\') = true
        · rw [if_pos hb] at h ⊢
          cases u' with
          | nil =>
            exfalso
            simp only [List.nil_append] at h
            cases r with
            | nil => simp at h
            | cons e r2 =>
              dsimp only at h
              by_cases he : (e == 'u') = true
              · rw [if_pos he] at h
                match r2, h with
                | b1 :: b2 :: b3 :: b4 :: r4, h =>
                  dsimp only at h
                  rcases hx1 : hexVal b1 with _ | a
                  · rw [hx1] at h; simp at h
                  · rw [hx1] at h
                    rcases hx2 : hexVal b2 with _ | b
                    · rw [hx2] at h; simp at h
                    · rw [hx2] at h
                      rcases hx3 : hexVal b3 with _ | cc
                      · rw [hx3] at h; simp at h
                      · rw [hx3] at h
                        rcases hx4 : hexVal b4 with _ | d
                        · rw [hx4] at h; simp at h
                        · rw [hx4] at h
                          exact psb_no_echo _ _ _ _ h (by simp only [List.length_cons, List.length_append]; omega)
              · rw [if_neg he] at h
                rcases hesc : escChar e with _ | ec
                · rw [hesc] at h; simp at h
                · rw [hesc] at h
                  exact psb_no_echo _ _ _ _ h (by simp only [List.length_cons, List.length_append]; omega)
          | cons e u'' =>
            rw [List.cons_append] at h ⊢
            dsimp only at h ⊢
            by_cases he : (e == 'u') = true
            · rw [if_pos he] at h ⊢
              rcases u'' with _ | ⟨a1, _ | ⟨a2, _ | ⟨a3, _ | ⟨a4, u3⟩⟩⟩⟩
              · exfalso
                simp only [List.nil_append] at h
                match r, h with
                | b1 :: b2 :: b3 :: b4 :: r4, h =>
                  dsimp only at h
                  rcases hx1 : hexVal b1 with _ | a
                  · rw [hx1] at h; simp at h
                  · rw [hx1] at h
                    rcases hx2 : hexVal b2 with _ | b
                    · rw [hx2] at h; simp at h
                    · rw [hx2] at h
                      rcases hx3 : hexVal b3 with _ | cc
                      · rw [hx3] at h; simp at h
                      · rw [hx3] at h
                        rcases hx4 : hexVal b4 with _ | d
                        · rw [hx4] at h; simp at h
                        · rw [hx4] at h
                          exact psb_no_echo _ _ _ _ h (by simp only [List.length_cons, List.length_append]; omega)
              · exfalso
                simp only [List.cons_append, List.nil_append] at h
                match r, h with
                | b2 :: b3 :: b4 :: r4, h =>
                  dsimp only at h
                  rcases hx1 : hexVal a1 with _ | a
                  · rw [hx1] at h; simp at h
                  · rw [hx1] at h
                    rcases hx2 : hexVal b2 with _ | b
                    · rw [hx2] at h; simp at h
                    · rw [hx2] at h
                      rcases hx3 : hexVal b3 with _ | cc
                      · rw [hx3] at h; simp at h
                      · rw [hx3] at h
                        rcases hx4 : hexVal b4 with _ | d
                        · rw [hx4] at h; simp at h
                        · rw [hx4] at h
                          exact psb_no_echo _ _ _ _ h (by simp only [List.length_cons, List.length_append]; omega)
              · exfalso
                simp only [List.cons_append, List.nil_append] at h
                match r, h with
                | b3 :: b4 :: r4, h =>
                  dsimp only at h
                  rcases hx1 : hexVal a1 with _ | a
                  · rw [hx1] at h; simp at h
                  · rw [hx1] at h
                    rcases hx2 : hexVal a2 with _ | b
                    · rw [hx2] at h; simp at h
                    · rw [hx2] at h
                      rcases hx3 : hexVal b3 with _ | cc
                      · rw [hx3] at h; simp at h
                      · rw [hx3] at h
                        rcases hx4 : hexVal b4 with _ | d
                        · rw [hx4] at h; simp at h
                        · rw [hx4] at h
                          exact psb_no_echo _ _ _ _ h (by simp only [List.length_cons, List.length_append]; omega)
              · exfalso
                simp only [List.cons_append, List.nil_append] at h
                match r, h with
                | b4 :: r4, h =>
                  dsimp only at h
                  rcases hx1 : hexVal a1 with _ | a
                  · rw [hx1] at h; simp at h
                  · rw [hx1] at h
                    rcases hx2 : hexVal a2 with _ | b
                    · rw [hx2] at h; simp at h
                    · rw [hx2] at h
                      rcases hx3 : hexVal a3 with _ | cc
                      · rw [hx3] at h; simp at h
                      · rw [hx3] at h
                        rcases hx4 : hexVal b4 with _ | d
                        · rw [hx4] at h; simp at h
                        · rw [hx4] at h
                          exact psb_no_echo _ _ _ _ h (by simp only [List.length_cons, List.length_append]; omega)
              · simp only [List.cons_append, List.nil_append] at h ⊢
                rcases hx1 : hexVal a1 with _ | a
                · rw [hx1] at h; simp at h
                · rw [hx1] at h
                  rcases hx2 : hexVal a2 with _ | b
                  · rw [hx2] at h; simp at h
                  · rw [hx2] at h
                    rcases hx3 : hexVal a3 with _ | cc
                    · rw [hx3] at h; simp at h
                    · rw [hx3] at h
                      rcases hx4 : hexVal a4 with _ | d
                      · rw [hx4] at h; simp at h
                      · rw [hx4] at h
                        exact ih u3 _ s r t (by simp at hn ⊢; omega) h
            · rw [if_neg he] at h ⊢
              rcases hesc : escChar e with _ | ec
              · rw [hesc] at h; simp at h
              · rw [hesc] at h
                exact ih u'' _ s r t (by simp at hn ⊢; omega) h
        · rw [if_neg hb] at h ⊢
          by_cases hctl : c.toNat < 32
          · rw [if_pos hctl] at h; simp at h
          · rw [if_neg hctl] at h ⊢
            exact ih u' _ s r t (by simp at hn ⊢; omega) h

theorem parseStringBody_ext (u acc : List Char) (s : String) (r t : List Char)
    (h : parseStringBody (u ++ r) acc = some (s, r)) :
    parseStringBody (u ++ t) acc = some (s, t) :=
  parseStringBody_ext_aux u.length u acc s r t (le_refl _) h

/-! ## Number parser: consumption and extension -/

theorem append_overlap (a b c d : List Char) (h : a ++ b = c ++ d)
    (hl : b.length ≤ d.length) : ∃ w, a = c ++ w ∧ d = w ++ b := by
  induction c generalizing a with
  | nil =>
    refine ⟨a, by simp, ?_⟩
    simp at h
    exact h.symm
  | cons x c' ih =>
    cases a with
    | nil =>
      exfalso
      have := congrArg List.length h
      simp at this
      omega
    | cons y a' =>
      simp only [List.cons_append, List.cons.injEq] at h
      obtain ⟨rfl, h2⟩ := h
      obtain ⟨w, hw1, hw2⟩ := ih a' h2
      exact ⟨w, by simp [hw1], hw2⟩

/-- Head of the list is not a digit (or the list is empty). -/
def ndHead : List Char → Bool
  | [] => true
  | c :: _ => !c.isDigit

/-- Head is neither a digit nor `.` (or the list is empty). -/
def fracSafe : List Char → Bool
  | [] => true
  | c :: _ => !(c.isDigit || c == '.')

theorem goodB_ndHead (l : List Char) (h : goodB l = true) : ndHead l = true := by
  cases l with
  | nil => rfl
  | cons c r =>
    simp only [goodB, Bool.not_eq_true', Bool.or_eq_false_iff] at h
    simp [ndHead, h.1.1.1]

theorem goodB_fracSafe (l : List Char) (h : goodB l = true) : fracSafe l = true := by
  cases l with
  | nil => rfl
  | cons c r =>
    simp only [goodB, Bool.not_eq_true', Bool.or_eq_false_iff] at h
    simp [fracSafe, h.1.1.1, h.1.1.2]

theorem parseIntPart_consumed (l : List Char) (ip : Nat) (r : List Char)
    (h : parseIntPart l = some (ip, r)) :
    ∃ u, l = u ++ r ∧ u ≠ [] ∧ ∀ c ∈ u, c.isDigit = true := by
  cases l with
  | nil => simp [parseIntPart] at h
  | cons c l' =>
    rw [parseIntPart.eq_def] at h
    dsimp only at h
    by_cases h0 : (c == '0') = true
    · rw [if_pos h0] at h
      rw [Option.some.injEq, Prod.mk.injEq] at h
      refine ⟨[c], by simp [h.2], by simp, ?_⟩
      intro x hx
      simp at hx
      subst hx
      rw [beq_iff_eq] at h0
      subst h0
      decide
    · rw [if_neg h0] at h
      by_cases hd : c.isDigit = true
      · rw [if_pos hd] at h
        rw [Option.some.injEq, Prod.mk.injEq] at h
        refine ⟨(c :: l').takeWhile Char.isDigit, ?_, ?_, ?_⟩
        · rw [h.2.symm] at *
          exact (List.takeWhile_append_dropWhile Char.isDigit (c :: l')).symm
        · simp [List.takeWhile_cons, hd]
        · intro x hx
          exact List.mem_takeWhile_imp hx
      · rw [if_neg hd] at h
        simp at h

theorem parseIntPart_remainder_lt (l : List Char) (ip : Nat) (r : List Char)
    (h : parseIntPart l = some (ip, r)) : r.length < l.length := by
  obtain ⟨u, hu, hne, -⟩ := parseIntPart_consumed l ip r h
  subst hu
  cases u with
  | nil => exact absurd rfl hne
  | cons a b => simp [List.length_append]; omega

theorem parseIntPart_ext (u r t : List Char) (ip : Nat)
    (h : parseIntPart (u ++ r) = some (ip, r))
    (hr : ndHead r = true) (ht : ndHead t = true) :
    parseIntPart (u ++ t) = some (ip, t) := by
  have hnd : ∀ (x : List Char), ndHead x = true → ∀ c rr, x = c :: rr → c.isDigit = false := by
    intro x hx c rr hcr
    subst hcr
    simpa [ndHead] using hx
  cases u with
  | nil =>
    exfalso
    have := parseIntPart_remainder_lt _ _ _ (by simpa using h)
    omega
  | cons c u' =>
    rw [List.cons_append] at h ⊢
    rw [parseIntPart.eq_def] at h ⊢
    dsimp only at h ⊢
    by_cases h0 : (c == '0') = true
    · rw [if_pos h0] at h ⊢
      rw [Option.some.injEq, Prod.mk.injEq] at h
      obtain ⟨hip, hrr⟩ := h
      have hu' : u' = [] := by simpa using congrArg List.length hrr
      subst hu'
      simp [hip]
    · rw [if_neg h0] at h ⊢
      by_cases hd : c.isDigit = true
      · rw [if_pos hd] at h ⊢
        rw [Option.some.injEq, Prod.mk.injEq] at h
        obtain ⟨hip, hrr⟩ := h
        -- dropWhile of (c :: (u' ++ r)) = r forces takeWhile = c :: u'
        have hsplit := List.takeWhile_append_dropWhile Char.isDigit (c :: (u' ++ r))
        rw [hrr] at hsplit
        have htw : (c :: (u' ++ r)).takeWhile Char.isDigit = c :: u' := by
          have : (c :: (u' ++ r)).takeWhile Char.isDigit ++ r = (c :: u') ++ r := by
            rw [hsplit]; simp
          exact List.append_cancel_right this
        have hall : ∀ x ∈ c :: u', x.isDigit = true := by
          intro x hx
          rw [← htw] at hx
          exact List.mem_takeWhile_imp hx
        have hnew := takeWhile_all_append Char.isDigit (c :: u') t hall
          (fun cc rr hcr => hnd t ht cc rr hcr)
        rw [show c :: (u' ++ t) = (c :: u') ++ t from by simp] at *
        rw [hnew.1, hnew.2]
        rw [← htw, hip]
      · rw [if_neg hd] at h
        simp at h

theorem fracSafe_ndHead (l : List Char) (h : fracSafe l = true) : ndHead l = true := by
  cases l with
  | nil => rfl
  | cons c r =>
    simp only [fracSafe, Bool.not_eq_true', Bool.or_eq_false_iff] at h
    simp [ndHead, h.1]


theorem parseFracPart_suffix (ip : Nat) (l : List Char) (m : Dec) (r : List Char)
    (h : parseFracPart ip l = (m, r)) :
    ∃ w, l = w ++ r ∧ (w = [] ∨ ∃ wr, w = '.' :: wr) ∧
      ∀ c ∈ w, c.isDigit = true ∨ c = '.' := by
  cases l with
  | nil =>
    simp only [parseFracPart] at h
    rw [Prod.mk.injEq] at h
    exact ⟨[], by simp [← h.2], Or.inl rfl, by simp⟩
  | cons c rf =>
    simp only [parseFracPart] at h
    by_cases hdot : (c == '.') = true
    · rw [if_pos hdot] at h
      by_cases he : (rf.takeWhile Char.isDigit).isEmpty = true
      · rw [if_pos he] at h
        rw [Prod.mk.injEq] at h
        exact ⟨[], by simp [← h.2], Or.inl rfl, by simp⟩
      · rw [if_neg he] at h
        rw [Prod.mk.injEq] at h
        refine ⟨c :: rf.takeWhile Char.isDigit, ?_, Or.inr ⟨_, by rw [beq_iff_eq] at hdot; rw [hdot]⟩, ?_⟩
        · rw [← h.2]
          simp [List.takeWhile_append_dropWhile]
        · intro x hx
          rcases List.mem_cons.mp hx with hx | hx
          · right; rw [hx]; rwa [beq_iff_eq] at hdot
          · left; exact List.mem_takeWhile_imp hx
    · rw [if_neg hdot] at h
      rw [Prod.mk.injEq] at h
      exact ⟨[], by simp [← h.2], Or.inl rfl, by simp⟩

theorem parseExpPart_suffix (m : Dec) (l : List Char) (m' : Dec) (r : List Char)
    (h : parseExpPart m l = (m', r)) :
    ∃ w, l = w ++ r ∧ (w = [] ∨ ∃ c wr, w = c :: wr ∧ (c = 'e' ∨ c = 'E')) ∧
      ∀ c ∈ w, c.isDigit = true ∨ c = 'e' ∨ c = 'E' ∨ c = '+' ∨ c = '-' := by
  cases l with
  | nil =>
    simp only [parseExpPart] at h
    rw [Prod.mk.injEq] at h
    exact ⟨[], by simp [← h.2], Or.inl rfl, by simp⟩
  | cons c rE =>
    simp only [parseExpPart] at h
    by_cases hce : (c == 'e' || c == 'E') = true
    · rw [if_pos hce] at h
      have hc' : c = 'e' ∨ c = 'E' := by
        rcases Bool.or_eq_true_iff.mp hce with h1 | h1
        · left; exact beq_iff_eq.mp h1
        · right; exact beq_iff_eq.mp h1
      cases rE with
      | nil =>
        simp only [List.takeWhile_nil, List.isEmpty_nil, if_true] at h
        rw [Prod.mk.injEq] at h
        exact ⟨[], by simp [← h.2], Or.inl rfl, by simp⟩
      | cons c2 u =>
        dsimp only at h
        by_cases hp : (c2 == '+') = true
        · rw [if_pos hp] at h
          dsimp only at h
          by_cases he : (u.takeWhile Char.isDigit).isEmpty = true
          · rw [if_pos he] at h
            rw [Prod.mk.injEq] at h
            exact ⟨[], by simp [← h.2], Or.inl rfl, by simp⟩
          · rw [if_neg he] at h
            rw [Prod.mk.injEq] at h
            refine ⟨c :: c2 :: u.takeWhile Char.isDigit, ?_, Or.inr ⟨c, _, rfl, hc'⟩, ?_⟩
            · rw [← h.2]
              simp [List.takeWhile_append_dropWhile]
            · intro x hx
              rcases List.mem_cons.mp hx with hx | hx
              · rcases hc' with h1 | h1 <;> simp [hx, h1]
              · rcases List.mem_cons.mp hx with hx | hx
                · rw [hx]; rw [beq_iff_eq] at hp; simp [hp]
                · left; exact List.mem_takeWhile_imp hx
        · rw [if_neg hp] at h
          by_cases hm : (c2 == '-') = true
          · rw [if_pos hm] at h
            dsimp only at h
            by_cases he : (u.takeWhile Char.isDigit).isEmpty = true
            · rw [if_pos he] at h
              rw [Prod.mk.injEq] at h
              exact ⟨[], by simp [← h.2], Or.inl rfl, by simp⟩
            · rw [if_neg he] at h
              rw [Prod.mk.injEq] at h
              refine ⟨c :: c2 :: u.takeWhile Char.isDigit, ?_, Or.inr ⟨c, _, rfl, hc'⟩, ?_⟩
              · rw [← h.2]
                simp [List.takeWhile_append_dropWhile]
              · intro x hx
                rcases List.mem_cons.mp hx with hx | hx
                · rcases hc' with h1 | h1 <;> simp [hx, h1]
                · rcases List.mem_cons.mp hx with hx | hx
                  · rw [hx]; rw [beq_iff_eq] at hm; simp [hm]
                  · left; exact List.mem_takeWhile_imp hx
          · rw [if_neg hm] at h
            dsimp only at h
            by_cases he : (((c2 :: u).takeWhile Char.isDigit)).isEmpty = true
            · rw [if_pos he] at h
              rw [Prod.mk.injEq] at h
              exact ⟨[], by simp [← h.2], Or.inl rfl, by simp⟩
            · rw [if_neg he] at h
              rw [Prod.mk.injEq] at h
              refine ⟨c :: (c2 :: u).takeWhile Char.isDigit, ?_, Or.inr ⟨c, _, rfl, hc'⟩, ?_⟩
              · rw [← h.2]
                simp [List.takeWhile_append_dropWhile]
              · intro x hx
                rcases List.mem_cons.mp hx with hx | hx
                · rcases hc' with h1 | h1 <;> simp [hx, h1]
                · left; exact List.mem_takeWhile_imp hx
    · rw [if_neg hce] at h
      rw [Prod.mk.injEq] at h
      exact ⟨[], by simp [← h.2], Or.inl rfl, by simp⟩

theorem cons_append_ne (c : Char) (a b : List Char) : c :: (a ++ b) ≠ b := by
  intro hh
  have := congrArg List.length hh
  simp only [List.length_cons, List.length_append] at this
  omega

theorem twdw_cancel (p : Char → Bool) (a b : List Char)
    (h : (a ++ b).dropWhile p = b) :
    (a ++ b).takeWhile p = a ∧ ∀ c ∈ a, p c = true := by
  have hsplit := List.takeWhile_append_dropWhile p (a ++ b)
  rw [h] at hsplit
  have htw : (a ++ b).takeWhile p = a := List.append_cancel_right hsplit
  refine ⟨htw, fun c hc => ?_⟩
  rw [← htw] at hc
  exact List.mem_takeWhile_imp hc

theorem parseFracPart_noop (ip : Nat) (t : List Char) (h : fracSafe t = true) :
    parseFracPart ip t = (⟨(ip : Int), 0⟩, t) := by
  cases t with
  | nil => simp [parseFracPart]
  | cons c tf =>
    simp only [fracSafe, Bool.not_eq_true', Bool.or_eq_false_iff] at h
    simp [parseFracPart, h.2]

theorem parseExpPart_noop (m : Dec) (t : List Char) (h : goodB t = true) :
    parseExpPart m t = (m, t) := by
  cases t with
  | nil => simp [parseExpPart]
  | cons c tE =>
    have := goodB_head_false c tE h
    simp [parseExpPart, this.2.2.1, this.2.2.2]

theorem parseFracPart_ext (ip : Nat) (u r t : List Char) (m : Dec)
    (h : parseFracPart ip (u ++ r) = (m, r))
    (hr : fracSafe r = true) (ht : fracSafe t = true) :
    parseFracPart ip (u ++ t) = (m, t) := by
  cases u with
  | nil =>
    simp only [List.nil_append] at h ⊢
    rw [parseFracPart_noop ip r hr, Prod.mk.injEq] at h
    rw [parseFracPart_noop ip t ht, ← h.1]
  | cons c u' =>
    rw [List.cons_append] at h ⊢
    simp only [parseFracPart] at h ⊢
    by_cases hdot : (c == '.') = true
    · rw [if_pos hdot] at h ⊢
      by_cases he : ((u' ++ r).takeWhile Char.isDigit).isEmpty = true
      · rw [if_pos he] at h
        rw [Prod.mk.injEq] at h
        exact absurd h.2 (cons_append_ne c u' r)
      · rw [if_neg he] at h
        rw [Prod.mk.injEq] at h
        obtain ⟨htw, hall⟩ := twdw_cancel Char.isDigit u' r h.2
        have hne : u' ≠ [] := by
          intro hu
          rw [htw, hu] at he
          exact he rfl
        have hnew := takeWhile_all_append Char.isDigit u' t hall
          (fun cc rr hcr => by
            rw [hcr] at ht
            simp only [fracSafe, Bool.not_eq_true', Bool.or_eq_false_iff] at ht
            exact ht.1)
        rw [hnew.1, hnew.2]
        have hne2 : u'.isEmpty = false := by
          cases u' with
          | nil => exact absurd rfl hne
          | cons a b => rfl
        rw [hne2]
        simp only [Bool.false_eq_true, if_false]
        rw [htw] at h
        rw [Prod.mk.injEq]
        exact ⟨h.1, rfl⟩
    · rw [if_neg hdot] at h
      rw [Prod.mk.injEq] at h
      exact absurd h.2 (cons_append_ne c u' r)

theorem parseExpPart_ext (m : Dec) (u r t : List Char) (m' : Dec)
    (h : parseExpPart m (u ++ r) = (m', r))
    (hr : goodB r = true) (ht : goodB t = true) :
    parseExpPart m (u ++ t) = (m', t) := by
  have htnd : ∀ cc rr, t = cc :: rr → cc.isDigit = false :=
    fun cc rr hcr => by rw [hcr] at ht; exact (goodB_head_false cc rr ht).1
  cases u with
  | nil =>
    simp only [List.nil_append] at h ⊢
    rw [parseExpPart_noop m r hr, Prod.mk.injEq] at h
    rw [parseExpPart_noop m t ht, ← h.1]
  | cons c u' =>
    rw [List.cons_append] at h ⊢
    simp only [parseExpPart] at h ⊢
    by_cases hce : (c == 'e' || c == 'E') = true
    · rw [if_pos hce] at h ⊢
      cases u' with
      | nil =>
        exfalso
        simp only [List.nil_append] at h
        cases r with
        | nil =>
          simp only [List.takeWhile_nil, List.isEmpty_nil, if_true] at h
          rw [Prod.mk.injEq] at h
          simp at h
        | cons c2 rr =>
          have hnd2 : c2.isDigit = false := (goodB_head_false c2 rr hr).1
          dsimp only at h
          by_cases hp : (c2 == '+') = true
          · rw [if_pos hp] at h
            dsimp only at h
            by_cases he : (rr.takeWhile Char.isDigit).isEmpty = true
            · rw [if_pos he] at h
              rw [Prod.mk.injEq] at h
              exact cons_append_ne c [] (c2 :: rr) (by simpa using h.2)
            · rw [if_neg he] at h
              rw [Prod.mk.injEq] at h
              have := dropWhile_length_le Char.isDigit rr
              have := congrArg List.length h.2
              simp only [List.length_cons] at this
              omega
          · rw [if_neg hp] at h
            by_cases hm : (c2 == '-') = true
            · rw [if_pos hm] at h
              dsimp only at h
              by_cases he : (rr.takeWhile Char.isDigit).isEmpty = true
              · rw [if_pos he] at h
                rw [Prod.mk.injEq] at h
                exact cons_append_ne c [] (c2 :: rr) (by simpa using h.2)
              · rw [if_neg he] at h
                rw [Prod.mk.injEq] at h
                have := dropWhile_length_le Char.isDigit rr
                have := congrArg List.length h.2
                simp only [List.length_cons] at this
                omega
            · rw [if_neg hm] at h
              dsimp only at h
              rw [List.takeWhile_cons, hnd2] at h
              simp only [Bool.false_eq_true, if_false, List.isEmpty_nil, if_true] at h
              rw [Prod.mk.injEq] at h
              exact cons_append_ne c [] (c2 :: rr) (by simpa using h.2)
      | cons c2 u'' =>
        simp only [List.cons_append] at h ⊢
        by_cases hp : (c2 == '+') = true
        · rw [if_pos hp] at h ⊢
          dsimp only at h ⊢
          by_cases he : ((u'' ++ r).takeWhile Char.isDigit).isEmpty = true
          · rw [if_pos he] at h
            rw [Prod.mk.injEq] at h
            exact absurd h.2 (by
              intro hh
              have := congrArg List.length hh
              simp only [List.length_cons, List.length_append] at this
              omega)
          · rw [if_neg he] at h
            rw [Prod.mk.injEq] at h
            obtain ⟨htw, hall⟩ := twdw_cancel Char.isDigit u'' r h.2
            have hnew := takeWhile_all_append Char.isDigit u'' t hall htnd
            rw [hnew.1, hnew.2]
            have hne2 : u''.isEmpty = false := by
              cases u'' with
              | nil => rw [htw] at he; exact absurd rfl he
              | cons a b => rfl
            rw [hne2]
            simp only [Bool.false_eq_true, if_false]
            rw [htw] at h
            rw [Prod.mk.injEq]
            exact ⟨h.1, rfl⟩
        · rw [if_neg hp] at h ⊢
          by_cases hm : (c2 == '-') = true
          · rw [if_pos hm] at h ⊢
            dsimp only at h ⊢
            by_cases he : ((u'' ++ r).takeWhile Char.isDigit).isEmpty = true
            · rw [if_pos he] at h
              rw [Prod.mk.injEq] at h
              exact absurd h.2 (by
                intro hh
                have := congrArg List.length hh
                simp only [List.length_cons, List.length_append] at this
                omega)
            · rw [if_neg he] at h
              rw [Prod.mk.injEq] at h
              obtain ⟨htw, hall⟩ := twdw_cancel Char.isDigit u'' r h.2
              have hnew := takeWhile_all_append Char.isDigit u'' t hall htnd
              rw [hnew.1, hnew.2]
              have hne2 : u''.isEmpty = false := by
                cases u'' with
                | nil => rw [htw] at he; exact absurd rfl he
                | cons a b => rfl
              rw [hne2]
              simp only [Bool.false_eq_true, if_false]
              rw [htw] at h
              rw [Prod.mk.injEq]
              exact ⟨h.1, rfl⟩
          · rw [if_neg hm] at h ⊢
            dsimp only at h ⊢
            by_cases he : ((c2 :: (u'' ++ r)).takeWhile Char.isDigit).isEmpty = true
            · rw [if_pos he] at h
              rw [Prod.mk.injEq] at h
              exact absurd h.2 (by
                intro hh
                have := congrArg List.length hh
                simp only [List.length_cons, List.length_append] at this
                omega)
            · rw [if_neg he] at h
              rw [Prod.mk.injEq] at h
              rw [show c2 :: (u'' ++ r) = (c2 :: u'') ++ r from rfl] at h he
              obtain ⟨htw, hall⟩ := twdw_cancel Char.isDigit (c2 :: u'') r h.2
              have hnew := takeWhile_all_append Char.isDigit (c2 :: u'') t hall htnd
              rw [show c2 :: (u'' ++ t) = (c2 :: u'') ++ t from rfl]
              rw [hnew.1, hnew.2]
              simp only [List.isEmpty_cons, Bool.false_eq_true, if_false]
              rw [htw] at h
              rw [Prod.mk.injEq]
              exact ⟨h.1, rfl⟩
    · rw [if_neg hce] at h
      rw [Prod.mk.injEq] at h
      exact absurd h.2 (cons_append_ne c u' r)

/-- Characters that can occur inside a JSON number token. -/
def numChar (c : Char) : Bool :=
  c.isDigit || c == '-' || c == '+' || c == '.' || c == 'e' || c == 'E'

theorem fracSafe_of_expHead (w3 x : List Char)
    (hw : w3 = [] ∨ ∃ c wr, w3 = c :: wr ∧ (c = 'e' ∨ c = 'E'))
    (hx : goodB x = true) : fracSafe (w3 ++ x) = true := by
  rcases hw with rfl | ⟨c, wr, rfl, hc⟩
  · simpa using goodB_fracSafe x hx
  · rcases hc with rfl | rfl <;> rfl

theorem ndHead_of_heads (w2 w3 x : List Char)
    (h2 : w2 = [] ∨ ∃ wr, w2 = '.' :: wr)
    (h3 : w3 = [] ∨ ∃ c wr, w3 = c :: wr ∧ (c = 'e' ∨ c = 'E'))
    (hx : goodB x = true) : ndHead (w2 ++ (w3 ++ x)) = true := by
  rcases h2 with rfl | ⟨wr, rfl⟩
  · simp only [List.nil_append]
    rcases h3 with rfl | ⟨c, wr, rfl, hc⟩
    · simpa using goodB_ndHead x hx
    · rcases hc with rfl | rfl <;> rfl
  · rfl

theorem parseNumber_consumed (l : List Char) (q : Dec) (r : List Char)
    (h : parseNumber l = some (q, r)) :
    ∃ u, l = u ++ r ∧ u ≠ [] ∧ ∀ c ∈ u, numChar c = true := by
  cases l with
  | nil => simp [parseNumber, parseIntPart] at h
  | cons c l' =>
    simp only [parseNumber] at h
    by_cases hminus : (c == '-') = true
    · rw [if_pos hminus] at h
      dsimp only at h
      rcases hip : parseIntPart l' with _ | ⟨ip, r1⟩
      · rw [hip] at h; simp at h
      · rw [hip] at h
        dsimp only at h
        rcases hfr : parseFracPart ip r1 with ⟨m2, r2⟩
        rw [hfr] at h
        dsimp only at h
        rcases hex : parseExpPart m2 r2 with ⟨m3, r3⟩
        rw [hex] at h
        dsimp only at h
        rw [Option.some.injEq, Prod.mk.injEq] at h
        obtain ⟨-, hrr⟩ := h
        subst hrr
        obtain ⟨u1, hd1, hne1, hch1⟩ := parseIntPart_consumed l' ip r1 hip
        obtain ⟨w2, hd2, -, hch2⟩ := parseFracPart_suffix ip r1 m2 r2 hfr
        obtain ⟨w3, hd3, -, hch3⟩ := parseExpPart_suffix m2 r2 m3 r3 hex
        refine ⟨c :: (u1 ++ (w2 ++ w3)), ?_, by simp, ?_⟩
        · rw [hd1, hd2, hd3]
          simp [List.append_assoc]
        · intro x hx
          rcases List.mem_cons.mp hx with rfl | hx
          · rw [beq_iff_eq] at hminus
            rw [hminus]; rfl
          · rcases List.mem_append.mp hx with hx | hx
            · simp [numChar, hch1 x hx]
            · rcases List.mem_append.mp hx with hx | hx
              · rcases hch2 x hx with h1 | rfl
                · simp [numChar, h1]
                · rfl
              · rcases hch3 x hx with h1 | rfl | rfl | rfl | rfl
                · simp [numChar, h1]
                · rfl
                · rfl
                · rfl
                · rfl
    · rw [if_neg hminus] at h
      dsimp only at h
      rcases hip : parseIntPart (c :: l') with _ | ⟨ip, r1⟩
      · rw [hip] at h; simp at h
      · rw [hip] at h
        dsimp only at h
        rcases hfr : parseFracPart ip r1 with ⟨m2, r2⟩
        rw [hfr] at h
        dsimp only at h
        rcases hex : parseExpPart m2 r2 with ⟨m3, r3⟩
        rw [hex] at h
        dsimp only at h
        rw [Option.some.injEq, Prod.mk.injEq] at h
        obtain ⟨-, hrr⟩ := h
        subst hrr
        obtain ⟨u1, hd1, hne1, hch1⟩ := parseIntPart_consumed (c :: l') ip r1 hip
        obtain ⟨w2, hd2, -, hch2⟩ := parseFracPart_suffix ip r1 m2 r2 hfr
        obtain ⟨w3, hd3, -, hch3⟩ := parseExpPart_suffix m2 r2 m3 r3 hex
        refine ⟨u1 ++ (w2 ++ w3), ?_, fun hh => hne1 (List.append_eq_nil.mp hh).1, ?_⟩
        · rw [show (c :: l' : List Char) = u1 ++ r1 from hd1, hd2, hd3]
          simp [List.append_assoc]
        · intro x hx
          rcases List.mem_append.mp hx with hx | hx
          · simp [numChar, hch1 x hx]
          · rcases List.mem_append.mp hx with hx | hx
            · rcases hch2 x hx with h1 | rfl
              · simp [numChar, h1]
              · rfl
            · rcases hch3 x hx with h1 | rfl | rfl | rfl | rfl
              · simp [numChar, h1]
              · rfl
              · rfl
              · rfl
              · rfl

theorem parseNumber_remainder_lt (l : List Char) (q : Dec) (r : List Char)
    (h : parseNumber l = some (q, r)) : r.length < l.length := by
  obtain ⟨u, hu, hne, -⟩ := parseNumber_consumed l q r h
  subst hu
  cases u with
  | nil => exact absurd rfl hne
  | cons a b => simp [List.length_append]; omega

theorem parseNumber_stage_ext (uu r t r1 r2 : List Char) (ip : Nat) (m2 m3 : Dec)
    (hip : parseIntPart (uu ++ r) = some (ip, r1))
    (hfr : parseFracPart ip r1 = (m2, r2))
    (hex : parseExpPart m2 r2 = (m3, r))
    (hr : goodB r = true) (ht : goodB t = true) :
    ∃ r1' r2', parseIntPart (uu ++ t) = some (ip, r1') ∧
      parseFracPart ip r1' = (m2, r2') ∧ parseExpPart m2 r2' = (m3, t) := by
  obtain ⟨w3, hd3, hh3, -⟩ := parseExpPart_suffix m2 r2 m3 r hex
  subst hd3
  obtain ⟨w2, hd2, hh2, -⟩ := parseFracPart_suffix ip r1 m2 (w3 ++ r) hfr
  subst hd2
  obtain ⟨u1, hd1, -, -⟩ := parseIntPart_consumed (uu ++ r) ip _ hip
  have huu : uu = u1 ++ (w2 ++ w3) := by
    have h2 : uu ++ r = (u1 ++ (w2 ++ w3)) ++ r := by
      rw [hd1]; simp [List.append_assoc]
    exact List.append_cancel_right h2
  have hnd_r : ndHead (w2 ++ (w3 ++ r)) = true := ndHead_of_heads w2 w3 r hh2 hh3 hr
  have hnd_t : ndHead (w2 ++ (w3 ++ t)) = true := ndHead_of_heads w2 w3 t hh2 hh3 ht
  have hfs_r : fracSafe (w3 ++ r) = true := fracSafe_of_expHead w3 r hh3 hr
  have hfs_t : fracSafe (w3 ++ t) = true := fracSafe_of_expHead w3 t hh3 ht
  have hip0 : parseIntPart (u1 ++ (w2 ++ (w3 ++ r))) = some (ip, w2 ++ (w3 ++ r)) := by
    rw [← hd1]; exact hip
  have hip' := parseIntPart_ext u1 (w2 ++ (w3 ++ r)) (w2 ++ (w3 ++ t)) ip hip0 hnd_r hnd_t
  have hfr' := parseFracPart_ext ip w2 (w3 ++ r) (w3 ++ t) m2 hfr hfs_r hfs_t
  have hex' := parseExpPart_ext m2 w3 r t m3 hex hr ht
  refine ⟨w2 ++ (w3 ++ t), w3 ++ t, ?_, hfr', hex'⟩
  rw [huu, show (u1 ++ (w2 ++ w3)) ++ t = u1 ++ (w2 ++ (w3 ++ t)) from by simp [List.append_assoc]]
  exact hip'

theorem parseNumber_ext (u r t : List Char) (q : Dec)
    (h : parseNumber (u ++ r) = some (q, r))
    (hr : goodB r = true) (ht : goodB t = true) :
    parseNumber (u ++ t) = some (q, t) := by
  cases u with
  | nil =>
    exfalso
    have := parseNumber_remainder_lt _ _ _ (show parseNumber r = some (q, r) by simpa using h)
    omega
  | cons c u' =>
    rw [List.cons_append] at h ⊢
    simp only [parseNumber] at h ⊢
    by_cases hminus : (c == '-') = true
    · rw [if_pos hminus] at h ⊢
      dsimp only at h ⊢
      rcases hip : parseIntPart (u' ++ r) with _ | ⟨ip, r1⟩
      · rw [hip] at h; simp at h
      · rw [hip] at h
        dsimp only at h
        rcases hfr : parseFracPart ip r1 with ⟨m2, r2⟩
        rw [hfr] at h
        dsimp only at h
        rcases hex : parseExpPart m2 r2 with ⟨m3, r3⟩
        rw [hex] at h
        dsimp only at h
        rw [Option.some.injEq, Prod.mk.injEq] at h
        obtain ⟨hq, hrr⟩ := h
        rw [hrr] at hex
        obtain ⟨r1', r2', hip', hfr', hex'⟩ :=
          parseNumber_stage_ext u' r t r1 r2 ip m2 m3 hip hfr hex hr ht
        rw [hip']
        dsimp only
        rw [hfr']
        dsimp only
        rw [hex']
        dsimp only
        rw [hq]
    · rw [if_neg hminus] at h ⊢
      dsimp only at h ⊢
      rcases hip : parseIntPart (c :: (u' ++ r)) with _ | ⟨ip, r1⟩
      · rw [hip] at h; simp at h
      · rw [hip] at h
        dsimp only at h
        rcases hfr : parseFracPart ip r1 with ⟨m2, r2⟩
        rw [hfr] at h
        dsimp only at h
        rcases hex : parseExpPart m2 r2 with ⟨m3, r3⟩
        rw [hex] at h
        dsimp only at h
        rw [Option.some.injEq, Prod.mk.injEq] at h
        obtain ⟨hq, hrr⟩ := h
        rw [hrr] at hex
        have hip2 : parseIntPart ((c :: u') ++ r) = some (ip, r1) := by
          rw [List.cons_append]; exact hip
        obtain ⟨r1', r2', hip', hfr', hex'⟩ :=
          parseNumber_stage_ext (c :: u') r t r1 r2 ip m2 m3 hip2 hfr hex hr ht
        rw [List.cons_append] at hip'
        rw [hip']
        dsimp only
        rw [hfr']
        dsimp only
        rw [hex']
        dsimp only
        rw [hq]

/-! ## parseF: consumption with last-character information -/

theorem getLast?_cons_of_ne (c : Char) (u : List Char) (hu : u ≠ []) :
    (c :: u).getLast? = u.getLast? := by
  cases u with
  | nil => exact absurd rfl hu
  | cons a b => rfl

theorem getLast?_append_right (a b : List Char) (hb : b ≠ []) :
    (a ++ b).getLast? = b.getLast? := by
  induction a with
  | nil => rfl
  | cons x a' ih =>
    rw [List.cons_append, getLast?_cons_of_ne x (a' ++ b) (by
      intro hh
      exact hb (List.append_eq_nil.mp hh).2)]
    exact ih

theorem psb_last :
    ∀ (n : Nat) (l acc : List Char) (s : String) (r : List Char), l.length ≤ n →
      parseStringBody l acc = some (s, r) →
      ∃ u, l = u ++ r ∧ u ≠ [] ∧ u.getLast? = some '"' := by
  intro n
  induction n with
  | zero =>
    intro l acc s r hn h
    have : l = [] := List.eq_nil_of_length_eq_zero (by omega)
    subst this
    rw [parseStringBody.eq_def] at h
    simp at h
  | succ n ih =>
    intro l acc s r hn h
    cases l with
    | nil => rw [parseStringBody.eq_def] at h; simp at h
    | cons c l' =>
      rw [parseStringBody.eq_def] at h
      dsimp only at h
      by_cases hq : (c == '"') = true
      · rw [if_pos hq] at h
        rw [Option.some.injEq, Prod.mk.injEq] at h
        refine ⟨[c], by simp [h.2], by simp, ?_⟩
        rw [beq_iff_eq] at hq
        simp [hq]
      · rw [if_neg hq] at h
        by_cases hb : (c == '\\') = true
        · rw [if_pos hb] at h
          cases l' with
          | nil => simp at h
          | cons e r2 =>
            dsimp only at h
            by_cases he : (e == 'u') = true
            · rw [if_pos he] at h
              match r2, h with
              | h1 :: h2 :: h3 :: h4 :: r3, h =>
                dsimp only at h
                rcases hx1 : hexVal h1 with _ | a
                · rw [hx1] at h; simp at h
                · rw [hx1] at h
                  rcases hx2 : hexVal h2 with _ | b
                  · rw [hx2] at h; simp at h
                  · rw [hx2] at h
                    rcases hx3 : hexVal h3 with _ | cc
                    · rw [hx3] at h; simp at h
                    · rw [hx3] at h
                      rcases hx4 : hexVal h4 with _ | d
                      · rw [hx4] at h; simp at h
                      · rw [hx4] at h
                        obtain ⟨u, hu, hne, hlast⟩ := ih r3 _ s r (by simp at hn ⊢; omega) h
                        refine ⟨c :: e :: h1 :: h2 :: h3 :: h4 :: u, by simp [hu], by simp, ?_⟩
                        rw [show c :: e :: h1 :: h2 :: h3 :: h4 :: u =
                          [c, e, h1, h2, h3, h4] ++ u from rfl]
                        rw [getLast?_append_right _ u hne]
                        exact hlast
            · rw [if_neg he] at h
              rcases hesc : escChar e with _ | ec <;> rw [hesc] at h
              · simp at h
              · obtain ⟨u, hu, hne, hlast⟩ := ih r2 _ s r (by simp at hn ⊢; omega) h
                refine ⟨c :: e :: u, by simp [hu], by simp, ?_⟩
                rw [show c :: e :: u = [c, e] ++ u from rfl]
                rw [getLast?_append_right _ u hne]
                exact hlast
        · rw [if_neg hb] at h
          by_cases hctl : c.toNat < 32
          · rw [if_pos hctl] at h; simp at h
          · rw [if_neg hctl] at h
            obtain ⟨u, hu, hne, hlast⟩ := ih l' _ s r (by simp at hn ⊢; omega) h
            refine ⟨c :: u, by simp [hu], by simp, ?_⟩
            rw [getLast?_cons_of_ne c u hne]
            exact hlast

theorem parseStringBody_last (l acc : List Char) (s : String) (r : List Char)
    (h : parseStringBody l acc = some (s, r)) :
    ∃ u, l = u ++ r ∧ u ≠ [] ∧ u.getLast? = some '"' :=
  psb_last l.length l acc s r (le_refl _) h

theorem jsonWs_pyIsSpace (c : Char) (h : jsonWs c = true) : pyIsSpace c = true := by
  simp only [jsonWs, Bool.or_eq_true, beq_iff_eq] at h
  rcases h with ((rfl | rfl) | rfl) | rfl <;> rfl

theorem numChar_not_space (c : Char) (h : numChar c = true) : pyIsSpace c = false := by
  by_cases hs : pyIsSpace c = true
  · exfalso
    simp only [pyIsSpace, Bool.or_eq_true, beq_iff_eq] at hs
    rcases hs with ((((rfl | rfl) | rfl) | rfl) | rfl) | rfl <;> simp [numChar] at h
  · exact Bool.not_eq_true _ ▸ (by simpa using hs)

theorem parseF_consumed :
    ∀ (f : Nat) (mode : PMode) (l : List Char) (v : Json) (r : List Char),
      parseF f mode l = some (v, r) →
      ∃ u cl, l = u ++ r ∧ u ≠ [] ∧ u.getLast? = some cl ∧ pyIsSpace cl = false ∧
        (∀ acc, mode = PMode.members acc → cl = '}') := by
  intro f
  induction f with
  | zero => intro mode l v r h; simp [parseF] at h
  | succ f ih =>
    intro mode l v r h
    match mode with
    | .val =>
      cases l with
      | nil => rw [parseF.eq_def] at h; simp at h
      | cons c rest =>
        rw [parseF.eq_def] at h
        dsimp only at h
        have hsplit := List.takeWhile_append_dropWhile jsonWs rest
        by_cases hc1 : (c == '{') = true
        · rw [if_pos hc1] at h
          rcases hsw : skipWs rest with _ | ⟨d, r2⟩ <;> rw [hsw] at h <;> dsimp only at h
          · obtain ⟨u, cl, hu, hne, -, -, -⟩ := ih (.members []) [] v r h
            exact absurd hu.symm (by
              intro hh
              rcases List.append_eq_nil.mp hh with ⟨h1, -⟩
              exact hne h1)
          · by_cases hd : (d == '}') = true
            · rw [if_pos hd] at h
              rw [Option.some.injEq, Prod.mk.injEq] at h
              obtain ⟨hv, hr⟩ := h
              refine ⟨c :: (rest.takeWhile jsonWs ++ [d]), d, ?_, by simp, ?_, ?_, ?_⟩
              · rw [← hr]
                have : rest = rest.takeWhile jsonWs ++ (d :: r2) := by
                  have h2 := hsplit
                  rw [show rest.dropWhile jsonWs = skipWs rest from rfl, hsw] at h2
                  exact h2.symm
                rw [show c :: rest = c :: (rest.takeWhile jsonWs ++ (d :: r2)) from by
                  rw [← this]]
                simp
              · rw [show c :: (rest.takeWhile jsonWs ++ [d]) =
                  (c :: rest.takeWhile jsonWs) ++ [d] from by simp]
                rw [getLast?_append_right _ [d] (by simp)]
                rfl
              · rw [beq_iff_eq] at hd
                subst hd
                rfl
              · intro acc hacc
                exact PMode.noConfusion hacc
            · rw [if_neg hd] at h
              obtain ⟨um, cl, hu, hne, hlast, hns, hmem⟩ := ih (.members []) (d :: r2) v r h
              have hcl : cl = '}' := hmem [] rfl
              refine ⟨c :: (rest.takeWhile jsonWs ++ um), cl, ?_, by simp, ?_, hns, ?_⟩
              · have : rest = rest.takeWhile jsonWs ++ (d :: r2) := by
                  have h2 := hsplit
                  rw [show rest.dropWhile jsonWs = skipWs rest from rfl, hsw] at h2
                  exact h2.symm
                rw [show c :: rest = c :: (rest.takeWhile jsonWs ++ (d :: r2)) from by
                  rw [← this]]
                rw [hu]
                simp
              · rw [show c :: (rest.takeWhile jsonWs ++ um) =
                  (c :: rest.takeWhile jsonWs) ++ um from by simp]
                rw [getLast?_append_right _ um hne]
                exact hlast
              · intro acc hacc
                exact PMode.noConfusion hacc
        · rw [if_neg hc1] at h
          by_cases hc2 : (c == '[') = true
          · rw [if_pos hc2] at h
            rcases hsw : skipWs rest with _ | ⟨d, r2⟩ <;> rw [hsw] at h <;> dsimp only at h
            · obtain ⟨u, cl, hu, hne, -, -, -⟩ := ih (.elems []) [] v r h
              exact absurd hu.symm (by
                intro hh
                rcases List.append_eq_nil.mp hh with ⟨h1, -⟩
                exact hne h1)
            · by_cases hd : (d == ']') = true
              · rw [if_pos hd] at h
                rw [Option.some.injEq, Prod.mk.injEq] at h
                obtain ⟨hv, hr⟩ := h
                refine ⟨c :: (rest.takeWhile jsonWs ++ [d]), d, ?_, by simp, ?_, ?_, ?_⟩
                · rw [← hr]
                  have : rest = rest.takeWhile jsonWs ++ (d :: r2) := by
                    have h2 := hsplit
                    rw [show rest.dropWhile jsonWs = skipWs rest from rfl, hsw] at h2
                    exact h2.symm
                  rw [show c :: rest = c :: (rest.takeWhile jsonWs ++ (d :: r2)) from by
                    rw [← this]]
                  simp
                · rw [show c :: (rest.takeWhile jsonWs ++ [d]) =
                    (c :: rest.takeWhile jsonWs) ++ [d] from by simp]
                  rw [getLast?_append_right _ [d] (by simp)]
                  rfl
                · rw [beq_iff_eq] at hd
                  subst hd
                  rfl
                · intro acc hacc
                  exact PMode.noConfusion hacc
              · rw [if_neg hd] at h
                obtain ⟨um, cl, hu, hne, hlast, hns, -⟩ := ih (.elems []) (d :: r2) v r h
                refine ⟨c :: (rest.takeWhile jsonWs ++ um), cl, ?_, by simp, ?_, hns, ?_⟩
                · have : rest = rest.takeWhile jsonWs ++ (d :: r2) := by
                    have h2 := hsplit
                    rw [show rest.dropWhile jsonWs = skipWs rest from rfl, hsw] at h2
                    exact h2.symm
                  rw [show c :: rest = c :: (rest.takeWhile jsonWs ++ (d :: r2)) from by
                    rw [← this]]
                  rw [hu]
                  simp
                · rw [show c :: (rest.takeWhile jsonWs ++ um) =
                    (c :: rest.takeWhile jsonWs) ++ um from by simp]
                  rw [getLast?_append_right _ um hne]
                  exact hlast
                · intro acc hacc
                  exact PMode.noConfusion hacc
          · rw [if_neg hc2] at h
            by_cases hc3 : (c == '"') = true
            · rw [if_pos hc3] at h
              rcases hp : parseStringBody rest [] with _ | ⟨s', r'⟩ <;> rw [hp] at h <;> dsimp only at h
              · simp at h
              · rw [Option.some.injEq, Prod.mk.injEq] at h
                obtain ⟨hv, hr⟩ := h
                rw [hr] at hp
                obtain ⟨uk, hu, hne, hlast⟩ := parseStringBody_last rest [] s' r hp
                refine ⟨c :: uk, '"', by simp [hu], by simp, ?_, by decide, ?_⟩
                · rw [getLast?_cons_of_ne c uk hne]
                  exact hlast
                · intro acc hacc
                  exact PMode.noConfusion hacc
            · rw [if_neg hc3] at h
              by_cases hc4 : (c == 't') = true
              · rw [if_pos hc4] at h
                rcases hdl : dropLit ['r', 'u', 'e'] rest with _ | r' <;> rw [hdl] at h <;> dsimp only at h
                · simp at h
                · rw [Option.some.injEq, Prod.mk.injEq] at h
                  obtain ⟨hv, hr⟩ := h
                  rw [hr] at hdl
                  have hrest := dropLit_eq_some ['r', 'u', 'e'] rest r hdl
                  refine ⟨[c, 'r', 'u', 'e'], 'e', by simp [hrest], by simp, rfl,
                    by decide, ?_⟩
                  intro acc hacc
                  exact PMode.noConfusion hacc
              · rw [if_neg hc4] at h
                by_cases hc5 : (c == 'f') = true
                · rw [if_pos hc5] at h
                  rcases hdl : dropLit ['a', 'l', 's', 'e'] rest with _ | r' <;> rw [hdl] at h <;> dsimp only at h
                  · simp at h
                  · rw [Option.some.injEq, Prod.mk.injEq] at h
                    obtain ⟨hv, hr⟩ := h
                    rw [hr] at hdl
                    have hrest := dropLit_eq_some ['a', 'l', 's', 'e'] rest r hdl
                    refine ⟨[c, 'a', 'l', 's', 'e'], 'e', by simp [hrest], by simp, rfl,
                      by decide, ?_⟩
                    intro acc hacc
                    exact PMode.noConfusion hacc
                · rw [if_neg hc5] at h
                  by_cases hc6 : (c == 'n') = true
                  · rw [if_pos hc6] at h
                    rcases hdl : dropLit ['u', 'l', 'l'] rest with _ | r' <;> rw [hdl] at h <;> dsimp only at h
                    · simp at h
                    · rw [Option.some.injEq, Prod.mk.injEq] at h
                      obtain ⟨hv, hr⟩ := h
                      rw [hr] at hdl
                      have hrest := dropLit_eq_some ['u', 'l', 'l'] rest r hdl
                      refine ⟨[c, 'u', 'l', 'l'], 'l', by simp [hrest], by simp, rfl,
                        by decide, ?_⟩
                      intro acc hacc
                      exact PMode.noConfusion hacc
                  · rw [if_neg hc6] at h
                    rcases hn : parseNumber (c :: rest) with _ | ⟨q, r'⟩ <;> rw [hn] at h <;> dsimp only at h
                    · simp at h
                    · rw [Option.some.injEq, Prod.mk.injEq] at h
                      obtain ⟨hv, hr⟩ := h
                      rw [hr] at hn
                      obtain ⟨un, hu, hne, hch⟩ := parseNumber_consumed (c :: rest) q r hn
                      have hex : ∃ cl, un.getLast? = some cl := by
                        cases un with
                        | nil => exact absurd rfl hne
                        | cons a b => exact ⟨(a :: b).getLast (by simp), List.getLast?_eq_getLast _ _⟩
                      obtain ⟨cl, hcl⟩ := hex
                      have hclmem : cl ∈ un := by
                        have := List.getLast?_eq_getLast un hne
                        rw [hcl] at this
                        rw [Option.some.injEq] at this
                        rw [this]
                        exact List.getLast_mem hne
                      refine ⟨un, cl, hu, hne, hcl, numChar_not_space cl (hch cl hclmem), ?_⟩
                      intro acc hacc
                      exact PMode.noConfusion hacc
    | .members acc =>
      cases l with
      | nil => rw [parseF.eq_def] at h; simp at h
      | cons c rest =>
        rw [parseF.eq_def] at h
        dsimp only at h
        by_cases hc : (c == '"') = true
        · rw [if_pos hc] at h
          rcases hp : parseStringBody rest [] with _ | ⟨k, r1⟩ <;> rw [hp] at h
          · simp at h
          · dsimp only at h
            rcases hsw1 : skipWs r1 with _ | ⟨c2, r3⟩ <;> rw [hsw1] at h <;> dsimp only at h
            · simp at h
            · by_cases hcol : (c2 == ':') = true
              · rw [if_pos hcol] at h
                rcases hval : parseF f .val (skipWs r3) with _ | ⟨v1, r4⟩ <;> rw [hval] at h
                · simp at h
                · dsimp only at h
                  rcases hsw4 : skipWs r4 with _ | ⟨c3, r6⟩ <;> rw [hsw4] at h <;> dsimp only at h
                  · simp at h
                  · obtain ⟨uk, hdk, -⟩ := parseStringBody_consumed rest [] k r1 hp
                    obtain ⟨uv, clv, hdv, hnev, -, -, -⟩ := ih .val (skipWs r3) v1 r4 hval
                    obtain ⟨ws1, hd1⟩ : ∃ w, r1 = w ++ (c2 :: r3) := by
                      refine ⟨r1.takeWhile jsonWs, ?_⟩
                      have h2 := List.takeWhile_append_dropWhile jsonWs r1
                      rw [show r1.dropWhile jsonWs = skipWs r1 from rfl, hsw1] at h2
                      exact h2.symm
                    obtain ⟨ws3, hd3⟩ : ∃ w, r3 = w ++ (uv ++ r4) := by
                      refine ⟨r3.takeWhile jsonWs, ?_⟩
                      have h2 := List.takeWhile_append_dropWhile jsonWs r3
                      rw [show r3.dropWhile jsonWs = skipWs r3 from rfl, hdv] at h2
                      exact h2.symm
                    obtain ⟨ws4, hd4⟩ : ∃ w, r4 = w ++ (c3 :: r6) := by
                      refine ⟨r4.takeWhile jsonWs, ?_⟩
                      have h2 := List.takeWhile_append_dropWhile jsonWs r4
                      rw [show r4.dropWhile jsonWs = skipWs r4 from rfl, hsw4] at h2
                      exact h2.symm
                    by_cases hcom : (c3 == ',') = true
                    · rw [if_pos hcom] at h
                      obtain ⟨urec, cl, hdrec, hnerec, hlastrec, hnsrec, hmemrec⟩ :=
                        ih (.members (acc ++ [(k, v1)])) (skipWs r6) v r h
                      have hcl : cl = '}' := hmemrec _ rfl
                      obtain ⟨ws6, hd6⟩ : ∃ w, r6 = w ++ (urec ++ r) := by
                        refine ⟨r6.takeWhile jsonWs, ?_⟩
                        have h2 := List.takeWhile_append_dropWhile jsonWs r6
                        rw [show r6.dropWhile jsonWs = skipWs r6 from rfl, hdrec] at h2
                        exact h2.symm
                      refine ⟨c :: (uk ++ (ws1 ++ (c2 :: (ws3 ++ (uv ++ (ws4 ++
                        (c3 :: (ws6 ++ urec)))))))),
                        cl, ?_, by simp, ?_, hnsrec, fun _ _ => hcl⟩
                      · rw [show c :: rest = c :: (uk ++ r1) from by rw [← hdk]]
                        rw [hd1, hd3, hd4, hd6]
                        simp
                      · rw [show c :: (uk ++ (ws1 ++ (c2 :: (ws3 ++ (uv ++ (ws4 ++
                          (c3 :: (ws6 ++ urec)))))))) =
                          (c :: (uk ++ (ws1 ++ (c2 :: (ws3 ++ (uv ++ (ws4 ++ (c3 :: ws6))))))))
                          ++ urec from by simp]
                        rw [getLast?_append_right _ urec hnerec]
                        exact hlastrec
                    · rw [if_neg hcom] at h
                      by_cases hcb : (c3 == '}') = true
                      · rw [if_pos hcb] at h
                        rw [Option.some.injEq, Prod.mk.injEq] at h
                        obtain ⟨hv, hr⟩ := h
                        rw [hr] at hd4
                        refine ⟨c :: (uk ++ (ws1 ++ (c2 :: (ws3 ++ (uv ++ (ws4 ++ [c3])))))),
                          c3, ?_, by simp, ?_, ?_,
                          fun _ _ => beq_iff_eq.mp hcb⟩
                        · rw [show c :: rest = c :: (uk ++ r1) from by rw [← hdk]]
                          rw [hd1, hd3, hd4]
                          simp
                        · rw [show c :: (uk ++ (ws1 ++ (c2 :: (ws3 ++ (uv ++ (ws4 ++ [c3])))))) =
                            (c :: (uk ++ (ws1 ++ (c2 :: (ws3 ++ (uv ++ ws4)))))) ++ [c3]
                            from by simp]
                          rw [getLast?_append_right _ [c3] (by simp)]
                          rfl
                        · rw [beq_iff_eq] at hcb
                          subst hcb
                          rfl
                      · rw [if_neg hcb] at h
                        simp at h
              · rw [if_neg hcol] at h
                simp at h
        · rw [if_neg hc] at h
          simp at h
    | .elems acc =>
      rw [parseF.eq_def] at h
      dsimp only at h
      rcases hval : parseF f .val l with _ | ⟨v1, r1⟩ <;> rw [hval] at h
      · simp at h
      · dsimp only at h
        rcases hsw1 : skipWs r1 with _ | ⟨c2, r3⟩ <;> rw [hsw1] at h <;> dsimp only at h
        · simp at h
        · obtain ⟨uv, clv, hdv, hnev, -, -, -⟩ := ih .val l v1 r1 hval
          obtain ⟨ws1, hd1⟩ : ∃ w, r1 = w ++ (c2 :: r3) := by
            refine ⟨r1.takeWhile jsonWs, ?_⟩
            have h2 := List.takeWhile_append_dropWhile jsonWs r1
            rw [show r1.dropWhile jsonWs = skipWs r1 from rfl, hsw1] at h2
            exact h2.symm
          by_cases hcom : (c2 == ',') = true
          · rw [if_pos hcom] at h
            obtain ⟨urec, cl, hdrec, hnerec, hlastrec, hnsrec, -⟩ :=
              ih (.elems (acc ++ [v1])) (skipWs r3) v r h
            obtain ⟨ws3, hd3⟩ : ∃ w, r3 = w ++ (urec ++ r) := by
              refine ⟨r3.takeWhile jsonWs, ?_⟩
              have h2 := List.takeWhile_append_dropWhile jsonWs r3
              rw [show r3.dropWhile jsonWs = skipWs r3 from rfl, hdrec] at h2
              exact h2.symm
            refine ⟨uv ++ (ws1 ++ (c2 :: (ws3 ++ urec))),
              cl, ?_, by simp, ?_, hnsrec, ?_⟩
            · rw [hdv, hd1, hd3]
              simp
            · rw [show uv ++ (ws1 ++ (c2 :: (ws3 ++ urec))) =
                (uv ++ (ws1 ++ (c2 :: ws3))) ++ urec from by simp]
              rw [getLast?_append_right _ urec hnerec]
              exact hlastrec
            · intro acc' hacc
              exact PMode.noConfusion hacc
          · rw [if_neg hcom] at h
            by_cases hcb : (c2 == ']') = true
            · rw [if_pos hcb] at h
              rw [Option.some.injEq, Prod.mk.injEq] at h
              obtain ⟨hv, hr⟩ := h
              rw [hr] at hd1
              refine ⟨uv ++ (ws1 ++ [c2]), c2, ?_, by simp, ?_, ?_, ?_⟩
              · rw [hdv, hd1]
                simp
              · rw [show uv ++ (ws1 ++ [c2]) =
                  (uv ++ ws1) ++ [c2] from by simp]
                rw [getLast?_append_right _ [c2] (by simp)]
                rfl
              · rw [beq_iff_eq] at hcb
                subst hcb
                rfl
              · intro acc' hacc
                exact PMode.noConfusion hacc
            · rw [if_neg hcb] at h
              simp at h

theorem parseF_shape :
    ∀ (f : Nat) (mode : PMode) (l : List Char) (v : Json) (r : List Char),
      parseF f mode l = some (v, r) →
      (∀ acc, mode = PMode.members acc → ∃ ps, v = Json.obj ps) ∧
      (∀ acc, mode = PMode.elems acc → ∃ es, v = Json.arr es) := by
  intro f
  induction f with
  | zero => intro mode l v r h; simp [parseF] at h
  | succ f ih =>
    intro mode l v r h
    match mode with
    | .val =>
      exact ⟨fun acc hacc => PMode.noConfusion hacc, fun acc hacc => PMode.noConfusion hacc⟩
    | .members acc =>
      refine ⟨fun acc' hacc => ?_, fun acc' hacc => PMode.noConfusion hacc⟩
      cases l with
      | nil => rw [parseF.eq_def] at h; simp at h
      | cons c rest =>
        rw [parseF.eq_def] at h
        dsimp only at h
        by_cases hc : (c == '"') = true
        · rw [if_pos hc] at h
          rcases hp : parseStringBody rest [] with _ | ⟨k, r1⟩ <;> rw [hp] at h <;> dsimp only at h
          · simp at h
          · rcases hsw1 : skipWs r1 with _ | ⟨c2, r3⟩ <;> rw [hsw1] at h <;> dsimp only at h
            · simp at h
            · by_cases hcol : (c2 == ':') = true
              · rw [if_pos hcol] at h
                rcases hval : parseF f .val (skipWs r3) with _ | ⟨v1, r4⟩ <;> rw [hval] at h
                  <;> dsimp only at h
                · simp at h
                · rcases hsw4 : skipWs r4 with _ | ⟨c3, r6⟩ <;> rw [hsw4] at h <;> dsimp only at h
                  · simp at h
                  · by_cases hcom : (c3 == ',') = true
                    · rw [if_pos hcom] at h
                      exact (ih _ _ _ _ h).1 _ rfl
                    · rw [if_neg hcom] at h
                      by_cases hcb : (c3 == '}') = true
                      · rw [if_pos hcb] at h
                        rw [Option.some.injEq, Prod.mk.injEq] at h
                        exact ⟨_, h.1.symm⟩
                      · rw [if_neg hcb] at h
                        simp at h
              · rw [if_neg hcol] at h
                simp at h
        · rw [if_neg hc] at h
          simp at h
    | .elems acc =>
      refine ⟨fun acc' hacc => PMode.noConfusion hacc, fun acc' hacc => ?_⟩
      rw [parseF.eq_def] at h
      dsimp only at h
      rcases hval : parseF f .val l with _ | ⟨v1, r1⟩ <;> rw [hval] at h <;> dsimp only at h
      · simp at h
      · rcases hsw1 : skipWs r1 with _ | ⟨c2, r3⟩ <;> rw [hsw1] at h <;> dsimp only at h
        · simp at h
        · by_cases hcom : (c2 == ',') = true
          · rw [if_pos hcom] at h
            exact (ih _ _ _ _ h).2 _ rfl
          · rw [if_neg hcom] at h
            by_cases hcb : (c2 == ']') = true
            · rw [if_pos hcb] at h
              rw [Option.some.injEq, Prod.mk.injEq] at h
              exact ⟨_, h.1.symm⟩
            · rw [if_neg hcb] at h
              simp at h

/-- A successful value parse returning an object can only start at `{`. -/
theorem parseF_obj_head (f : Nat) (c : Char) (rest : List Char)
    (o : List (String × Json)) (r : List Char)
    (h : parseF f PMode.val (c :: rest) = some (Json.obj o, r)) : c = '{' := by
  cases f with
  | zero => simp [parseF] at h
  | succ f =>
    rw [parseF.eq_def] at h
    dsimp only at h
    by_cases hc1 : (c == '{') = true
    · exact beq_iff_eq.mp hc1
    · exfalso
      rw [if_neg hc1] at h
      by_cases hc2 : (c == '[') = true
      · rw [if_pos hc2] at h
        rcases hsw : skipWs rest with _ | ⟨d, r2⟩ <;> rw [hsw] at h <;> dsimp only at h
        · obtain ⟨es, he⟩ := (parseF_shape f _ _ _ _ h).2 _ rfl
          exact Json.noConfusion he
        · by_cases hd : (d == ']') = true
          · rw [if_pos hd] at h
            rw [Option.some.injEq, Prod.mk.injEq] at h
            exact Json.noConfusion h.1
          · rw [if_neg hd] at h
            obtain ⟨es, he⟩ := (parseF_shape f _ _ _ _ h).2 _ rfl
            exact Json.noConfusion he
      · rw [if_neg hc2] at h
        by_cases hc3 : (c == '"') = true
        · rw [if_pos hc3] at h
          rcases hp : parseStringBody rest [] with _ | ⟨s', r'⟩ <;> rw [hp] at h <;> dsimp only at h
          · simp at h
          · rw [Option.some.injEq, Prod.mk.injEq] at h
            exact Json.noConfusion h.1
        · rw [if_neg hc3] at h
          by_cases hc4 : (c == 't') = true
          · rw [if_pos hc4] at h
            rcases hdl : dropLit ['r', 'u', 'e'] rest with _ | r' <;> rw [hdl] at h <;> dsimp only at h
            · simp at h
            · rw [Option.some.injEq, Prod.mk.injEq] at h
              exact Json.noConfusion h.1
          · rw [if_neg hc4] at h
            by_cases hc5 : (c == 'f') = true
            · rw [if_pos hc5] at h
              rcases hdl : dropLit ['a', 'l', 's', 'e'] rest with _ | r' <;> rw [hdl] at h
                <;> dsimp only at h
              · simp at h
              · rw [Option.some.injEq, Prod.mk.injEq] at h
                exact Json.noConfusion h.1
            · rw [if_neg hc5] at h
              by_cases hc6 : (c == 'n') = true
              · rw [if_pos hc6] at h
                rcases hdl : dropLit ['u', 'l', 'l'] rest with _ | r' <;> rw [hdl] at h
                  <;> dsimp only at h
                · simp at h
                · rw [Option.some.injEq, Prod.mk.injEq] at h
                  exact Json.noConfusion h.1
              · rw [if_neg hc6] at h
                rcases hn : parseNumber (c :: rest) with _ | ⟨q, r'⟩ <;> rw [hn] at h
                  <;> dsimp only at h
                · simp at h
                · rw [Option.some.injEq, Prod.mk.injEq] at h
                  exact Json.noConfusion h.1

theorem parseF_no_echo (f : Nat) (mode : PMode) (r : List Char) (v : Json)
    (h : parseF f mode r = some (v, r)) : False := by
  obtain ⟨uu, cl, hu, hne, -, -, -⟩ := parseF_consumed f mode r v r h
  have h2 := congrArg List.length hu
  simp only [List.length_append] at h2
  have h3 : uu.length = 0 := by omega
  exact hne (List.eq_nil_of_length_eq_zero h3)

theorem parseF_remainder_lt (f : Nat) (mode : PMode) (l : List Char) (v : Json) (r : List Char)
    (h : parseF f mode l = some (v, r)) : r.length < l.length := by
  obtain ⟨uu, cl, hu, hne, -, -, -⟩ := parseF_consumed f mode l v r h
  subst hu
  cases uu with
  | nil => exact absurd rfl hne
  | cons a b => simp only [List.length_append, List.length_cons]; omega

theorem skipWs_head (l : List Char) (c : Char) (r : List Char)
    (h : skipWs l = c :: r) : jsonWs c = false := by
  induction l with
  | nil => simp [skipWs] at h
  | cons a l' ih =>
    unfold skipWs at h
    rw [List.dropWhile_cons] at h
    by_cases ha : jsonWs a = true
    · rw [if_pos ha] at h
      exact ih h
    · rw [if_neg ha] at h
      rw [List.cons.injEq] at h
      rw [← h.1]
      exact Bool.not_eq_true _ ▸ (by simpa using ha)

theorem skipWs_all (w : List Char) (hw : ∀ c ∈ w, jsonWs c = true) : skipWs w = [] := by
  induction w with
  | nil => rfl
  | cons a w' ih =>
    unfold skipWs at *
    rw [List.dropWhile_cons, if_pos (hw a (by simp))]
    exact ih (fun c hc => hw c (by simp [hc]))

theorem skipWs_all_append (w x : List Char) (hw : ∀ c ∈ w, jsonWs c = true) :
    skipWs (w ++ x) = skipWs x :=
  skipWs_append_of_empty w x (skipWs_all w hw)

theorem goodB_of_head (c : Char) (x : List Char)
    (hc : jsonWs c = true ∨ c = ',' ∨ c = '}' ∨ c = ']') : goodB (c :: x) = true := by
  rcases hc with hws | rfl | rfl | rfl
  · simp only [jsonWs, Bool.or_eq_true, beq_iff_eq] at hws
    rcases hws with ((rfl | rfl) | rfl) | rfl <;> rfl
  · rfl
  · rfl
  · rfl

theorem goodB_ws_cons (w : List Char) (c : Char) (x : List Char)
    (hw : ∀ cc ∈ w, jsonWs cc = true)
    (hc : jsonWs c = true ∨ c = ',' ∨ c = '}' ∨ c = ']') :
    goodB (w ++ c :: x) = true := by
  cases w with
  | nil => simpa using goodB_of_head c x hc
  | cons a w' =>
    rw [List.cons_append]
    exact goodB_of_head a _ (Or.inl (hw a (by simp)))

theorem parseF_main :
    ∀ (f : Nat) (mode : PMode) (u r t : List Char) (v : Json) (g : Nat),
      parseF f mode (u ++ r) = some (v, r) →
      2 * u.length + 1 ≤ g →
      (∀ q, v = Json.num q → goodB r = true ∧ goodB t = true) →
      parseF g mode (u ++ t) = some (v, t) := by
  intro f
  induction f with
  | zero =>
    intro mode u r t v g h hg hnum
    simp [parseF] at h
  | succ f ih =>
    intro mode u r t v g h hg hnum
    cases g with
    | zero => omega
    | succ g =>
    match mode with
    | .val =>
      cases u with
      | nil => exact (parseF_no_echo (f + 1) .val r v (by simpa using h)).elim
      | cons c u' =>
        rw [List.cons_append] at h ⊢
        rw [parseF.eq_def] at h ⊢
        dsimp only at h ⊢
        by_cases hc1 : (c == '{') = true
        · rw [if_pos hc1] at h ⊢
          rcases hswu : skipWs u' with _ | ⟨d, w⟩
          · exfalso
            rw [skipWs_append_of_empty u' r hswu] at h
            rcases hswr : skipWs r with _ | ⟨d, r2⟩ <;> rw [hswr] at h <;> dsimp only at h
            · obtain ⟨uu, cl, hu, hne, -, -, -⟩ := parseF_consumed f _ [] v r h
              have h2 := congrArg List.length hu
              simp only [List.length_nil, List.length_append] at h2
              exact hne (List.eq_nil_of_length_eq_zero (by omega))
            · by_cases hd : (d == '}') = true
              · rw [if_pos hd] at h
                rw [Option.some.injEq, Prod.mk.injEq] at h
                have hlen := dropWhile_length_le jsonWs r
                rw [show r.dropWhile jsonWs = skipWs r from rfl, hswr] at hlen
                have h2 := congrArg List.length h.2
                simp only [List.length_cons] at hlen
                omega
              · rw [if_neg hd] at h
                have hrem := parseF_remainder_lt f _ _ _ _ h
                have hlen := dropWhile_length_le jsonWs r
                rw [show r.dropWhile jsonWs = skipWs r from rfl, hswr] at hlen
                simp only [List.length_cons] at hlen hrem
                omega
          · have hwsl := dropWhile_length_le jsonWs u'
            rw [show u'.dropWhile jsonWs = skipWs u' from rfl, hswu] at hwsl
            rw [skipWs_append_of_ne u' r d w hswu] at h
            rw [skipWs_append_of_ne u' t d w hswu]
            dsimp only at h ⊢
            by_cases hd : (d == '}') = true
            · rw [if_pos hd] at h ⊢
              rw [Option.some.injEq, Prod.mk.injEq] at h
              obtain ⟨hv, hww⟩ := h
              have hw0 : w = [] := by
                have h2 := congrArg List.length hww
                simp only [List.length_append] at h2
                exact List.eq_nil_of_length_eq_zero (by omega)
              subst hw0
              rw [Option.some.injEq, Prod.mk.injEq]
              exact ⟨hv, by simp⟩
            · rw [if_neg hd] at h ⊢
              obtain ⟨ps, hps⟩ := (parseF_shape f _ _ _ _ h).1 _ rfl
              have hrec := ih (.members []) (d :: w) r t v g
                (by rw [List.cons_append]; exact h)
                (by simp only [List.length_cons] at hwsl hg ⊢; omega)
                (by intro q hq; rw [hps] at hq; exact Json.noConfusion hq)
              rw [List.cons_append] at hrec
              exact hrec
        · rw [if_neg hc1] at h ⊢
          by_cases hc2 : (c == '[') = true
          · rw [if_pos hc2] at h ⊢
            rcases hswu : skipWs u' with _ | ⟨d, w⟩
            · exfalso
              rw [skipWs_append_of_empty u' r hswu] at h
              rcases hswr : skipWs r with _ | ⟨d, r2⟩ <;> rw [hswr] at h <;> dsimp only at h
              · obtain ⟨uu, cl, hu, hne, -, -, -⟩ := parseF_consumed f _ [] v r h
                have h2 := congrArg List.length hu
                simp only [List.length_nil, List.length_append] at h2
                exact hne (List.eq_nil_of_length_eq_zero (by omega))
              · by_cases hd : (d == ']') = true
                · rw [if_pos hd] at h
                  rw [Option.some.injEq, Prod.mk.injEq] at h
                  have hlen := dropWhile_length_le jsonWs r
                  rw [show r.dropWhile jsonWs = skipWs r from rfl, hswr] at hlen
                  have h2 := congrArg List.length h.2
                  simp only [List.length_cons] at hlen
                  omega
                · rw [if_neg hd] at h
                  have hrem := parseF_remainder_lt f _ _ _ _ h
                  have hlen := dropWhile_length_le jsonWs r
                  rw [show r.dropWhile jsonWs = skipWs r from rfl, hswr] at hlen
                  simp only [List.length_cons] at hlen hrem
                  omega
            · have hwsl := dropWhile_length_le jsonWs u'
              rw [show u'.dropWhile jsonWs = skipWs u' from rfl, hswu] at hwsl
              rw [skipWs_append_of_ne u' r d w hswu] at h
              rw [skipWs_append_of_ne u' t d w hswu]
              dsimp only at h ⊢
              by_cases hd : (d == ']') = true
              · rw [if_pos hd] at h ⊢
                rw [Option.some.injEq, Prod.mk.injEq] at h
                obtain ⟨hv, hww⟩ := h
                have hw0 : w = [] := by
                  have h2 := congrArg List.length hww
                  simp only [List.length_append] at h2
                  exact List.eq_nil_of_length_eq_zero (by omega)
                subst hw0
                rw [Option.some.injEq, Prod.mk.injEq]
                exact ⟨hv, by simp⟩
              · rw [if_neg hd] at h ⊢
                obtain ⟨es, hes⟩ := (parseF_shape f _ _ _ _ h).2 _ rfl
                have hrec := ih (.elems []) (d :: w) r t v g
                  (by rw [List.cons_append]; exact h)
                  (by simp only [List.length_cons] at hwsl hg ⊢; omega)
                  (by intro q hq; rw [hes] at hq; exact Json.noConfusion hq)
                rw [List.cons_append] at hrec
                exact hrec
          · rw [if_neg hc2] at h ⊢
            by_cases hc3 : (c == '"') = true
            · rw [if_pos hc3] at h ⊢
              rcases hp : parseStringBody (u' ++ r) [] with _ | ⟨s', r'⟩ <;> rw [hp] at h
                <;> dsimp only at h
              · simp at h
              · rw [Option.some.injEq, Prod.mk.injEq] at h
                obtain ⟨hv, hr'⟩ := h
                rw [hr'] at hp
                have hp' := parseStringBody_ext u' [] s' r t hp
                rw [hp']
                dsimp only
                rw [Option.some.injEq, Prod.mk.injEq]
                exact ⟨hv, rfl⟩
            · rw [if_neg hc3] at h ⊢
              by_cases hc4 : (c == 't') = true
              · rw [if_pos hc4] at h ⊢
                rcases hdl : dropLit ['r', 'u', 'e'] (u' ++ r) with _ | r' <;> rw [hdl] at h
                  <;> dsimp only at h
                · simp at h
                · rw [Option.some.injEq, Prod.mk.injEq] at h
                  obtain ⟨hv, hr'⟩ := h
                  rw [hr'] at hdl
                  have hu' : u' = ['r', 'u', 'e'] :=
                    List.append_cancel_right (dropLit_eq_some _ _ _ hdl)
                  subst hu'
                  rw [dropLit_append ['r', 'u', 'e'] t]
                  dsimp only
                  rw [Option.some.injEq, Prod.mk.injEq]
                  exact ⟨hv, rfl⟩
              · rw [if_neg hc4] at h ⊢
                by_cases hc5 : (c == 'f') = true
                · rw [if_pos hc5] at h ⊢
                  rcases hdl : dropLit ['a', 'l', 's', 'e'] (u' ++ r) with _ | r' <;> rw [hdl] at h
                    <;> dsimp only at h
                  · simp at h
                  · rw [Option.some.injEq, Prod.mk.injEq] at h
                    obtain ⟨hv, hr'⟩ := h
                    rw [hr'] at hdl
                    have hu' : u' = ['a', 'l', 's', 'e'] :=
                      List.append_cancel_right (dropLit_eq_some _ _ _ hdl)
                    subst hu'
                    rw [dropLit_append ['a', 'l', 's', 'e'] t]
                    dsimp only
                    rw [Option.some.injEq, Prod.mk.injEq]
                    exact ⟨hv, rfl⟩
                · rw [if_neg hc5] at h ⊢
                  by_cases hc6 : (c == 'n') = true
                  · rw [if_pos hc6] at h ⊢
                    rcases hdl : dropLit ['u', 'l', 'l'] (u' ++ r) with _ | r' <;> rw [hdl] at h
                      <;> dsimp only at h
                    · simp at h
                    · rw [Option.some.injEq, Prod.mk.injEq] at h
                      obtain ⟨hv, hr'⟩ := h
                      rw [hr'] at hdl
                      have hu' : u' = ['u', 'l', 'l'] :=
                        List.append_cancel_right (dropLit_eq_some _ _ _ hdl)
                      subst hu'
                      rw [dropLit_append ['u', 'l', 'l'] t]
                      dsimp only
                      rw [Option.some.injEq, Prod.mk.injEq]
                      exact ⟨hv, rfl⟩
                  · rw [if_neg hc6] at h ⊢
                    rcases hn : parseNumber (c :: (u' ++ r)) with _ | ⟨q, r'⟩ <;> rw [hn] at h
                      <;> dsimp only at h
                    · simp at h
                    · rw [Option.some.injEq, Prod.mk.injEq] at h
                      obtain ⟨hv, hr'⟩ := h
                      rw [hr'] at hn
                      obtain ⟨hgr, hgt⟩ := hnum q hv.symm
                      rw [← List.cons_append] at hn
                      have hn' := parseNumber_ext (c :: u') r t q hn hgr hgt
                      rw [List.cons_append] at hn'
                      rw [hn']
                      dsimp only
                      rw [Option.some.injEq, Prod.mk.injEq]
                      exact ⟨hv, rfl⟩
    | .members acc =>
      cases u with
      | nil => exact (parseF_no_echo (f + 1) _ r v (by simpa using h)).elim
      | cons c u' =>
        rw [List.cons_append] at h ⊢
        rw [parseF.eq_def] at h ⊢
        dsimp only at h ⊢
        by_cases hc : (c == '"') = true
        · rw [if_pos hc] at h ⊢
          rcases hp : parseStringBody (u' ++ r) [] with _ | ⟨k, r1⟩ <;> rw [hp] at h
            <;> dsimp only at h
          · simp at h
          · rcases hsw1 : skipWs r1 with _ | ⟨c2, r3⟩ <;> rw [hsw1] at h <;> dsimp only at h
            · simp at h
            · by_cases hcol : (c2 == ':') = true
              · rw [if_pos hcol] at h
                rcases hval : parseF f .val (skipWs r3) with _ | ⟨v1, r4⟩ <;> rw [hval] at h
                  <;> dsimp only at h
                · simp at h
                · rcases hsw4 : skipWs r4 with _ | ⟨c3, r6⟩ <;> rw [hsw4] at h <;> dsimp only at h
                  · simp at h
                  · obtain ⟨uk, hdk, -⟩ := parseStringBody_consumed (u' ++ r) [] k r1 hp
                    obtain ⟨uv, clv, hdv, hnev, -, -, -⟩ :=
                      parseF_consumed f .val (skipWs r3) v1 r4 hval
                    obtain ⟨ws1, hd1, hws1⟩ :
                        ∃ wz, r1 = wz ++ (c2 :: r3) ∧ ∀ cc ∈ wz, jsonWs cc = true := by
                      refine ⟨r1.takeWhile jsonWs, ?_, fun cc hcc => List.mem_takeWhile_imp hcc⟩
                      have h2 := List.takeWhile_append_dropWhile jsonWs r1
                      rw [show r1.dropWhile jsonWs = skipWs r1 from rfl, hsw1] at h2
                      exact h2.symm
                    obtain ⟨ws3, hd3, hws3⟩ :
                        ∃ wz, r3 = wz ++ (uv ++ r4) ∧ ∀ cc ∈ wz, jsonWs cc = true := by
                      refine ⟨r3.takeWhile jsonWs, ?_, fun cc hcc => List.mem_takeWhile_imp hcc⟩
                      have h2 := List.takeWhile_append_dropWhile jsonWs r3
                      rw [show r3.dropWhile jsonWs = skipWs r3 from rfl, hdv] at h2
                      exact h2.symm
                    obtain ⟨ws4, hd4, hws4⟩ :
                        ∃ wz, r4 = wz ++ (c3 :: r6) ∧ ∀ cc ∈ wz, jsonWs cc = true := by
                      refine ⟨r4.takeWhile jsonWs, ?_, fun cc hcc => List.mem_takeWhile_imp hcc⟩
                      have h2 := List.takeWhile_append_dropWhile jsonWs r4
                      rw [show r4.dropWhile jsonWs = skipWs r4 from rfl, hsw4] at h2
                      exact h2.symm
                    obtain ⟨a, uv', rfl⟩ : ∃ a uv', uv = a :: uv' := by
                      cases uv with
                      | nil => exact absurd rfl hnev
                      | cons a uv' => exact ⟨a, uv', rfl⟩
                    have hanw : jsonWs a = false :=
                      skipWs_head r3 a (uv' ++ r4) (by rw [hdv]; rfl)
                    have hc2col : c2 = ':' := beq_iff_eq.mp hcol
                    by_cases hcom : (c3 == ',') = true
                    · rw [if_pos hcom] at h
                      have hc3com : c3 = ',' := beq_iff_eq.mp hcom
                      obtain ⟨ps, hps⟩ := (parseF_shape f _ _ _ _ h).1 _ rfl
                      obtain ⟨urec, clrec, hdrec, hnerec, -, -, -⟩ :=
                        parseF_consumed f _ (skipWs r6) v r h
                      obtain ⟨ws6, hd6, hws6⟩ :
                          ∃ wz, r6 = wz ++ (urec ++ r) ∧ ∀ cc ∈ wz, jsonWs cc = true := by
                        refine ⟨r6.takeWhile jsonWs, ?_, fun cc hcc => List.mem_takeWhile_imp hcc⟩
                        have h2 := List.takeWhile_append_dropWhile jsonWs r6
                        rw [show r6.dropWhile jsonWs = skipWs r6 from rfl, hdrec] at h2
                        exact h2.symm
                      obtain ⟨b, urec', rfl⟩ : ∃ b urec', urec = b :: urec' := by
                        cases urec with
                        | nil => exact absurd rfl hnerec
                        | cons b urec' => exact ⟨b, urec', rfl⟩
                      have hbnw : jsonWs b = false :=
                        skipWs_head r6 b (urec' ++ r) (by rw [hdrec]; rfl)
                      have hu' : u' = uk ++ (ws1 ++ (c2 :: (ws3 ++ ((a :: uv') ++
                          (ws4 ++ (c3 :: (ws6 ++ (b :: urec')))))))) := by
                        have h2 : u' ++ r = (uk ++ (ws1 ++ (c2 :: (ws3 ++ ((a :: uv') ++
                            (ws4 ++ (c3 :: (ws6 ++ (b :: urec'))))))))) ++ r := by
                          rw [hdk, hd1, hd3, hd4, hd6]
                          simp [List.append_assoc]
                        exact List.append_cancel_right h2
                      have hlen := congrArg List.length hu'
                      simp only [List.length_append, List.length_cons] at hlen
                      simp only [List.length_cons] at hg
                      have hp2 : parseStringBody (uk ++ r1) [] = some (k, r1) := by
                        rw [← hdk]; exact hp
                      have hp3 : parseStringBody (u' ++ t) [] = some (k, ws1 ++ (c2 :: (ws3 ++
                          ((a :: uv') ++ (ws4 ++ (c3 :: (ws6 ++ ((b :: urec') ++ t)))))))) := by
                        have he : u' ++ t = uk ++ (ws1 ++ (c2 :: (ws3 ++ ((a :: uv') ++
                            (ws4 ++ (c3 :: (ws6 ++ ((b :: urec') ++ t)))))))) := by
                          rw [hu']
                          simp [List.append_assoc]
                        rw [he]
                        exact parseStringBody_ext uk [] k r1 _ hp2
                      rw [hp3]
                      dsimp only
                      rw [skipWs_all_append ws1 _ hws1]
                      rw [skipWs_cons_of_not_ws c2 _ (by rw [hc2col]; rfl)]
                      dsimp only
                      rw [if_pos hcol]
                      have hval2 : parseF f .val ((a :: uv') ++ r4) = some (v1, r4) := by
                        rw [← hdv]; exact hval
                      have hval3 := ih .val (a :: uv') r4
                        (ws4 ++ (c3 :: (ws6 ++ ((b :: urec') ++ t)))) v1 g hval2
                        (by simp only [List.length_cons]; omega)
                        (by
                          intro q hq
                          constructor
                          · rw [hd4]
                            exact goodB_ws_cons ws4 c3 r6 hws4 (Or.inr (Or.inl hc3com))
                          · exact goodB_ws_cons ws4 c3 _ hws4 (Or.inr (Or.inl hc3com)))
                      rw [skipWs_all_append ws3 _ hws3]
                      rw [show (a :: uv') ++ (ws4 ++ (c3 :: (ws6 ++ ((b :: urec') ++ t)))) =
                        a :: (uv' ++ (ws4 ++ (c3 :: (ws6 ++ ((b :: urec') ++ t))))) from rfl]
                      rw [skipWs_cons_of_not_ws a _ hanw]
                      rw [show a :: (uv' ++ (ws4 ++ (c3 :: (ws6 ++ ((b :: urec') ++ t))))) =
                        (a :: uv') ++ (ws4 ++ (c3 :: (ws6 ++ ((b :: urec') ++ t)))) from rfl]
                      rw [hval3]
                      dsimp only
                      rw [skipWs_all_append ws4 _ hws4]
                      rw [skipWs_cons_of_not_ws c3 _ (by rw [hc3com]; rfl)]
                      dsimp only
                      rw [if_pos hcom]
                      have hrec2 : parseF f (.members (acc ++ [(k, v1)])) ((b :: urec') ++ r) =
                          some (v, r) := by
                        rw [← hdrec]; exact h
                      have hrec3 := ih (.members (acc ++ [(k, v1)])) (b :: urec') r t v g hrec2
                        (by simp only [List.length_cons]; omega)
                        (by intro q hq; rw [hps] at hq; exact Json.noConfusion hq)
                      rw [skipWs_all_append ws6 _ hws6]
                      rw [show (b :: urec') ++ t = b :: (urec' ++ t) from rfl]
                      rw [skipWs_cons_of_not_ws b _ hbnw]
                      rw [show b :: (urec' ++ t) = (b :: urec') ++ t from rfl]
                      exact hrec3
                    · rw [if_neg hcom] at h
                      by_cases hcb : (c3 == '}') = true
                      · rw [if_pos hcb] at h
                        have hc3b : c3 = '}' := beq_iff_eq.mp hcb
                        rw [Option.some.injEq, Prod.mk.injEq] at h
                        obtain ⟨hv, hr6⟩ := h
                        rw [hr6] at hd4
                        have hu' : u' = uk ++ (ws1 ++ (c2 :: (ws3 ++ ((a :: uv') ++
                            (ws4 ++ [c3]))))) := by
                          have h2 : u' ++ r = (uk ++ (ws1 ++ (c2 :: (ws3 ++ ((a :: uv') ++
                              (ws4 ++ [c3])))))) ++ r := by
                            rw [hdk, hd1, hd3, hd4]
                            simp [List.append_assoc]
                          exact List.append_cancel_right h2
                        have hlen := congrArg List.length hu'
                        simp only [List.length_append, List.length_cons] at hlen
                        simp only [List.length_cons] at hg
                        have hp2 : parseStringBody (uk ++ r1) [] = some (k, r1) := by
                          rw [← hdk]; exact hp
                        have hp3 : parseStringBody (u' ++ t) [] = some (k, ws1 ++ (c2 :: (ws3 ++
                            ((a :: uv') ++ (ws4 ++ (c3 :: t)))))) := by
                          have he : u' ++ t = uk ++ (ws1 ++ (c2 :: (ws3 ++ ((a :: uv') ++
                              (ws4 ++ (c3 :: t)))))) := by
                            rw [hu']
                            simp [List.append_assoc]
                          rw [he]
                          exact parseStringBody_ext uk [] k r1 _ hp2
                        rw [hp3]
                        dsimp only
                        rw [skipWs_all_append ws1 _ hws1]
                        rw [skipWs_cons_of_not_ws c2 _ (by rw [hc2col]; rfl)]
                        dsimp only
                        rw [if_pos hcol]
                        have hval2 : parseF f .val ((a :: uv') ++ r4) = some (v1, r4) := by
                          rw [← hdv]; exact hval
                        have hval3 := ih .val (a :: uv') r4 (ws4 ++ (c3 :: t)) v1 g hval2
                          (by simp only [List.length_cons]; omega)
                          (by
                            intro q hq
                            constructor
                            · rw [hd4]
                              exact goodB_ws_cons ws4 c3 r hws4 (Or.inr (Or.inr (Or.inl hc3b)))
                            · exact goodB_ws_cons ws4 c3 t hws4 (Or.inr (Or.inr (Or.inl hc3b))))
                        rw [skipWs_all_append ws3 _ hws3]
                        rw [show (a :: uv') ++ (ws4 ++ (c3 :: t)) =
                          a :: (uv' ++ (ws4 ++ (c3 :: t))) from rfl]
                        rw [skipWs_cons_of_not_ws a _ hanw]
                        rw [show a :: (uv' ++ (ws4 ++ (c3 :: t))) =
                          (a :: uv') ++ (ws4 ++ (c3 :: t)) from rfl]
                        rw [hval3]
                        dsimp only
                        rw [skipWs_all_append ws4 _ hws4]
                        rw [skipWs_cons_of_not_ws c3 _ (by rw [hc3b]; rfl)]
                        dsimp only
                        rw [if_neg hcom, if_pos hcb]
                        rw [Option.some.injEq, Prod.mk.injEq]
                        exact ⟨hv, rfl⟩
                      · rw [if_neg hcb] at h
                        simp at h
              · rw [if_neg hcol] at h
                simp at h
        · rw [if_neg hc] at h
          simp at h
    | .elems acc =>
      rw [parseF.eq_def] at h ⊢
      dsimp only at h ⊢
      rcases hval : parseF f .val (u ++ r) with _ | ⟨v1, r1⟩ <;> rw [hval] at h <;> dsimp only at h
      · simp at h
      · rcases hsw1 : skipWs r1 with _ | ⟨c2, r3⟩ <;> rw [hsw1] at h <;> dsimp only at h
        · simp at h
        · obtain ⟨uv, clv, hdv, hnev, -, -, -⟩ := parseF_consumed f .val (u ++ r) v1 r1 hval
          obtain ⟨ws1, hd1, hws1⟩ :
              ∃ wz, r1 = wz ++ (c2 :: r3) ∧ ∀ cc ∈ wz, jsonWs cc = true := by
            refine ⟨r1.takeWhile jsonWs, ?_, fun cc hcc => List.mem_takeWhile_imp hcc⟩
            have h2 := List.takeWhile_append_dropWhile jsonWs r1
            rw [show r1.dropWhile jsonWs = skipWs r1 from rfl, hsw1] at h2
            exact h2.symm
          by_cases hcom : (c2 == ',') = true
          · rw [if_pos hcom] at h
            have hc2com : c2 = ',' := beq_iff_eq.mp hcom
            obtain ⟨es, hes⟩ := (parseF_shape f _ _ _ _ h).2 _ rfl
            obtain ⟨urec, clrec, hdrec, hnerec, -, -, -⟩ := parseF_consumed f _ (skipWs r3) v r h
            obtain ⟨ws3, hd3, hws3⟩ :
                ∃ wz, r3 = wz ++ (urec ++ r) ∧ ∀ cc ∈ wz, jsonWs cc = true := by
              refine ⟨r3.takeWhile jsonWs, ?_, fun cc hcc => List.mem_takeWhile_imp hcc⟩
              have h2 := List.takeWhile_append_dropWhile jsonWs r3
              rw [show r3.dropWhile jsonWs = skipWs r3 from rfl, hdrec] at h2
              exact h2.symm
            obtain ⟨b, urec', rfl⟩ : ∃ b urec', urec = b :: urec' := by
              cases urec with
              | nil => exact absurd rfl hnerec
              | cons b urec' => exact ⟨b, urec', rfl⟩
            have hbnw : jsonWs b = false :=
              skipWs_head r3 b (urec' ++ r) (by rw [hdrec]; rfl)
            have hu : u = uv ++ (ws1 ++ (c2 :: (ws3 ++ (b :: urec')))) := by
              have h2 : u ++ r = (uv ++ (ws1 ++ (c2 :: (ws3 ++ (b :: urec'))))) ++ r := by
                rw [hdv, hd1, hd3]
                simp [List.append_assoc]
              exact List.append_cancel_right h2
            have hlen := congrArg List.length hu
            simp only [List.length_append, List.length_cons] at hlen
            have hval2 : parseF f .val (uv ++ r1) = some (v1, r1) := by
              rw [← hdv]; exact hval
            have hval3 := ih .val uv r1 (ws1 ++ (c2 :: (ws3 ++ ((b :: urec') ++ t)))) v1 g hval2
              (by omega)
              (by
                intro q hq
                constructor
                · rw [hd1]
                  exact goodB_ws_cons ws1 c2 r3 hws1 (Or.inr (Or.inl hc2com))
                · exact goodB_ws_cons ws1 c2 _ hws1 (Or.inr (Or.inl hc2com)))
            have he : u ++ t = uv ++ (ws1 ++ (c2 :: (ws3 ++ ((b :: urec') ++ t)))) := by
              rw [hu]
              simp [List.append_assoc]
            rw [he, hval3]
            dsimp only
            rw [skipWs_all_append ws1 _ hws1]
            rw [skipWs_cons_of_not_ws c2 _ (by rw [hc2com]; rfl)]
            dsimp only
            rw [if_pos hcom]
            have hrec2 : parseF f (.elems (acc ++ [v1])) ((b :: urec') ++ r) = some (v, r) := by
              rw [← hdrec]; exact h
            have hrec3 := ih (.elems (acc ++ [v1])) (b :: urec') r t v g hrec2
              (by simp only [List.length_cons]; omega)
              (by intro q hq; rw [hes] at hq; exact Json.noConfusion hq)
            rw [skipWs_all_append ws3 _ hws3]
            rw [show (b :: urec') ++ t = b :: (urec' ++ t) from rfl]
            rw [skipWs_cons_of_not_ws b _ hbnw]
            rw [show b :: (urec' ++ t) = (b :: urec') ++ t from rfl]
            exact hrec3
          · rw [if_neg hcom] at h
            by_cases hcb : (c2 == ']') = true
            · rw [if_pos hcb] at h
              have hc2b : c2 = ']' := beq_iff_eq.mp hcb
              rw [Option.some.injEq, Prod.mk.injEq] at h
              obtain ⟨hv, hr3⟩ := h
              rw [hr3] at hd1
              have hu : u = uv ++ (ws1 ++ [c2]) := by
                have h2 : u ++ r = (uv ++ (ws1 ++ [c2])) ++ r := by
                  rw [hdv, hd1]
                  simp [List.append_assoc]
                exact List.append_cancel_right h2
              have hlen := congrArg List.length hu
              simp only [List.length_append, List.length_cons, List.length_nil] at hlen
              have hval2 : parseF f .val (uv ++ r1) = some (v1, r1) := by
                rw [← hdv]; exact hval
              have hval3 := ih .val uv r1 (ws1 ++ (c2 :: t)) v1 g hval2
                (by omega)
                (by
                  intro q hq
                  constructor
                  · rw [hd1]
                    exact goodB_ws_cons ws1 c2 r hws1 (Or.inr (Or.inr (Or.inr hc2b)))
                  · exact goodB_ws_cons ws1 c2 t hws1 (Or.inr (Or.inr (Or.inr hc2b))))
              have he : u ++ t = uv ++ (ws1 ++ (c2 :: t)) := by
                rw [hu]
                simp [List.append_assoc]
              rw [he, hval3]
              dsimp only
              rw [skipWs_all_append ws1 _ hws1]
              rw [skipWs_cons_of_not_ws c2 _ (by rw [hc2b]; rfl)]
              dsimp only
              rw [if_neg hcom, if_pos hcb]
              rw [Option.some.injEq, Prod.mk.injEq]
              exact ⟨hv, rfl⟩
            · rw [if_neg hcb] at h
              simp at h

/-! ## Scanner lemmas: the brace-depth scan across parsed JSON text -/

theorem scan_step_out (c : Char) (d : Int) (Y : List Char)
    (hn : (c == '"' || c == '{' || c == '}') = false) :
    scanAux d false false (c :: Y) = (scanAux d false false Y).map (· + 1) := by
  simp only [Bool.or_eq_false_iff] at hn
  rw [scanAux.eq_def]
  simp [hn.1.1, hn.1.2, hn.2]

theorem scan_step_in (c : Char) (d : Int) (Y : List Char)
    (hb : (c == '\\') = false) (hq : (c == '"') = false) :
    scanAux d true false (c :: Y) = (scanAux d true false Y).map (· + 1) := by
  rw [scanAux.eq_def]
  simp [hb, hq]

theorem scan_esc_pair (e : Char) (d : Int) (Y : List Char) :
    scanAux d true false ('\\' :: e :: Y) = (scanAux d true false Y).map (· + 2) := by
  have h1 : scanAux d true true (e :: Y) = (scanAux d true false Y).map (· + 1) := by
    rw [scanAux.eq_def]
    simp
  rw [scanAux.eq_def]
  simp only [h1]
  cases scanAux d true false Y with
  | none => simp
  | some n => simp

theorem scan_close_quote (d : Int) (Y : List Char) :
    scanAux d true false ('"' :: Y) = (scanAux d false false Y).map (· + 1) := by
  rw [scanAux.eq_def]
  simp

theorem scan_open_quote (d : Int) (Y : List Char) :
    scanAux d false false ('"' :: Y) = (scanAux d true false Y).map (· + 1) := by
  rw [scanAux.eq_def]
  simp

theorem scan_open_brace (d : Int) (Y : List Char) :
    scanAux d false false ('{' :: Y) = (scanAux (d + 1) false false Y).map (· + 1) := by
  rw [scanAux.eq_def]
  simp

theorem scan_close_brace_hit (d : Int) (Y : List Char) (hd : d - 1 = 0) :
    scanAux d false false ('}' :: Y) = some 1 := by
  rw [scanAux.eq_def]
  simp [hd]

theorem scan_close_brace (d : Int) (Y : List Char) (hd : ¬(d - 1 = 0)) :
    scanAux d false false ('}' :: Y) = (scanAux (d - 1) false false Y).map (· + 1) := by
  rw [scanAux.eq_def]
  simp [hd]

theorem scan_run_out (u : List Char) (d : Int) (Y : List Char)
    (hu : ∀ c ∈ u, (c == '"' || c == '{' || c == '}') = false) :
    scanAux d false false (u ++ Y) = (scanAux d false false Y).map (· + u.length) := by
  induction u with
  | nil =>
    simp only [List.nil_append, List.length_nil]
    cases scanAux d false false Y with
    | none => rfl
    | some n => simp
  | cons c u' ih =>
    rw [List.cons_append, scan_step_out c d (u' ++ Y) (hu c (by simp)),
      ih (fun cc hcc => hu cc (by simp [hcc]))]
    cases scanAux d false false Y with
    | none => rfl
    | some n => simp [List.length_cons, Nat.add_assoc]

theorem hexVal_not_special (c : Char) (x : Nat) (h : hexVal c = some x) :
    (c == '\\') = false ∧ (c == '"') = false := by
  constructor
  · by_cases hc : (c == '\\') = true
    · rw [beq_iff_eq] at hc
      subst hc
      simp [hexVal] at h
    · simpa using hc
  · by_cases hc : (c == '"') = true
    · rw [beq_iff_eq] at hc
      subst hc
      simp [hexVal] at h
    · simpa using hc

theorem scan_string_aux :
    ∀ (n : Nat) (u acc : List Char) (s : String) (r : List Char), u.length ≤ n →
      parseStringBody (u ++ r) acc = some (s, r) →
      ∀ (d : Int) (Y : List Char),
        scanAux d true false (u ++ Y) = (scanAux d false false Y).map (· + u.length) := by
  intro n
  induction n with
  | zero =>
    intro u acc s r hn h
    have hu : u = [] := List.eq_nil_of_length_eq_zero (by omega)
    subst hu
    exact absurd (parseStringBody_remainder_lt r acc s r (by simpa using h)) (by omega)
  | succ n ih =>
    intro u acc s r hn h
    cases u with
    | nil =>
      exact absurd (parseStringBody_remainder_lt r acc s r (by simpa using h)) (by omega)
    | cons c u' =>
      rw [List.cons_append] at h
      rw [parseStringBody.eq_def] at h
      dsimp only at h
      by_cases hq : (c == '"') = true
      · rw [if_pos hq] at h
        rw [Option.some.injEq, Prod.mk.injEq] at h
        obtain ⟨hs, hr⟩ := h
        have hu' : u' = [] := by simpa using congrArg List.length hr
        subst hu'
        rw [beq_iff_eq] at hq
        subst hq
        intro d Y
        simpa using scan_close_quote d Y
      · rw [if_neg hq] at h
        by_cases hb : (c == '\\') = true
        · rw [if_pos hb] at h
          cases u' with
          | nil =>
            exfalso
            simp only [List.nil_append] at h
            cases r with
            | nil => simp at h
            | cons e r2 =>
              dsimp only at h
              by_cases he : (e == 'u') = true
              · rw [if_pos he] at h
                match r2, h with
                | b1 :: b2 :: b3 :: b4 :: r4, h =>
                  dsimp only at h
                  rcases hx1 : hexVal b1 with _ | a
                  · rw [hx1] at h; simp at h
                  · rw [hx1] at h
                    rcases hx2 : hexVal b2 with _ | b
                    · rw [hx2] at h; simp at h
                    · rw [hx2] at h
                      rcases hx3 : hexVal b3 with _ | cc
                      · rw [hx3] at h; simp at h
                      · rw [hx3] at h
                        rcases hx4 : hexVal b4 with _ | dd
                        · rw [hx4] at h; simp at h
                        · rw [hx4] at h
                          exact psb_no_echo _ _ _ _ h
                            (by simp only [List.length_cons, List.length_append]; omega)
              · rw [if_neg he] at h
                rcases hesc : escChar e with _ | ec
                · rw [hesc] at h; simp at h
                · rw [hesc] at h
                  exact psb_no_echo _ _ _ _ h
                    (by simp only [List.length_cons, List.length_append]; omega)
          | cons e u'' =>
            rw [List.cons_append] at h
            dsimp only at h
            rw [beq_iff_eq] at hb
            subst hb
            by_cases he : (e == 'u') = true
            · rw [if_pos he] at h
              rw [beq_iff_eq] at he
              subst he
              rcases u'' with _ | ⟨a1, _ | ⟨a2, _ | ⟨a3, _ | ⟨a4, u3⟩⟩⟩⟩
              · exfalso
                simp only [List.nil_append] at h
                match r, h with
                | b1 :: b2 :: b3 :: b4 :: r4, h =>
                  dsimp only at h
                  rcases hx1 : hexVal b1 with _ | a
                  · rw [hx1] at h; simp at h
                  · rw [hx1] at h
                    rcases hx2 : hexVal b2 with _ | b
                    · rw [hx2] at h; simp at h
                    · rw [hx2] at h
                      rcases hx3 : hexVal b3 with _ | cc
                      · rw [hx3] at h; simp at h
                      · rw [hx3] at h
                        rcases hx4 : hexVal b4 with _ | dd
                        · rw [hx4] at h; simp at h
                        · rw [hx4] at h
                          exact psb_no_echo _ _ _ _ h
                            (by simp only [List.length_cons, List.length_append]; omega)
              · exfalso
                simp only [List.cons_append, List.nil_append] at h
                match r, h with
                | b2 :: b3 :: b4 :: r4, h =>
                  dsimp only at h
                  rcases hx1 : hexVal a1 with _ | a
                  · rw [hx1] at h; simp at h
                  · rw [hx1] at h
                    rcases hx2 : hexVal b2 with _ | b
                    · rw [hx2] at h; simp at h
                    · rw [hx2] at h
                      rcases hx3 : hexVal b3 with _ | cc
                      · rw [hx3] at h; simp at h
                      · rw [hx3] at h
                        rcases hx4 : hexVal b4 with _ | dd
                        · rw [hx4] at h; simp at h
                        · rw [hx4] at h
                          exact psb_no_echo _ _ _ _ h
                            (by simp only [List.length_cons, List.length_append]; omega)
              · exfalso
                simp only [List.cons_append, List.nil_append] at h
                match r, h with
                | b3 :: b4 :: r4, h =>
                  dsimp only at h
                  rcases hx1 : hexVal a1 with _ | a
                  · rw [hx1] at h; simp at h
                  · rw [hx1] at h
                    rcases hx2 : hexVal a2 with _ | b
                    · rw [hx2] at h; simp at h
                    · rw [hx2] at h
                      rcases hx3 : hexVal b3 with _ | cc
                      · rw [hx3] at h; simp at h
                      · rw [hx3] at h
                        rcases hx4 : hexVal b4 with _ | dd
                        · rw [hx4] at h; simp at h
                        · rw [hx4] at h
                          exact psb_no_echo _ _ _ _ h
                            (by simp only [List.length_cons, List.length_append]; omega)
              · exfalso
                simp only [List.cons_append, List.nil_append] at h
                match r, h with
                | b4 :: r4, h =>
                  dsimp only at h
                  rcases hx1 : hexVal a1 with _ | a
                  · rw [hx1] at h; simp at h
                  · rw [hx1] at h
                    rcases hx2 : hexVal a2 with _ | b
                    · rw [hx2] at h; simp at h
                    · rw [hx2] at h
                      rcases hx3 : hexVal a3 with _ | cc
                      · rw [hx3] at h; simp at h
                      · rw [hx3] at h
                        rcases hx4 : hexVal b4 with _ | dd
                        · rw [hx4] at h; simp at h
                        · rw [hx4] at h
                          exact psb_no_echo _ _ _ _ h
                            (by simp only [List.length_cons, List.length_append]; omega)
              · simp only [List.cons_append, List.nil_append] at h
                rcases hx1 : hexVal a1 with _ | a
                · rw [hx1] at h; simp at h
                · rw [hx1] at h
                  rcases hx2 : hexVal a2 with _ | b
                  · rw [hx2] at h; simp at h
                  · rw [hx2] at h
                    rcases hx3 : hexVal a3 with _ | cc
                    · rw [hx3] at h; simp at h
                    · rw [hx3] at h
                      rcases hx4 : hexVal a4 with _ | dd
                      · rw [hx4] at h; simp at h
                      · rw [hx4] at h
                        intro d Y
                        have hrec := ih u3 _ s r (by simp at hn ⊢; omega) h d Y
                        rw [show ('\\' :: 'u' :: a1 :: a2 :: a3 :: a4 :: u3) ++ Y =
                          '\\' :: 'u' :: (a1 :: a2 :: a3 :: a4 :: (u3 ++ Y)) from rfl]
                        rw [scan_esc_pair 'u' d _]
                        rw [scan_step_in a1 d _ (hexVal_not_special a1 _ hx1).1
                          (hexVal_not_special a1 _ hx1).2]
                        rw [scan_step_in a2 d _ (hexVal_not_special a2 _ hx2).1
                          (hexVal_not_special a2 _ hx2).2]
                        rw [scan_step_in a3 d _ (hexVal_not_special a3 _ hx3).1
                          (hexVal_not_special a3 _ hx3).2]
                        rw [scan_step_in a4 d _ (hexVal_not_special a4 _ hx4).1
                          (hexVal_not_special a4 _ hx4).2]
                        rw [hrec]
                        cases scanAux d false false Y with
                        | none => rfl
                        | some m =>
                          simp
                          omega
            · rw [if_neg he] at h
              rcases hesc : escChar e with _ | ec
              · rw [hesc] at h; simp at h
              · rw [hesc] at h
                intro d Y
                have hrec := ih u'' _ s r (by simp at hn ⊢; omega) h d Y
                rw [show ('\\' :: e :: u'') ++ Y = '\\' :: e :: (u'' ++ Y) from rfl]
                rw [scan_esc_pair e d _]
                rw [hrec]
                cases scanAux d false false Y with
                | none => rfl
                | some m =>
                  simp
                  omega
        · rw [if_neg hb] at h
          by_cases hctl : c.toNat < 32
          · rw [if_pos hctl] at h; simp at h
          · rw [if_neg hctl] at h
            intro d Y
            have hrec := ih u' _ s r (by simp at hn ⊢; omega) h d Y
            rw [List.cons_append]
            rw [scan_step_in c d _ (by simpa using hb) (by simpa using hq)]
            rw [hrec]
            cases scanAux d false false Y with
            | none => rfl
            | some m =>
              simp
              omega

theorem scan_string (u acc : List Char) (s : String) (r : List Char)
    (h : parseStringBody (u ++ r) acc = some (s, r)) (d : Int) (Y : List Char) :
    scanAux d true false (u ++ Y) = (scanAux d false false Y).map (· + u.length) :=
  scan_string_aux u.length u acc s r (le_refl _) h d Y

theorem jsonWs_neutral (c : Char) (h : jsonWs c = true) :
    (c == '"' || c == '{' || c == '}') = false := by
  simp only [jsonWs, Bool.or_eq_true, beq_iff_eq] at h
  rcases h with ((rfl | rfl) | rfl) | rfl <;> rfl

theorem numChar_neutral (c : Char) (h : numChar c = true) :
    (c == '"' || c == '{' || c == '}') = false := by
  by_cases h1 : (c == '"') = true
  · rw [beq_iff_eq] at h1; subst h1; exact absurd h (by decide)
  · by_cases h2 : (c == '{') = true
    · rw [beq_iff_eq] at h2; subst h2; exact absurd h (by decide)
    · by_cases h3 : (c == '}') = true
      · rw [beq_iff_eq] at h3; subst h3; exact absurd h (by decide)
      · simp only [Bool.or_eq_false_iff]
        exact ⟨⟨by simpa using h1, by simpa using h2⟩, by simpa using h3⟩

theorem parseF_scan :
    ∀ (f : Nat) (mode : PMode) (u r : List Char) (v : Json),
      parseF f mode (u ++ r) = some (v, r) →
      ∀ (dp : Int) (Y : List Char), 1 ≤ dp →
        (match mode with
         | PMode.val =>
             scanAux dp false false (u ++ Y) = (scanAux dp false false Y).map (· + u.length)
         | PMode.members _ =>
             scanAux dp false false (u ++ Y) =
               if dp = 1 then some u.length
               else (scanAux (dp - 1) false false Y).map (· + u.length)
         | PMode.elems _ =>
             scanAux dp false false (u ++ Y) =
               (scanAux dp false false Y).map (· + u.length)) := by
  intro f
  induction f with
  | zero =>
    intro mode u r v h dp Y hdp
    simp [parseF] at h
  | succ f ih =>
    intro mode u r v h dp Y hdp
    match mode with
    | .val =>
      show scanAux dp false false (u ++ Y) = (scanAux dp false false Y).map (· + u.length)
      cases u with
      | nil => exact (parseF_no_echo (f + 1) .val r v (by simpa using h)).elim
      | cons c u' =>
        rw [List.cons_append] at h
        rw [parseF.eq_def] at h
        dsimp only at h
        by_cases hc1 : (c == '{') = true
        · rw [if_pos hc1] at h
          rw [beq_iff_eq] at hc1
          subst hc1
          rcases hswu : skipWs u' with _ | ⟨d0, w⟩
          · exfalso
            rw [skipWs_append_of_empty u' r hswu] at h
            rcases hswr : skipWs r with _ | ⟨d0, r2⟩ <;> rw [hswr] at h <;> dsimp only at h
            · obtain ⟨uu, cl, hu, hne, -, -, -⟩ := parseF_consumed f _ [] v r h
              have h2 := congrArg List.length hu
              simp only [List.length_nil, List.length_append] at h2
              exact hne (List.eq_nil_of_length_eq_zero (by omega))
            · by_cases hd : (d0 == '}') = true
              · rw [if_pos hd] at h
                rw [Option.some.injEq, Prod.mk.injEq] at h
                have hlen := dropWhile_length_le jsonWs r
                rw [show r.dropWhile jsonWs = skipWs r from rfl, hswr] at hlen
                have h2 := congrArg List.length h.2
                simp only [List.length_cons] at hlen
                omega
              · rw [if_neg hd] at h
                have hrem := parseF_remainder_lt f _ _ _ _ h
                have hlen := dropWhile_length_le jsonWs r
                rw [show r.dropWhile jsonWs = skipWs r from rfl, hswr] at hlen
                simp only [List.length_cons] at hlen hrem
                omega
          · obtain ⟨ws1, hd1, hws1⟩ :
                ∃ wz, u' = wz ++ (d0 :: w) ∧ ∀ cc ∈ wz, jsonWs cc = true := by
              refine ⟨u'.takeWhile jsonWs, ?_, fun cc hcc => List.mem_takeWhile_imp hcc⟩
              have h2 := List.takeWhile_append_dropWhile jsonWs u'
              rw [show u'.dropWhile jsonWs = skipWs u' from rfl, hswu] at h2
              exact h2.symm
            rw [skipWs_append_of_ne u' r d0 w hswu] at h
            dsimp only at h
            have hlen1 := congrArg List.length hd1
            simp only [List.length_append, List.length_cons] at hlen1
            by_cases hd : (d0 == '}') = true
            · rw [if_pos hd] at h
              rw [beq_iff_eq] at hd
              subst hd
              rw [Option.some.injEq, Prod.mk.injEq] at h
              obtain ⟨hv, hww⟩ := h
              have hw0 : w = [] := by
                have h2 := congrArg List.length hww
                simp only [List.length_append] at h2
                exact List.eq_nil_of_length_eq_zero (by omega)
              subst hw0
              have e1 : ('{' :: u') ++ Y = '{' :: (ws1 ++ ('}' :: Y)) := by
                rw [hd1]; simp
              rw [e1, scan_open_brace dp _]
              rw [scan_run_out ws1 (dp + 1) _ (fun cc hcc => jsonWs_neutral cc (hws1 cc hcc))]
              rw [scan_close_brace (dp + 1) Y (by omega)]
              rw [show ((dp + 1 : Int)) - 1 = dp from by omega]
              cases scanAux dp false false Y with
              | none => rfl
              | some m =>
                simp only [Option.map_some', Option.some.injEq, List.length_cons]
                simp only [List.length_nil] at hlen1
                omega
            · rw [if_neg hd] at h
              have hm : parseF f (.members []) ((d0 :: w) ++ r) = some (v, r) := by
                rw [List.cons_append]; exact h
              have hrec : scanAux (dp + 1) false false ((d0 :: w) ++ Y) =
                  if (dp + 1 : Int) = 1 then some (d0 :: w).length
                  else (scanAux ((dp + 1) - 1) false false Y).map (· + (d0 :: w).length) :=
                ih (.members []) (d0 :: w) r v hm (dp + 1) Y (by omega)
              rw [if_neg (by omega : ¬(dp + 1 : Int) = 1)] at hrec
              rw [show ((dp + 1 : Int)) - 1 = dp from by omega] at hrec
              have e1 : ('{' :: u') ++ Y = '{' :: (ws1 ++ ((d0 :: w) ++ Y)) := by
                rw [hd1]; simp
              rw [e1, scan_open_brace dp _]
              rw [scan_run_out ws1 (dp + 1) _ (fun cc hcc => jsonWs_neutral cc (hws1 cc hcc))]
              rw [hrec]
              cases scanAux dp false false Y with
              | none => rfl
              | some m =>
                simp only [Option.map_some', Option.some.injEq, List.length_cons]
                omega
        · rw [if_neg hc1] at h
          by_cases hc2 : (c == '[') = true
          · rw [if_pos hc2] at h
            rw [beq_iff_eq] at hc2
            subst hc2
            rcases hswu : skipWs u' with _ | ⟨d0, w⟩
            · exfalso
              rw [skipWs_append_of_empty u' r hswu] at h
              rcases hswr : skipWs r with _ | ⟨d0, r2⟩ <;> rw [hswr] at h <;> dsimp only at h
              · obtain ⟨uu, cl, hu, hne, -, -, -⟩ := parseF_consumed f _ [] v r h
                have h2 := congrArg List.length hu
                simp only [List.length_nil, List.length_append] at h2
                exact hne (List.eq_nil_of_length_eq_zero (by omega))
              · by_cases hd : (d0 == ']') = true
                · rw [if_pos hd] at h
                  rw [Option.some.injEq, Prod.mk.injEq] at h
                  have hlen := dropWhile_length_le jsonWs r
                  rw [show r.dropWhile jsonWs = skipWs r from rfl, hswr] at hlen
                  have h2 := congrArg List.length h.2
                  simp only [List.length_cons] at hlen
                  omega
                · rw [if_neg hd] at h
                  have hrem := parseF_remainder_lt f _ _ _ _ h
                  have hlen := dropWhile_length_le jsonWs r
                  rw [show r.dropWhile jsonWs = skipWs r from rfl, hswr] at hlen
                  simp only [List.length_cons] at hlen hrem
                  omega
            · obtain ⟨ws1, hd1, hws1⟩ :
                  ∃ wz, u' = wz ++ (d0 :: w) ∧ ∀ cc ∈ wz, jsonWs cc = true := by
                refine ⟨u'.takeWhile jsonWs, ?_, fun cc hcc => List.mem_takeWhile_imp hcc⟩
                have h2 := List.takeWhile_append_dropWhile jsonWs u'
                rw [show u'.dropWhile jsonWs = skipWs u' from rfl, hswu] at h2
                exact h2.symm
              rw [skipWs_append_of_ne u' r d0 w hswu] at h
              dsimp only at h
              have hlen1 := congrArg List.length hd1
              simp only [List.length_append, List.length_cons] at hlen1
              by_cases hd : (d0 == ']') = true
              · rw [if_pos hd] at h
                rw [beq_iff_eq] at hd
                subst hd
                rw [Option.some.injEq, Prod.mk.injEq] at h
                obtain ⟨hv, hww⟩ := h
                have hw0 : w = [] := by
                  have h2 := congrArg List.length hww
                  simp only [List.length_append] at h2
                  exact List.eq_nil_of_length_eq_zero (by omega)
                subst hw0
                have e1 : ('[' :: u') ++ Y = '[' :: (ws1 ++ (']' :: Y)) := by
                  rw [hd1]; simp
                rw [e1, scan_step_out '[' dp _ (by decide)]
                rw [scan_run_out ws1 dp _ (fun cc hcc => jsonWs_neutral cc (hws1 cc hcc))]
                rw [scan_step_out ']' dp _ (by decide)]
                cases scanAux dp false false Y with
                | none => rfl
                | some m =>
                  simp only [Option.map_some', Option.some.injEq, List.length_cons]
                  simp only [List.length_nil] at hlen1
                  omega
              · rw [if_neg hd] at h
                have hm : parseF f (.elems []) ((d0 :: w) ++ r) = some (v, r) := by
                  rw [List.cons_append]; exact h
                have hrec : scanAux dp false false ((d0 :: w) ++ Y) =
                    (scanAux dp false false Y).map (· + (d0 :: w).length) :=
                  ih (.elems []) (d0 :: w) r v hm dp Y hdp
                have e1 : ('[' :: u') ++ Y = '[' :: (ws1 ++ ((d0 :: w) ++ Y)) := by
                  rw [hd1]; simp
                rw [e1, scan_step_out '[' dp _ (by decide)]
                rw [scan_run_out ws1 dp _ (fun cc hcc => jsonWs_neutral cc (hws1 cc hcc))]
                rw [hrec]
                cases scanAux dp false false Y with
                | none => rfl
                | some m =>
                  simp only [Option.map_some', Option.some.injEq, List.length_cons]
                  omega
          · rw [if_neg hc2] at h
            by_cases hc3 : (c == '"') = true
            · rw [if_pos hc3] at h
              rw [beq_iff_eq] at hc3
              subst hc3
              rcases hp : parseStringBody (u' ++ r) [] with _ | ⟨s', r'⟩ <;> rw [hp] at h
                <;> dsimp only at h
              · simp at h
              · rw [Option.some.injEq, Prod.mk.injEq] at h
                obtain ⟨hv, hr'⟩ := h
                rw [hr'] at hp
                rw [List.cons_append, scan_open_quote dp _, scan_string u' [] s' r hp dp Y]
                cases scanAux dp false false Y with
                | none => rfl
                | some m =>
                  simp only [Option.map_some', Option.some.injEq, List.length_cons]
                  omega
            · rw [if_neg hc3] at h
              by_cases hc4 : (c == 't') = true
              · rw [if_pos hc4] at h
                rw [beq_iff_eq] at hc4
                subst hc4
                rcases hdl : dropLit ['r', 'u', 'e'] (u' ++ r) with _ | r' <;> rw [hdl] at h
                  <;> dsimp only at h
                · simp at h
                · rw [Option.some.injEq, Prod.mk.injEq] at h
                  obtain ⟨hv, hr'⟩ := h
                  rw [hr'] at hdl
                  have hu' : u' = ['r', 'u', 'e'] :=
                    List.append_cancel_right (dropLit_eq_some _ _ _ hdl)
                  subst hu'
                  rw [scan_run_out ['t', 'r', 'u', 'e'] dp Y (by decide)]
              · rw [if_neg hc4] at h
                by_cases hc5 : (c == 'f') = true
                · rw [if_pos hc5] at h
                  rw [beq_iff_eq] at hc5
                  subst hc5
                  rcases hdl : dropLit ['a', 'l', 's', 'e'] (u' ++ r) with _ | r' <;> rw [hdl] at h
                    <;> dsimp only at h
                  · simp at h
                  · rw [Option.some.injEq, Prod.mk.injEq] at h
                    obtain ⟨hv, hr'⟩ := h
                    rw [hr'] at hdl
                    have hu' : u' = ['a', 'l', 's', 'e'] :=
                      List.append_cancel_right (dropLit_eq_some _ _ _ hdl)
                    subst hu'
                    rw [scan_run_out ['f', 'a', 'l', 's', 'e'] dp Y (by decide)]
                · rw [if_neg hc5] at h
                  by_cases hc6 : (c == 'n') = true
                  · rw [if_pos hc6] at h
                    rw [beq_iff_eq] at hc6
                    subst hc6
                    rcases hdl : dropLit ['u', 'l', 'l'] (u' ++ r) with _ | r' <;> rw [hdl] at h
                      <;> dsimp only at h
                    · simp at h
                    · rw [Option.some.injEq, Prod.mk.injEq] at h
                      obtain ⟨hv, hr'⟩ := h
                      rw [hr'] at hdl
                      have hu' : u' = ['u', 'l', 'l'] :=
                        List.append_cancel_right (dropLit_eq_some _ _ _ hdl)
                      subst hu'
                      rw [scan_run_out ['n', 'u', 'l', 'l'] dp Y (by decide)]
                  · rw [if_neg hc6] at h
                    rcases hn : parseNumber (c :: (u' ++ r)) with _ | ⟨q, r'⟩ <;> rw [hn] at h
                      <;> dsimp only at h
                    · simp at h
                    · rw [Option.some.injEq, Prod.mk.injEq] at h
                      obtain ⟨hv, hr'⟩ := h
                      rw [hr'] at hn
                      obtain ⟨un, hdn, -, hch⟩ := parseNumber_consumed _ q r hn
                      have hun : un = c :: u' := by
                        have h2 : (c :: u') ++ r = un ++ r := by
                          rw [List.cons_append]; exact hdn
                        exact (List.append_cancel_right h2).symm
                      rw [scan_run_out (c :: u') dp Y (fun cc hcc =>
                        numChar_neutral cc (hch cc (by rw [hun]; exact hcc)))]
    | .members acc =>
      show scanAux dp false false (u ++ Y) =
        if dp = 1 then some u.length
        else (scanAux (dp - 1) false false Y).map (· + u.length)
      cases u with
      | nil => exact (parseF_no_echo (f + 1) _ r v (by simpa using h)).elim
      | cons c u' =>
        rw [List.cons_append] at h
        rw [parseF.eq_def] at h
        dsimp only at h
        by_cases hc : (c == '"') = true
        · rw [if_pos hc] at h
          rw [beq_iff_eq] at hc
          subst hc
          rcases hp : parseStringBody (u' ++ r) [] with _ | ⟨k, r1⟩ <;> rw [hp] at h
            <;> dsimp only at h
          · simp at h
          · rcases hsw1 : skipWs r1 with _ | ⟨c2, r3⟩ <;> rw [hsw1] at h <;> dsimp only at h
            · simp at h
            · by_cases hcol : (c2 == ':') = true
              · rw [if_pos hcol] at h
                rcases hval : parseF f .val (skipWs r3) with _ | ⟨v1, r4⟩ <;> rw [hval] at h
                  <;> dsimp only at h
                · simp at h
                · rcases hsw4 : skipWs r4 with _ | ⟨c3, r6⟩ <;> rw [hsw4] at h <;> dsimp only at h
                  · simp at h
                  · obtain ⟨uk, hdk, -⟩ := parseStringBody_consumed (u' ++ r) [] k r1 hp
                    obtain ⟨uv, clv, hdv, hnev, -, -, -⟩ :=
                      parseF_consumed f .val (skipWs r3) v1 r4 hval
                    obtain ⟨ws1, hd1, hws1⟩ :
                        ∃ wz, r1 = wz ++ (c2 :: r3) ∧ ∀ cc ∈ wz, jsonWs cc = true := by
                      refine ⟨r1.takeWhile jsonWs, ?_, fun cc hcc => List.mem_takeWhile_imp hcc⟩
                      have h2 := List.takeWhile_append_dropWhile jsonWs r1
                      rw [show r1.dropWhile jsonWs = skipWs r1 from rfl, hsw1] at h2
                      exact h2.symm
                    obtain ⟨ws3, hd3, hws3⟩ :
                        ∃ wz, r3 = wz ++ (uv ++ r4) ∧ ∀ cc ∈ wz, jsonWs cc = true := by
                      refine ⟨r3.takeWhile jsonWs, ?_, fun cc hcc => List.mem_takeWhile_imp hcc⟩
                      have h2 := List.takeWhile_append_dropWhile jsonWs r3
                      rw [show r3.dropWhile jsonWs = skipWs r3 from rfl, hdv] at h2
                      exact h2.symm
                    obtain ⟨ws4, hd4, hws4⟩ :
                        ∃ wz, r4 = wz ++ (c3 :: r6) ∧ ∀ cc ∈ wz, jsonWs cc = true := by
                      refine ⟨r4.takeWhile jsonWs, ?_, fun cc hcc => List.mem_takeWhile_imp hcc⟩
                      have h2 := List.takeWhile_append_dropWhile jsonWs r4
                      rw [show r4.dropWhile jsonWs = skipWs r4 from rfl, hsw4] at h2
                      exact h2.symm
                    obtain ⟨a, uv', rfl⟩ : ∃ a uv', uv = a :: uv' := by
                      cases uv with
                      | nil => exact absurd rfl hnev
                      | cons a uv' => exact ⟨a, uv', rfl⟩
                    have hc2col : c2 = ':' := beq_iff_eq.mp hcol
                    have hp2 : parseStringBody (uk ++ r1) [] = some (k, r1) := by
                      rw [← hdk]; exact hp
                    have hval2 : parseF f .val ((a :: uv') ++ r4) = some (v1, r4) := by
                      rw [← hdv]; exact hval
                    by_cases hcom : (c3 == ',') = true
                    · rw [if_pos hcom] at h
                      have hc3com : c3 = ',' := beq_iff_eq.mp hcom
                      obtain ⟨urec, clrec, hdrec, hnerec, -, -, -⟩ :=
                        parseF_consumed f _ (skipWs r6) v r h
                      obtain ⟨ws6, hd6, hws6⟩ :
                          ∃ wz, r6 = wz ++ (urec ++ r) ∧ ∀ cc ∈ wz, jsonWs cc = true := by
                        refine ⟨r6.takeWhile jsonWs, ?_, fun cc hcc => List.mem_takeWhile_imp hcc⟩
                        have h2 := List.takeWhile_append_dropWhile jsonWs r6
                        rw [show r6.dropWhile jsonWs = skipWs r6 from rfl, hdrec] at h2
                        exact h2.symm
                      obtain ⟨b, urec', rfl⟩ : ∃ b urec', urec = b :: urec' := by
                        cases urec with
                        | nil => exact absurd rfl hnerec
                        | cons b urec' => exact ⟨b, urec', rfl⟩
                      have hrec2 : parseF f (.members (acc ++ [(k, v1)])) ((b :: urec') ++ r) =
                          some (v, r) := by
                        rw [← hdrec]; exact h
                      have hu' : u' = uk ++ (ws1 ++ (c2 :: (ws3 ++ ((a :: uv') ++
                          (ws4 ++ (c3 :: (ws6 ++ (b :: urec')))))))) := by
                        have h2 : u' ++ r = (uk ++ (ws1 ++ (c2 :: (ws3 ++ ((a :: uv') ++
                            (ws4 ++ (c3 :: (ws6 ++ (b :: urec'))))))))) ++ r := by
                          rw [hdk, hd1, hd3, hd4, hd6]
                          simp [List.append_assoc]
                        exact List.append_cancel_right h2
                      have hlen := congrArg List.length hu'
                      simp only [List.length_append, List.length_cons] at hlen
                      have e1 : ('"' :: u') ++ Y = '"' :: (uk ++ (ws1 ++ (c2 :: (ws3 ++
                          ((a :: uv') ++ (ws4 ++ (c3 :: (ws6 ++ ((b :: urec') ++ Y))))))))) := by
                        rw [hu']
                        simp [List.append_assoc]
                      rw [e1, scan_open_quote dp _, scan_string uk [] k r1 hp2 dp _]
                      rw [scan_run_out ws1 dp _ (fun cc hcc => jsonWs_neutral cc (hws1 cc hcc))]
                      rw [scan_step_out c2 dp _ (by rw [hc2col]; decide)]
                      rw [scan_run_out ws3 dp _ (fun cc hcc => jsonWs_neutral cc (hws3 cc hcc))]
                      have hvs : scanAux dp false false ((a :: uv') ++ (ws4 ++ (c3 :: (ws6 ++
                          ((b :: urec') ++ Y))))) = (scanAux dp false false (ws4 ++ (c3 :: (ws6 ++
                          ((b :: urec') ++ Y))))).map (· + (a :: uv').length) :=
                        ih .val (a :: uv') r4 v1 hval2 dp _ hdp
                      rw [hvs]
                      rw [scan_run_out ws4 dp _ (fun cc hcc => jsonWs_neutral cc (hws4 cc hcc))]
                      rw [scan_step_out c3 dp _ (by rw [hc3com]; decide)]
                      rw [scan_run_out ws6 dp _ (fun cc hcc => jsonWs_neutral cc (hws6 cc hcc))]
                      have hrs : scanAux dp false false ((b :: urec') ++ Y) =
                          if dp = 1 then some (b :: urec').length
                          else (scanAux (dp - 1) false false Y).map (· + (b :: urec').length) :=
                        ih (.members (acc ++ [(k, v1)])) (b :: urec') r v hrec2 dp Y hdp
                      rw [hrs]
                      by_cases hdp1 : dp = 1
                      · rw [if_pos hdp1, if_pos hdp1]
                        simp only [Option.map_some', Option.some.injEq, List.length_cons]
                        omega
                      · rw [if_neg hdp1, if_neg hdp1]
                        cases scanAux (dp - 1) false false Y with
                        | none => rfl
                        | some m =>
                          simp only [Option.map_some', Option.some.injEq, List.length_cons]
                          omega
                    · rw [if_neg hcom] at h
                      by_cases hcb : (c3 == '}') = true
                      · rw [if_pos hcb] at h
                        have hc3b : c3 = '}' := beq_iff_eq.mp hcb
                        rw [Option.some.injEq, Prod.mk.injEq] at h
                        obtain ⟨hv, hr6⟩ := h
                        rw [hr6] at hd4
                        have hu' : u' = uk ++ (ws1 ++ (c2 :: (ws3 ++ ((a :: uv') ++
                            (ws4 ++ [c3]))))) := by
                          have h2 : u' ++ r = (uk ++ (ws1 ++ (c2 :: (ws3 ++ ((a :: uv') ++
                              (ws4 ++ [c3])))))) ++ r := by
                            rw [hdk, hd1, hd3, hd4]
                            simp [List.append_assoc]
                          exact List.append_cancel_right h2
                        have hlen := congrArg List.length hu'
                        simp only [List.length_append, List.length_cons, List.length_nil] at hlen
                        have e1 : ('"' :: u') ++ Y = '"' :: (uk ++ (ws1 ++ (c2 :: (ws3 ++
                            ((a :: uv') ++ (ws4 ++ (c3 :: Y))))))) := by
                          rw [hu']
                          simp [List.append_assoc]
                        rw [e1, scan_open_quote dp _, scan_string uk [] k r1 hp2 dp _]
                        rw [scan_run_out ws1 dp _ (fun cc hcc => jsonWs_neutral cc (hws1 cc hcc))]
                        rw [scan_step_out c2 dp _ (by rw [hc2col]; decide)]
                        rw [scan_run_out ws3 dp _ (fun cc hcc => jsonWs_neutral cc (hws3 cc hcc))]
                        have hvs : scanAux dp false false ((a :: uv') ++ (ws4 ++ (c3 :: Y))) =
                            (scanAux dp false false (ws4 ++ (c3 :: Y))).map
                              (· + (a :: uv').length) :=
                          ih .val (a :: uv') r4 v1 hval2 dp _ hdp
                        rw [hvs]
                        rw [scan_run_out ws4 dp _ (fun cc hcc => jsonWs_neutral cc (hws4 cc hcc))]
                        rw [hc3b]
                        by_cases hdp1 : dp = 1
                        · rw [scan_close_brace_hit dp Y (by omega)]
                          rw [if_pos hdp1]
                          simp only [Option.map_some', Option.some.injEq, List.length_cons]
                          omega
                        · rw [scan_close_brace dp Y (by omega)]
                          rw [if_neg hdp1]
                          cases scanAux (dp - 1) false false Y with
                          | none => rfl
                          | some m =>
                            simp only [Option.map_some', Option.some.injEq, List.length_cons]
                            omega
                      · rw [if_neg hcb] at h
                        simp at h
              · rw [if_neg hcol] at h
                simp at h
        · rw [if_neg hc] at h
          simp at h
    | .elems acc =>
      show scanAux dp false false (u ++ Y) = (scanAux dp false false Y).map (· + u.length)
      rw [parseF.eq_def] at h
      dsimp only at h
      rcases hval : parseF f .val (u ++ r) with _ | ⟨v1, r1⟩ <;> rw [hval] at h <;> dsimp only at h
      · simp at h
      · rcases hsw1 : skipWs r1 with _ | ⟨c2, r3⟩ <;> rw [hsw1] at h <;> dsimp only at h
        · simp at h
        · obtain ⟨uv, clv, hdv, hnev, -, -, -⟩ := parseF_consumed f .val (u ++ r) v1 r1 hval
          obtain ⟨ws1, hd1, hws1⟩ :
              ∃ wz, r1 = wz ++ (c2 :: r3) ∧ ∀ cc ∈ wz, jsonWs cc = true := by
            refine ⟨r1.takeWhile jsonWs, ?_, fun cc hcc => List.mem_takeWhile_imp hcc⟩
            have h2 := List.takeWhile_append_dropWhile jsonWs r1
            rw [show r1.dropWhile jsonWs = skipWs r1 from rfl, hsw1] at h2
            exact h2.symm
          have hval2 : parseF f .val (uv ++ r1) = some (v1, r1) := by
            rw [← hdv]; exact hval
          by_cases hcom : (c2 == ',') = true
          · rw [if_pos hcom] at h
            have hc2com : c2 = ',' := beq_iff_eq.mp hcom
            obtain ⟨urec, clrec, hdrec, hnerec, -, -, -⟩ := parseF_consumed f _ (skipWs r3) v r h
            obtain ⟨ws3, hd3, hws3⟩ :
                ∃ wz, r3 = wz ++ (urec ++ r) ∧ ∀ cc ∈ wz, jsonWs cc = true := by
              refine ⟨r3.takeWhile jsonWs, ?_, fun cc hcc => List.mem_takeWhile_imp hcc⟩
              have h2 := List.takeWhile_append_dropWhile jsonWs r3
              rw [show r3.dropWhile jsonWs = skipWs r3 from rfl, hdrec] at h2
              exact h2.symm
            obtain ⟨b, urec', rfl⟩ : ∃ b urec', urec = b :: urec' := by
              cases urec with
              | nil => exact absurd rfl hnerec
              | cons b urec' => exact ⟨b, urec', rfl⟩
            have hrec2 : parseF f (.elems (acc ++ [v1])) ((b :: urec') ++ r) = some (v, r) := by
              rw [← hdrec]; exact h
            have hu : u = uv ++ (ws1 ++ (c2 :: (ws3 ++ (b :: urec')))) := by
              have h2 : u ++ r = (uv ++ (ws1 ++ (c2 :: (ws3 ++ (b :: urec'))))) ++ r := by
                rw [hdv, hd1, hd3]
                simp [List.append_assoc]
              exact List.append_cancel_right h2
            have hlen := congrArg List.length hu
            simp only [List.length_append, List.length_cons] at hlen
            have e1 : u ++ Y = uv ++ (ws1 ++ (c2 :: (ws3 ++ ((b :: urec') ++ Y)))) := by
              rw [hu]
              simp [List.append_assoc]
            rw [e1]
            have hvs : scanAux dp false false (uv ++ (ws1 ++ (c2 :: (ws3 ++
                ((b :: urec') ++ Y))))) = (scanAux dp false false (ws1 ++ (c2 :: (ws3 ++
                ((b :: urec') ++ Y))))).map (· + uv.length) :=
              ih .val uv r1 v1 hval2 dp _ hdp
            rw [hvs]
            rw [scan_run_out ws1 dp _ (fun cc hcc => jsonWs_neutral cc (hws1 cc hcc))]
            rw [scan_step_out c2 dp _ (by rw [hc2com]; decide)]
            rw [scan_run_out ws3 dp _ (fun cc hcc => jsonWs_neutral cc (hws3 cc hcc))]
            have hrs : scanAux dp false false ((b :: urec') ++ Y) =
                (scanAux dp false false Y).map (· + (b :: urec').length) :=
              ih (.elems (acc ++ [v1])) (b :: urec') r v hrec2 dp Y hdp
            rw [hrs]
            cases scanAux dp false false Y with
            | none => rfl
            | some m =>
              simp only [Option.map_some', Option.some.injEq, List.length_cons]
              omega
          · rw [if_neg hcom] at h
            by_cases hcb : (c2 == ']') = true
            · rw [if_pos hcb] at h
              have hc2b : c2 = ']' := beq_iff_eq.mp hcb
              rw [Option.some.injEq, Prod.mk.injEq] at h
              obtain ⟨hv, hr3⟩ := h
              rw [hr3] at hd1
              have hu : u = uv ++ (ws1 ++ [c2]) := by
                have h2 : u ++ r = (uv ++ (ws1 ++ [c2])) ++ r := by
                  rw [hdv, hd1]
                  simp [List.append_assoc]
                exact List.append_cancel_right h2
              have hlen := congrArg List.length hu
              simp only [List.length_append, List.length_cons, List.length_nil] at hlen
              have e1 : u ++ Y = uv ++ (ws1 ++ (c2 :: Y)) := by
                rw [hu]
                simp [List.append_assoc]
              rw [e1]
              have hvs : scanAux dp false false (uv ++ (ws1 ++ (c2 :: Y))) =
                  (scanAux dp false false (ws1 ++ (c2 :: Y))).map (· + uv.length) :=
                ih .val uv r1 v1 hval2 dp _ hdp
              rw [hvs]
              rw [scan_run_out ws1 dp _ (fun cc hcc => jsonWs_neutral cc (hws1 cc hcc))]
              rw [scan_step_out c2 dp _ (by rw [hc2b]; decide)]
              cases scanAux dp false false Y with
              | none => rfl
              | some m =>
                simp only [Option.map_some', Option.some.injEq, List.length_cons]
                omega
            · rw [if_neg hcb] at h
              simp at h

/-! ## Assembly: strip, jsonLoads decomposition, extract_json_from_result -/

theorem dropWhile_nil_all (p : Char → Bool) (l : List Char) (h : l.dropWhile p = []) :
    ∀ c ∈ l, p c = true := by
  induction l with
  | nil => intro c hc; simp at hc
  | cons a l' ih =>
    rw [List.dropWhile_cons] at h
    by_cases ha : p a = true
    · rw [if_pos ha] at h
      intro c hc
      rcases List.mem_cons.mp hc with rfl | hc
      · exact ha
      · exact ih h c hc
    · rw [if_neg ha] at h
      exact absurd h (by simp)

theorem dropWhile_all_nil (p : Char → Bool) (l : List Char) (h : ∀ c ∈ l, p c = true) :
    l.dropWhile p = [] := by
  induction l with
  | nil => rfl
  | cons a l' ih =>
    rw [List.dropWhile_cons, if_pos (h a (by simp))]
    exact ih (fun c hc => h c (by simp [hc]))

theorem parseF_val_head (f : Nat) (c : Char) (rest : List Char) (v : Json) (r : List Char)
    (h : parseF f PMode.val (c :: rest) = some (v, r)) :
    pyIsSpace c = false ∧ (c == '`') = false := by
  cases f with
  | zero => simp [parseF] at h
  | succ f =>
    rw [parseF.eq_def] at h
    dsimp only at h
    by_cases hc1 : (c == '{') = true
    · rw [beq_iff_eq] at hc1; subst hc1; exact ⟨rfl, rfl⟩
    · rw [if_neg hc1] at h
      by_cases hc2 : (c == '[') = true
      · rw [beq_iff_eq] at hc2; subst hc2; exact ⟨rfl, rfl⟩
      · rw [if_neg hc2] at h
        by_cases hc3 : (c == '"') = true
        · rw [beq_iff_eq] at hc3; subst hc3; exact ⟨rfl, rfl⟩
        · rw [if_neg hc3] at h
          by_cases hc4 : (c == 't') = true
          · rw [beq_iff_eq] at hc4; subst hc4; exact ⟨rfl, rfl⟩
          · rw [if_neg hc4] at h
            by_cases hc5 : (c == 'f') = true
            · rw [beq_iff_eq] at hc5; subst hc5; exact ⟨rfl, rfl⟩
            · rw [if_neg hc5] at h
              by_cases hc6 : (c == 'n') = true
              · rw [beq_iff_eq] at hc6; subst hc6; exact ⟨rfl, rfl⟩
              · rw [if_neg hc6] at h
                rcases hn : parseNumber (c :: rest) with _ | ⟨q, r'⟩ <;> rw [hn] at h
                  <;> dsimp only at h
                · simp at h
                · obtain ⟨un, hdn, hne, hch⟩ := parseNumber_consumed _ q r' hn
                  have hcm : c ∈ un := by
                    cases un with
                    | nil => exact absurd rfl hne
                    | cons a un' =>
                      rw [List.cons_append, List.cons.injEq] at hdn
                      rw [hdn.1]
                      simp
                  have hnc := hch c hcm
                  refine ⟨numChar_not_space c hnc, ?_⟩
                  by_cases hb : (c == '`') = true
                  · rw [beq_iff_eq] at hb; subst hb; exact absurd hnc (by decide)
                  · simpa using hb

theorem rstrip_append (core Y : List Char) (cl : Char)
    (hl : core.getLast? = some cl) (hns : pyIsSpace cl = false) :
    ((core ++ Y).reverse.dropWhile pyIsSpace).reverse =
      core ++ (Y.reverse.dropWhile pyIsSpace).reverse := by
  rw [List.reverse_append]
  rw [List.dropWhile_append]
  by_cases hY : (Y.reverse.dropWhile pyIsSpace).isEmpty = true
  · rw [if_pos hY]
    have hhead : core.reverse.head? = some cl := by
      rw [List.head?_reverse]; exact hl
    obtain ⟨w', hw'⟩ : ∃ w', core.reverse = cl :: w' := by
      cases hcr : core.reverse with
      | nil => rw [hcr] at hhead; simp at hhead
      | cons x w' =>
        rw [hcr] at hhead
        rw [List.head?_cons, Option.some.injEq] at hhead
        exact ⟨w', by rw [hhead]⟩
    rw [hw', List.dropWhile_cons, hns]
    simp only [Bool.false_eq_true, if_false]
    rw [← hw', List.reverse_reverse]
    have hnil : Y.reverse.dropWhile pyIsSpace = [] := by
      cases hYY : Y.reverse.dropWhile pyIsSpace with
      | nil => rfl
      | cons a b => rw [hYY] at hY; simp at hY
    rw [hnil]
    simp
  · rw [if_neg hY]
    rw [List.reverse_append, List.reverse_reverse]

theorem jsonLoads_decomp (l : List Char) (v : Json) (h : jsonLoads l = some v) :
    ∃ core rem,
      skipWs l = core ++ rem ∧
      parseF (2 * (skipWs l).length + 1) PMode.val (core ++ rem) = some (v, rem) ∧
      core ≠ [] ∧ (∀ c ∈ rem, jsonWs c = true) ∧
      ∃ cl, core.getLast? = some cl ∧ pyIsSpace cl = false := by
  unfold jsonLoads at h
  dsimp only at h
  rcases hp : parseF (2 * (skipWs l).length + 1) .val (skipWs l) with _ | ⟨v0, rem⟩
    <;> rw [hp] at h <;> dsimp only at h
  · simp at h
  · by_cases hE : (skipWs rem).isEmpty = true
    · rw [if_pos hE] at h
      rw [Option.some.injEq] at h
      subst h
      obtain ⟨core, cl, hd, hne, hlast, hns, -⟩ := parseF_consumed _ .val (skipWs l) v0 rem hp
      refine ⟨core, rem, hd, by rw [← hd]; exact hp, hne, ?_, ⟨cl, hlast, hns⟩⟩
      have hnil : skipWs rem = [] := by
        cases hSE : skipWs rem with
        | nil => rfl
        | cons a b => rw [hSE] at hE; simp at hE
      exact dropWhile_nil_all jsonWs rem hnil
    · rw [if_neg hE] at h
      simp at h

theorem jsonLoads_of_core (core : List Char) (v : Json) (hc : Char) (core' : List Char)
    (hcore : core = hc :: core') (hnw : jsonWs hc = false)
    (hpar : parseF (2 * core.length + 1) PMode.val (core ++ []) = some (v, [])) :
    jsonLoads core = some v := by
  rw [List.append_nil] at hpar
  unfold jsonLoads
  dsimp only
  rw [hcore, skipWs_cons_of_not_ws hc core' hnw, ← hcore]
  rw [hpar]
  rfl

theorem scan_of_val_obj (f : Nat) (core' r : List Char) (o : List (String × Json))
    (h : parseF (f + 1) PMode.val (('{' :: core') ++ r) = some (Json.obj o, r)) :
    ∀ Y, scanAux 0 false false ('{' :: (core' ++ Y)) = some ('{' :: core').length := by
  intro Y
  rw [List.cons_append] at h
  rw [parseF.eq_def] at h
  dsimp only at h
  rw [if_pos (by decide : (('{' : Char) == '{') = true)] at h
  rcases hswu : skipWs core' with _ | ⟨d0, w⟩
  · exfalso
    rw [skipWs_append_of_empty core' r hswu] at h
    rcases hswr : skipWs r with _ | ⟨d0, r2⟩ <;> rw [hswr] at h <;> dsimp only at h
    · obtain ⟨uu, cl, hu, hne, -, -, -⟩ := parseF_consumed f _ [] _ r h
      have h2 := congrArg List.length hu
      simp only [List.length_nil, List.length_append] at h2
      exact hne (List.eq_nil_of_length_eq_zero (by omega))
    · by_cases hd : (d0 == '}') = true
      · rw [if_pos hd] at h
        rw [Option.some.injEq, Prod.mk.injEq] at h
        have hlen := dropWhile_length_le jsonWs r
        rw [show r.dropWhile jsonWs = skipWs r from rfl, hswr] at hlen
        have h2 := congrArg List.length h.2
        simp only [List.length_cons] at hlen
        omega
      · rw [if_neg hd] at h
        have hrem := parseF_remainder_lt f _ _ _ _ h
        have hlen := dropWhile_length_le jsonWs r
        rw [show r.dropWhile jsonWs = skipWs r from rfl, hswr] at hlen
        simp only [List.length_cons] at hlen hrem
        omega
  · obtain ⟨ws1, hd1, hws1⟩ :
        ∃ wz, core' = wz ++ (d0 :: w) ∧ ∀ cc ∈ wz, jsonWs cc = true := by
      refine ⟨core'.takeWhile jsonWs, ?_, fun cc hcc => List.mem_takeWhile_imp hcc⟩
      have h2 := List.takeWhile_append_dropWhile jsonWs core'
      rw [show core'.dropWhile jsonWs = skipWs core' from rfl, hswu] at h2
      exact h2.symm
    rw [skipWs_append_of_ne core' r d0 w hswu] at h
    dsimp only at h
    have hlen1 := congrArg List.length hd1
    simp only [List.length_append, List.length_cons] at hlen1
    by_cases hd : (d0 == '}') = true
    · rw [if_pos hd] at h
      rw [beq_iff_eq] at hd
      subst hd
      rw [Option.some.injEq, Prod.mk.injEq] at h
      obtain ⟨hv, hww⟩ := h
      have hw0 : w = [] := by
        have h2 := congrArg List.length hww
        simp only [List.length_append] at h2
        exact List.eq_nil_of_length_eq_zero (by omega)
      subst hw0
      have e1 : core' ++ Y = ws1 ++ ('}' :: Y) := by
        rw [hd1]; simp
      rw [e1, scan_open_brace 0 _]
      rw [show (0 : Int) + 1 = 1 from by omega]
      rw [scan_run_out ws1 1 _ (fun cc hcc => jsonWs_neutral cc (hws1 cc hcc))]
      rw [scan_close_brace_hit 1 Y (by omega)]
      simp only [Option.map_some', Option.some.injEq, List.length_cons]
      simp only [List.length_nil] at hlen1
      omega
    · rw [if_neg hd] at h
      have hm : parseF f (.members []) ((d0 :: w) ++ r) = some (.obj o, r) := by
        rw [List.cons_append]; exact h
      have hms : scanAux 1 false false ((d0 :: w) ++ Y) =
          if (1 : Int) = 1 then some (d0 :: w).length
          else (scanAux ((1 : Int) - 1) false false Y).map (· + (d0 :: w).length) :=
        parseF_scan f (.members []) (d0 :: w) r (.obj o) hm 1 Y (by omega)
      rw [if_pos rfl] at hms
      have e1 : core' ++ Y = ws1 ++ ((d0 :: w) ++ Y) := by
        rw [hd1]; simp
      rw [e1, scan_open_brace 0 _]
      rw [show (0 : Int) + 1 = 1 from by omega]
      rw [scan_run_out ws1 1 _ (fun cc hcc => jsonWs_neutral cc (hws1 cc hcc))]
      rw [hms]
      simp only [Option.map_some', Option.some.injEq, List.length_cons]
      omega

theorem strip_loads_decomp (l : List Char) (v : Json) (h : jsonLoads l = some v) :
    ∃ (hc : Char) (core' rem : List Char),
      skipWs l = (hc :: core') ++ rem ∧
      parseF (2 * (skipWs l).length + 1) PMode.val ((hc :: core') ++ rem) = some (v, rem) ∧
      (∀ c ∈ rem, jsonWs c = true) ∧
      pyIsSpace hc = false ∧ (hc == '`') = false ∧
      (∃ cl, (hc :: core').getLast? = some cl ∧ pyIsSpace cl = false) ∧
      (∀ Z : List Char, pyStripL (l ++ Z) =
        (hc :: core') ++ ((rem ++ Z).reverse.dropWhile pyIsSpace).reverse) := by
  obtain ⟨core, rem, hd, hp, hne, hremws, cl, hlast, hns⟩ := jsonLoads_decomp l v h
  obtain ⟨hc, core', rfl⟩ : ∃ hc core', core = hc :: core' := by
    cases core with
    | nil => exact absurd rfl hne
    | cons a b => exact ⟨a, b, rfl⟩
  have hp2 := hp
  rw [List.cons_append] at hp2
  have hhead := parseF_val_head _ hc (core' ++ rem) v rem hp2
  refine ⟨hc, core', rem, hd, hp, hremws, hhead.1, hhead.2, ⟨cl, hlast, hns⟩, ?_⟩
  intro Z
  have hsd : l = l.takeWhile jsonWs ++ ((hc :: core') ++ rem) := by
    have h2 := List.takeWhile_append_dropWhile jsonWs l
    rw [show l.dropWhile jsonWs = skipWs l from rfl, hd] at h2
    exact h2.symm
  have hleft : (l ++ Z).dropWhile pyIsSpace = (hc :: core') ++ (rem ++ Z) := by
    have e : l ++ Z = l.takeWhile jsonWs ++ ((hc :: core') ++ (rem ++ Z)) := by
      rw [show l ++ Z = (l.takeWhile jsonWs ++ ((hc :: core') ++ rem)) ++ Z from by
        rw [← hsd]]
      simp [List.append_assoc]
    rw [e]
    exact (takeWhile_all_append pyIsSpace _ _
      (fun c hcc => jsonWs_pyIsSpace c (List.mem_takeWhile_imp hcc))
      (fun c r' hcr => by
        rw [List.cons_append, List.cons.injEq] at hcr
        rw [← hcr.1]
        exact hhead.1)).2
  unfold pyStripL
  rw [hleft]
  exact rstrip_append (hc :: core') (rem ++ Z) cl hlast hns

/-- C6: on any string whose full text parses as JSON, `extract_json_from_result`
returns exactly the `json.loads` value; and on every input the function is total,
signalling absence of JSON by `none` rather than by an exception. -/
theorem extract_json_loads_agreement :
    (∀ (s : String) (v : Json), jsonLoads s.data = some v →
      extract_json_from_result s = some v) ∧
    (∀ s : String, extract_json_from_result s = Option.none ∨
      ∃ v, extract_json_from_result s = some v) := by
  constructor
  · intro s v h
    obtain ⟨hc, core', rem, hd, hp, hremws, hnsp, hnbt, ⟨cl, hlast, hns⟩, hstripZ⟩ :=
      strip_loads_decomp s.data v h
    have hstrip : pyStripL s.data = hc :: core' := by
      have h2 := hstripZ []
      simp only [List.append_nil] at h2
      rw [h2]
      rw [dropWhile_all_nil pyIsSpace rem.reverse
        (fun c hcc => jsonWs_pyIsSpace c (hremws c (List.mem_reverse.mp hcc)))]
      simp
    have hJW : jsonWs hc = false := by
      by_cases hw : jsonWs hc = true
      · exact absurd (jsonWs_pyIsSpace hc hw) (by simp [hnsp])
      · simpa using hw
    have hjl : jsonLoads (hc :: core') = some v := by
      apply jsonLoads_of_core (hc :: core') v hc core' rfl hJW
      apply parseF_main _ .val (hc :: core') rem [] v _ hp (le_refl _)
      intro q hq
      constructor
      · cases rem with
        | nil => rfl
        | cons a b => exact goodB_of_head a b (Or.inl (hremws a (by simp)))
      · rfl
    unfold extract_json_from_result extract_json_from_string
    dsimp only
    rw [hstrip]
    split
    · rename_i x heq
      exfalso
      rw [List.cons.injEq] at heq
      rw [heq.1] at hnbt
      simp at hnbt
    · unfold extractCore
      rw [hjl]
  · intro s
    cases h : extract_json_from_result s with
    | none => exact Or.inl rfl
    | some v => exact Or.inr ⟨v, rfl⟩

/-- Witness for C6 at a concrete JSON document. -/
theorem extract_json_loads_agreement_witness :
    jsonLoads ("\x7b\"a\": 1\x7d" : String).data =
      some (Json.obj [("a", Json.num ⟨1, 0⟩)]) ∧
    extract_json_from_result "\x7b\"a\": 1\x7d" =
      some (Json.obj [("a", Json.num ⟨1, 0⟩)]) :=
  ⟨rfl, extract_json_loads_agreement.1 "\x7b\"a\": 1\x7d" _ rfl⟩

/-- C1: for any string whose text is a single top-level JSON object, appending
arbitrary trailing text leaves the extracted object unchanged (the brace-depth
scan ignores braces inside string literals and escaped quotes, as exercised by
the concrete scenario in the second conjunct). -/
theorem extract_json_trailing_garbage :
    (∀ (s t : String) (o : List (String × Json)),
      jsonLoads s.data = some (Json.obj o) →
      extract_json_from_result (s ++ t) = some (Json.obj o)) ∧
    extract_json_from_result "\x7b\"issues\": [1,2,\"a\x7db\"]\x7d trailing text" =
      some (Json.obj [("issues",
        Json.arr [Json.num ⟨1, 0⟩, Json.num ⟨2, 0⟩, Json.str "a\x7db"])]) := by
  constructor
  · intro s t o h
    obtain ⟨hc, core', rem, hd, hp, hremws, hnsp, hnbt, ⟨cl, hlast, hns⟩, hstripZ⟩ :=
      strip_loads_decomp s.data (Json.obj o) h
    have hp2 := hp
    rw [List.cons_append] at hp2
    have hcbrace : hc = '{' := parseF_obj_head _ hc (core' ++ rem) o rem hp2
    subst hcbrace
    have hdata : (s ++ t).data = s.data ++ t.data := String.data_append s t
    obtain ⟨X, hstrip⟩ : ∃ X, pyStripL ((s ++ t).data) = ('{' :: core') ++ X :=
      ⟨_, by rw [hdata]; exact hstripZ t.data⟩
    have hkey : ∀ g, 2 * ('{' :: core').length + 1 ≤ g →
        parseF g .val (('{' :: core') ++ X) = some (Json.obj o, X) := by
      intro g hg
      exact parseF_main _ .val ('{' :: core') rem X (Json.obj o) g hp hg
        (fun q hq => Json.noConfusion hq)
    have hscan : ∀ Y, scanAux 0 false false ('{' :: (core' ++ Y)) =
        some ('{' :: core').length :=
      scan_of_val_obj _ core' rem o hp
    have hjlcore : jsonLoads ('{' :: core') = some (Json.obj o) := by
      apply jsonLoads_of_core ('{' :: core') (Json.obj o) '{' core' rfl rfl
      exact parseF_main _ .val ('{' :: core') rem [] (Json.obj o) _ hp (le_refl _)
        (fun q hq => Json.noConfusion hq)
    have hjlrs : jsonLoads (('{' :: core') ++ X) =
        if (skipWs X).isEmpty then some (Json.obj o) else Option.none := by
      unfold jsonLoads
      dsimp only
      have hsw : skipWs (('{' :: core') ++ X) = ('{' :: core') ++ X := by
        rw [List.cons_append]
        exact skipWs_cons_of_not_ws '{' _ rfl
      rw [hsw]
      rw [hkey _ (by simp only [List.length_append]; omega)]
    unfold extract_json_from_result extract_json_from_string
    dsimp only
    rw [hstrip]
    rw [List.cons_append]
    split
    · rename_i x heq
      exfalso
      rw [List.cons.injEq] at heq
      exact absurd heq.1 (by decide)
    · unfold extractCore
      rw [← List.cons_append]
      rw [hjlrs]
      by_cases hXE : (skipWs X).isEmpty = true
      · rw [if_pos hXE]
      · rw [if_neg hXE]
        rw [List.cons_append]
        dsimp only
        unfold scanFind
        rw [hscan X]
        dsimp only
        rw [show ('{' :: (core' ++ X)) = ('{' :: core') ++ X from by rw [List.cons_append]]
        rw [show (('{' :: core') ++ X).take ('{' :: core').length = '{' :: core' from
          List.take_left _ _]
        exact hjlcore
  · rfl

/-- Witness for C1: a concrete object with concrete trailing garbage. -/
theorem extract_json_trailing_garbage_witness :
    jsonLoads ("\x7b\"a\": 1\x7d" : String).data =
      some (Json.obj [("a", Json.num ⟨1, 0⟩)]) ∧
    extract_json_from_result ("\x7b\"a\": 1\x7d" ++ " extra") =
      some (Json.obj [("a", Json.num ⟨1, 0⟩)]) :=
  ⟨rfl, extract_json_trailing_garbage.1 "\x7b\"a\": 1\x7d" " extra"
    [("a", Json.num ⟨1, 0⟩)] rfl⟩
